import Mathlib

/-!
# votebot-api: the conversation chain engine of `models/bot.js`

A shallow embedding of the chain table, the validators, the per-state question
scheduler, the step resolver `find_next_step`, the turn engine `exports.next`
and `exports.start` with `convo_model.create`, followed by the theorems that
settle the specification's claims about them.

JavaScript values are embedded as the inductive `JSVal`; a promise is embedded
by its settled result; the collaborators that live outside `models/bot.js`
(`lib/util`, `lib/language`, the user, message and zip models) are parameters.
-/

set_option autoImplicit false

namespace Votebot

/-! ## JavaScript values -/

/-- A JavaScript value, as far as the chain engine handles one. `arr` is the
array a regular-expression match returns. -/
inductive JSVal where
  | undefined : JSVal
  | null : JSVal
  | bool (b : Bool) : JSVal
  | num (n : Int) : JSVal
  | str (s : String) : JSVal
  | arr (xs : List String) : JSVal
  | obj (fields : List (String × JSVal)) : JSVal

mutual
/-- Equality of values is decidable. -/
def JSVal.decEq : (a b : JSVal) → Decidable (a = b)
  | .undefined, .undefined => isTrue rfl
  | .null, .null => isTrue rfl
  | .bool a, .bool b =>
    if h : a = b then isTrue (by rw [h]) else isFalse (by intro h2; cases h2; exact h rfl)
  | .num a, .num b =>
    if h : a = b then isTrue (by rw [h]) else isFalse (by intro h2; cases h2; exact h rfl)
  | .str a, .str b =>
    if h : a = b then isTrue (by rw [h]) else isFalse (by intro h2; cases h2; exact h rfl)
  | .arr a, .arr b =>
    if h : a = b then isTrue (by rw [h]) else isFalse (by intro h2; cases h2; exact h rfl)
  | .obj a, .obj b =>
    match JSVal.decEqFields a b with
    | isTrue h => isTrue (by rw [h])
    | isFalse h => isFalse (by intro h2; cases h2; exact h rfl)
  | .undefined, .null => isFalse (by intro h; cases h)
  | .undefined, .bool _ => isFalse (by intro h; cases h)
  | .undefined, .num _ => isFalse (by intro h; cases h)
  | .undefined, .str _ => isFalse (by intro h; cases h)
  | .undefined, .arr _ => isFalse (by intro h; cases h)
  | .undefined, .obj _ => isFalse (by intro h; cases h)
  | .null, .undefined => isFalse (by intro h; cases h)
  | .null, .bool _ => isFalse (by intro h; cases h)
  | .null, .num _ => isFalse (by intro h; cases h)
  | .null, .str _ => isFalse (by intro h; cases h)
  | .null, .arr _ => isFalse (by intro h; cases h)
  | .null, .obj _ => isFalse (by intro h; cases h)
  | .bool _, .undefined => isFalse (by intro h; cases h)
  | .bool _, .null => isFalse (by intro h; cases h)
  | .bool _, .num _ => isFalse (by intro h; cases h)
  | .bool _, .str _ => isFalse (by intro h; cases h)
  | .bool _, .arr _ => isFalse (by intro h; cases h)
  | .bool _, .obj _ => isFalse (by intro h; cases h)
  | .num _, .undefined => isFalse (by intro h; cases h)
  | .num _, .null => isFalse (by intro h; cases h)
  | .num _, .bool _ => isFalse (by intro h; cases h)
  | .num _, .str _ => isFalse (by intro h; cases h)
  | .num _, .arr _ => isFalse (by intro h; cases h)
  | .num _, .obj _ => isFalse (by intro h; cases h)
  | .str _, .undefined => isFalse (by intro h; cases h)
  | .str _, .null => isFalse (by intro h; cases h)
  | .str _, .bool _ => isFalse (by intro h; cases h)
  | .str _, .num _ => isFalse (by intro h; cases h)
  | .str _, .arr _ => isFalse (by intro h; cases h)
  | .str _, .obj _ => isFalse (by intro h; cases h)
  | .arr _, .undefined => isFalse (by intro h; cases h)
  | .arr _, .null => isFalse (by intro h; cases h)
  | .arr _, .bool _ => isFalse (by intro h; cases h)
  | .arr _, .num _ => isFalse (by intro h; cases h)
  | .arr _, .str _ => isFalse (by intro h; cases h)
  | .arr _, .obj _ => isFalse (by intro h; cases h)
  | .obj _, .undefined => isFalse (by intro h; cases h)
  | .obj _, .null => isFalse (by intro h; cases h)
  | .obj _, .bool _ => isFalse (by intro h; cases h)
  | .obj _, .num _ => isFalse (by intro h; cases h)
  | .obj _, .str _ => isFalse (by intro h; cases h)
  | .obj _, .arr _ => isFalse (by intro h; cases h)
/-- Equality of field lists is decidable. -/
def JSVal.decEqFields : (a b : List (String × JSVal)) → Decidable (a = b)
  | [], [] => isTrue rfl
  | [], _ :: _ => isFalse (by intro h; cases h)
  | _ :: _, [] => isFalse (by intro h; cases h)
  | (k, v) :: as, (k2, v2) :: bs =>
    if hk : k = k2 then
      match JSVal.decEq v v2 with
      | isTrue hv =>
        match JSVal.decEqFields as bs with
        | isTrue ht => isTrue (by rw [hk, hv, ht])
        | isFalse ht => isFalse (by intro h; cases h; exact ht rfl)
      | isFalse hv => isFalse (by intro h; cases h; exact hv rfl)
    else isFalse (by intro h; cases h; exact hk rfl)
end

instance : DecidableEq JSVal := JSVal.decEq

/-- JavaScript truthiness (`if(v)`, `!v`, `v || w`). -/
def truthy : JSVal → Bool
  | .undefined => false
  | .null => false
  | .bool b => b
  | .num n => n != 0
  | .str s => s != ""
  | .arr _ => true
  | .obj _ => true

/-- The test `v !== undefined`. -/
def is_defined : JSVal → Bool
  | .undefined => false
  | _ => true

/-- An `Error` object: its message and the two flags `data_error` sets. -/
structure Err where
  message : String
  data_error : Bool
  end_conversation : Bool
deriving DecidableEq, Repr

/-- The result of `new Error(msg)`: neither flag is set. -/
def js_error (msg : String) : Err :=
  { message := msg, data_error := false, end_conversation := false }

/-- The `TypeError` the runtime raises on a call or property access that
cannot be made (`x.trim is not a function`, `null[0]`, ...). -/
def type_error (what : String) : Err :=
  js_error what

/-! ## Strings -/

/-- The code points `String.prototype.trim` removes: ECMAScript WhiteSpace and
LineTerminator. -/
def is_js_whitespace (c : Char) : Bool :=
  let n := c.toNat
  n == 0x09 || n == 0x0A || n == 0x0B || n == 0x0C || n == 0x0D || n == 0x20 ||
  n == 0xA0 || n == 0x1680 || (0x2000 ≤ n && n ≤ 0x200A) || n == 0x2028 ||
  n == 0x2029 || n == 0x202F || n == 0x205F || n == 0x3000 || n == 0xFEFF

/-- The method `trim` of a string. -/
def js_trim (s : String) : String :=
  ⟨((s.data.dropWhile is_js_whitespace).reverse.dropWhile is_js_whitespace).reverse⟩

/-- Splits the characters of a dotted path at each `'.'`. -/
def split_dots : List Char → List String
  | [] => [""]
  | c :: cs =>
    match split_dots cs with
    | [] => [""]
    | seg :: segs =>
      if c = '.' then "" :: seg :: segs else ⟨c :: seg.data⟩ :: segs

/-! ## `util.object` (module `lib/util`) -/

/-- The own property `k` of a list of fields (`undefined` when there is none). -/
def field_get : List (String × JSVal) → String → JSVal
  | [], _ => .undefined
  | (k', v) :: rest, k => if k' = k then v else field_get rest k

/-- Assigns the property `k` of a list of fields, in place when it exists and
appended when it does not (the key order of a JavaScript object). -/
def field_set : List (String × JSVal) → String → JSVal → List (String × JSVal)
  | [], k, v => [(k, v)]
  | (k', v') :: rest, k, v =>
    if k' = k then (k', v) :: rest else (k', v') :: field_set rest k v

/-- Walks a list of path segments down a value. -/
def get_path : JSVal → List String → JSVal
  | v, [] => v
  | .obj fields, k :: rest => get_path (field_get fields k) rest
  | _, _ :: _ => .undefined

/-- Modelled from the spec: `util.object.get` of `lib/util`, the reader of a
dotted path (`'settings.city'`) in a record; a path that leaves the record
reads `undefined`. -/
def object_get (data : JSVal) (path : String) : JSVal :=
  get_path data (split_dots path.data)

/-- Writes a value at a list of path segments, creating the records on the way. -/
def set_path : JSVal → List String → JSVal → JSVal
  | _, [], x => x
  | .obj fields, k :: rest, x =>
    .obj (field_set fields k (set_path (field_get fields k) rest x))
  | _, k :: rest, x => .obj [(k, set_path .undefined rest x)]

/-- Modelled from the spec: `util.object.set` of `lib/util`, the writer of a
dotted path in a record. -/
def object_set (data : JSVal) (path : String) (x : JSVal) : JSVal :=
  set_path data (split_dots path.data) x

/-! ## Collaborators outside `models/bot.js` -/

/-- A settled promise: resolved with a value or rejected with an error. -/
inductive Settled (α : Type) where
  | resolved (a : α) : Settled α
  | rejected (e : Err) : Settled α
deriving DecidableEq

/-- The outcome of a call that returns a promise: the call may throw before it
returns (`thrown`), or return a promise that settles. -/
inductive Outcome (α : Type) where
  | thrown (e : Err) : Outcome α
  | returned (p : Settled α) : Outcome α
deriving DecidableEq

/-- A record of `zip_model.find`: its code and the places of that code, each
with a city and a state. -/
structure ZipData where
  code : JSVal
  places : List (JSVal × JSVal)

/-- The pure helpers the chain table calls that are not part of
`models/bot.js`: the runtime's `toLowerCase` and `Date`, `lib/language`,
`zip_model.find` and the configured application URL. -/
structure Env where
  toLowerCase : String → String
  is_cancel : String → JSVal
  is_yes : String → JSVal
  is_no : String → JSVal
  get_gender : String → JSVal
  /-- `new Date(body)`: `none` for an invalid date, else year, month (1-12), day. -/
  date_parse : String → Option (Nat × Nat × Nat)
  zip_find : String → Settled ZipData
  /-- `encodeURIComponent(config.app.url)`. -/
  app_url : String

/-! ## Transitions, `data_error` and `simple_store` -/

/-- The assignments of a transition: an object from dotted paths to values, in
key order. -/
abbrev Store := List (String × JSVal)

/-- A transition (the `action` of the source): the requested next step and,
unless the user cancels, the assignments. -/
structure Action where
  next : String
  store : Option Store
deriving DecidableEq

/-- The error built by `data_error(msg, options)`: `data_error` is set; the
flag `end_conversation` is set on the value the function holds at that line,
which is the error itself only when `options.promise` is not given. -/
def data_error (msg : String) (promise end_ : Bool) : Err :=
  { message := msg, data_error := true, end_conversation := end_ && !promise }

/-- The promise a validator returns: it resolves to an array of the normalised
value and, optionally, further assignments. -/
abbrev Validator := String → Outcome (JSVal × Option Store)

/-- The processor of a step: from the message body to the promise of a
transition. -/
abbrev Processor := String → Outcome Action

/-- The function `simple_store(store, next, errormsg, options)`; `errormsg` is
`none` where the call passes none (the message of `new Error(undefined)` is
empty), `validate` is `options.validate`. -/
def simple_store (store next : String) (errormsg : Option String)
    (validate : Option Validator) : Processor := fun body =>
  if js_trim body = "" then
    .returned (.rejected (data_error (errormsg.getD "") true false))
  else
    match validate with
    | none => .returned (.resolved { next := next, store := some [(store, .str body)] })
    | some v =>
      match v body with
      | .thrown e => .thrown e
      | .returned (.rejected e) => .returned (.rejected e)
      | .returned (.resolved (value, extra_store)) =>
        .returned (.resolved
          { next := next, store := some (field_set (extra_store.getD []) store value) })

/-! ## Validators -/

/-- Decimal digits of a number, left-padded with zeros to the width of `pad`
(`util.left_pad`). -/
def left_pad (n : Nat) (pad : String) : String :=
  let s := Nat.repr n
  ⟨List.replicate (pad.length - s.length) '0' ++ s.data⟩

/-- The function `validate_date`. -/
def validate_date (env : Env) : Validator := fun body =>
  match env.date_parse body with
  | none => .returned (.rejected (data_error "We couldn't read that date" false false))
  | some (y, m, d) =>
    .returned (.resolved
      (.str (String.intercalate "/" [left_pad y "0000", left_pad m "00", left_pad d "00"]), none))

/-- The function `validate_email`: `body.match(/@/)` is `null` when the body has
no `@`, and `email[0]` then throws. -/
def validate_email : Validator := fun body =>
  if body.data.contains '@' then .returned (.resolved (.arr ["@"], none))
  else .thrown (type_error "Cannot read property '0' of null")

/-- The function `validate_boolean`. -/
def validate_boolean (env : Env) : Validator := fun body =>
  .returned (.resolved (.bool (truthy (env.is_yes body)), none))

/-- The function `validate_boolean_yes`. -/
def validate_boolean_yes (env : Env) : Validator := fun body =>
  let is_yes := truthy (env.is_yes body)
  let is_no := truthy (env.is_no body)
  if !is_yes && !is_no then
    .returned (.rejected (data_error "Please answer yes or no" false false))
  else if !is_yes then
    .returned (.rejected
      (data_error "Sorry, you are not eligible to vote in your state" false true))
  else .returned (.resolved (.bool true, none))

/-- The function `validate_boolean_no`. -/
def validate_boolean_no (env : Env) : Validator := fun body =>
  let is_yes := truthy (env.is_yes body)
  let is_no := truthy (env.is_no body)
  if !is_yes && !is_no then
    .returned (.rejected (data_error "Please answer yes or no" false false))
  else if !is_no then
    .returned (.rejected
      (data_error "Sorry, you are not eligible to vote in your state" false true))
  else .returned (.resolved (.bool false, none))

/-- A line terminator, which `.` of a regular expression does not match. -/
def is_line_terminator (c : Char) : Bool :=
  let n := c.toNat
  n == 0x0A || n == 0x0D || n == 0x2028 || n == 0x2029

/-- The text `s.replace(/X.*/, '')` leaves, for a one-character `X`: what
precedes the first `X`, then what follows the end of its line. -/
def cut_from (x : Char) : List Char → List Char
  | [] => []
  | c :: cs =>
    if c = x then cs.dropWhile (fun d => !is_line_terminator d) else c :: cut_from x cs

/-- An ASCII digit (`[0-9]`). -/
def is_digit (c : Char) : Bool := 48 ≤ c.toNat && c.toNat ≤ 57

/-- The test `zip.match(/^[0-9]{5}$/)`. -/
def is_zip5 (cs : List Char) : Bool := cs.length == 5 && cs.all is_digit

/-- The function `validate_zip`; `reject` is not defined in the module, so the
line that calls it throws a `ReferenceError` inside the promise. -/
def validate_zip (env : Env) : Validator := fun body =>
  let zip : String := ⟨cut_from '-' body.data⟩
  if !is_zip5 zip.data then
    .returned (.rejected (data_error "That zip code isn't valid" false false))
  else
    let found : Settled (JSVal × Option Store) :=
      match env.zip_find zip with
      | .rejected e => .rejected e
      | .resolved zipdata =>
        if !truthy zipdata.code then .rejected (js_error "reject is not defined")
        else
          let setter : Store :=
            match zipdata.places with
            | [(city, state)] =>
              let s1 : Store := if truthy city then [("user.settings.city", city)] else []
              if truthy state then field_set s1 "user.settings.state" state else s1
            | _ => []
          .resolved (zipdata.code, some setter)
    match found with
    | .rejected e =>
      if e.message = "not_found" then
        .returned (.rejected (data_error "We couldn't find that zip code" false false))
      else .returned (.rejected e)
    | .resolved r => .returned (.resolved r)

/-- The function `validate_gender`: the callback of `.tap` receives as `gender`
the resolved array itself, and an array is truthy whatever it holds. -/
def validate_gender (env : Env) : Validator := fun body =>
  let gender : JSVal := .arr []
  if !truthy gender then
    .returned (.rejected (data_error "Please enter your gender as male or female" false false))
  else .returned (.resolved (env.get_gender body, none))

/-- Reads `n` digits off the front of a text. -/
def take_digits : Nat → List Char → Option (List Char × List Char)
  | 0, cs => some ([], cs)
  | _ + 1, [] => none
  | n + 1, c :: cs =>
    if is_digit c then (take_digits n cs).map (fun r => (c :: r.1, r.2)) else none

/-- Reads an optional `-` off the front of a text. -/
def take_dash : List Char → List Char × List Char
  | '-' :: cs => (['-'], cs)
  | cs => ([], cs)

/-- A match of `/[0-9]{3}-?[0-9]{2}-?[0-9]{4}/` at the front of a text. -/
def ssn_at (cs : List Char) : Option (List Char) :=
  match take_digits 3 cs with
  | none => none
  | some (a, r1) =>
    let (d1, r2) := take_dash r1
    match take_digits 2 r2 with
    | none => none
    | some (b, r3) =>
      let (d2, r4) := take_dash r3
      match take_digits 4 r4 with
      | none => none
      | some (c, _) => some (a ++ d1 ++ b ++ d2 ++ c)

/-- The leftmost match of the SSN pattern in a text. -/
def ssn_match : List Char → Option (List Char)
  | [] => none
  | c :: cs =>
    match ssn_at (c :: cs) with
    | some m => some m
    | none => ssn_match cs

/-- The function `validate_ssn`: `body.match(...)` is `null` when nothing
matches, and `ssn[0]` then throws. -/
def validate_ssn : Validator := fun body =>
  match ssn_match body.data with
  | none => .thrown (type_error "Cannot read property '0' of null")
  | some m =>
    if (⟨m⟩ : String) != "" then .returned (.resolved (.arr [⟨m⟩], none))
    else .returned (.rejected (data_error "Please enter your SSN" true false))

/-! ## Message templates -/

/-- The text `String(v)` of a value. -/
def js_to_string : JSVal → String
  | .undefined => "undefined"
  | .null => "null"
  | .bool b => if b then "true" else "false"
  | .num n => if n < 0 then "-" ++ Nat.repr n.natAbs else Nat.repr n.natAbs
  | .str s => s
  | .arr xs => String.intercalate "," xs
  | .obj _ => "[object Object]"

/-- After an opening `\x7b\x7b`: the shortest key closed by `\x7d\x7d` on the
same line, and the text after it (the group `(.*?)` of the pattern). -/
def template_key : List Char → Option (List Char × List Char)
  | [] => none
  | c :: cs =>
    match c, cs with
    | '}', '}' :: rest => some ([], rest)
    | _, _ =>
      if is_line_terminator c then none
      else (template_key cs).map (fun r => (c :: r.1, r.2))

/-- The replacement of `str.replace(/\x7b\x7b(.*?)\x7d\x7d/, ...)`: the pattern
has no `g` flag, so the leftmost match alone is replaced, by `val || ''`. -/
def template_chars (data : JSVal) : List Char → List Char
  | [] => []
  | c :: cs =>
    let found : Option (List Char × List Char) :=
      match c, cs with
      | '{', '{' :: rest => template_key rest
      | _, _ => none
    match found with
    | some (key, rest) =>
      let val := object_get data ⟨key⟩
      (if truthy val then (js_to_string val).data else []) ++ rest
    | none => c :: template_chars data cs

/-- The function `template(str, data)`. -/
def template (str : String) (data : JSVal) : String :=
  ⟨template_chars data str.data⟩

/-! ## Chains -/

/-- The `state` of a conversation: the chain name and the current step name. -/
structure ConvState where
  type : String
  step : String
deriving DecidableEq, Repr

/-- A conversation, as far as the bot reads it. -/
structure Conversation where
  id : Nat
  state : ConvState
deriving DecidableEq, Repr

/-- What a `pre_process` hook returns when it returns an object: its `next`
property, if it has one. -/
structure HookResult where
  next : Option String
deriving DecidableEq, Repr

/-- A `pre_process` hook: it returns an object, or nothing, or throws. -/
abbrev Hook := Action → Conversation → JSVal → Except Err (Option HookResult)

/-- A step of a chain. -/
structure Step where
  msg : Option String
  process : Option Processor
  pre_process : Option Hook
  final : Bool

/-- A value read in a chain object: a string (the start marker `_start`, which
holds a step name, or the message of a step), a step, or a property of a step
that is not a string (its functions `process` and `pre_process`, its flag
`final`). The entries of a chain are strings and steps. -/
inductive ChainEntry where
  | name (s : String) : ChainEntry
  | step (s : Step) : ChainEntry
  | processor (f : Processor) : ChainEntry
  | hook (f : Hook) : ChainEntry
  | flag (b : Bool) : ChainEntry

/-- A chain: its entries by key. -/
abbrev Chain := List (String × ChainEntry)

/-- The table of chains, by chain name. -/
abbrev Chains := List (String × Chain)

/-- The first value stored under a key of an association list. -/
def assoc_get {α : Type} : List (String × α) → String → Option α
  | [], _ => none
  | (k', v) :: rest, k => if k' = k then some v else assoc_get rest k

/-- The own property `k` of a step object (`none` for `undefined`). -/
def step_get (s : Step) (k : String) : Option ChainEntry :=
  if k = "msg" then s.msg.map .name
  else if k = "process" then s.process.map .processor
  else if k = "pre_process" then s.pre_process.map .hook
  else if k = "final" then (if s.final then some (.flag true) else none)
  else none

/-- Walks a list of path segments down a value read in a chain; as in
`get_path`, a path that leaves the records reads `undefined`. -/
def entry_path : ChainEntry → List String → Option ChainEntry
  | e, [] => some e
  | .step s, k :: rest =>
    match step_get s k with
    | none => none
    | some e => entry_path e rest
  | _, _ :: _ => none

/-- Modelled from the spec: `util.object.get(chains, [type, name].join('.'))`
of `lib/util`, the reader `object_get` on the table of chains. The joined path
is split at every dot: the first segment names a chain, the second an entry of
it, and each further one a property of the value read so far. -/
def chains_get (cs : Chains) (type name : String) : Option ChainEntry :=
  match split_dots (type ++ "." ++ name).data with
  | t :: k :: rest =>
    match assoc_get cs t with
    | none => none
    | some chain =>
      match assoc_get chain k with
      | none => none
      | some entry => entry_path entry rest
  | _ => none

/-- The test `!entry` fails: a step, a function, `true`, or a non-empty
string. -/
def ChainEntry.truthy : ChainEntry → Bool
  | .name s => s != ""
  | .step _ => true
  | .processor _ => true
  | .hook _ => true
  | .flag b => b

/-- The property `pre_process` of a value read in a chain. -/
def ChainEntry.pre_process : ChainEntry → Option Hook
  | .step s => s.pre_process
  | _ => none

/-- The property `process` of a value read in a chain. -/
def ChainEntry.process : ChainEntry → Option Processor
  | .step s => s.process
  | _ => none

/-- The property `msg` of a value read in a chain. -/
def ChainEntry.msg : ChainEntry → Option String
  | .step s => s.msg
  | _ => none

/-- The property `final` of a value read in a chain. -/
def ChainEntry.final : ChainEntry → Bool
  | .step s => s.final
  | _ => false

/-! ## The per-state questions -/

/-- The table `vote_per_state`. -/
def vote_per_state : List (String × List String) :=
  [ ("al", ["us_citizen", "18", "state_id"]),
    ("ak", ["us_citizen", "18", "ssn_last4", "state_id"]),
    ("ca", ["us_citizen", "state_resident", "18", "ssn_last4", "state_id"]),
    ("co", ["state_id"]),
    ("ct", ["us_citizen", "state_resident", "18", "state_id", "disenfranchised"]),
    ("de", ["us_citizen", "state_resident", "state_id", "disenfranchised"]),
    ("ga", ["us_citizen", "state_resident", "18", "disenfranchised", "incompetent", "state_id"]),
    ("hi", ["state_id", "ssn", "gender"]),
    ("il", ["us_citizen", "18", "state_id", "state_id_issue_date"]),
    ("in", ["us_citizen", "18", "state_resident", "disenfranchised", "state_id"]),
    ("ks", ["us_citizen", "18", "state_resident", "disenfranchised", "state_id"]),
    ("ky", ["us_citizen", "state_resident", "18", "disenfranchised", "incompetent", "ssn"]),
    ("la", ["us_citizen", "18", "disenfranchised", "incompetent", "state_id"]),
    ("ma", ["us_citizen", "state_resident", "18", "state_id"]),
    ("md", ["us_citizen", "ssn_last4", "state_id"]),
    ("mn", ["us_citizen", "18", "disenfranchised", "state_id_or_ssn_last4"]),
    ("ne", ["us_citizen", "18", "state_id"]),
    ("nm", ["us_citizen", "state_resident", "18", "disenfranchised", "state_id", "ssn"]),
    ("nv", ["us_citizen", "state_resident", "18", "state_id", "ssn_last4"]),
    ("or", ["us_citizen", "18", "state_id_or_ssn_last4"]),
    ("pa", ["us_citizen", "18", "county", "state_id_or_ssn_last4", "disenfranchised"]),
    ("sc", ["state_id", "ssn", "gender"]),
    ("va", ["ssn_last4", "county"]),
    ("wa", ["us_citizen", "18", "state_id", "state_id_issue_date"]),
    ("wv", ["us_citizen", "state_resident", "18", "disenfranchised", "incompetent", "state_id",
            "ssn_last4"]),
    ("vt", ["us_citizen", "state_resident", "18", "state_id"]) ]

/-- The properties an object literal inherits from `Object.prototype`, each
with its `length` (`none` for `__proto__`, which is not a function). -/
def inherited_length (name : String) : Option (Option Nat) :=
  assoc_get
    [ ("constructor", some 1), ("__proto__", none), ("hasOwnProperty", some 1),
      ("isPrototypeOf", some 1), ("propertyIsEnumerable", some 1),
      ("toLocaleString", some 0), ("toString", some 0), ("valueOf", some 0),
      ("__defineGetter__", some 2), ("__defineSetter__", some 2),
      ("__lookupGetter__", some 1), ("__lookupSetter__", some 1) ] name

/-- The property read `vote_per_state[state]`, as the loop of the hook sees it:
the elements `0 .. length-1` of the value. An own property is a requirement
list; an inherited one has no indexed element, so each reads `undefined`. -/
def vote_per_state_get (state : String) : Option (List JSVal) :=
  match assoc_get vote_per_state state with
  | some l => some (l.map JSVal.str)
  | none =>
    match inherited_length state with
    | some len => some (List.replicate (len.getD 0) JSVal.undefined)
    | none => none

/-- The loop of the `per_state` hook: `null` when it passes every question,
else the key at which it breaks. -/
def first_unanswered (user : JSVal) : List JSVal → JSVal
  | [] => .null
  | key :: rest =>
    let exists_ := object_get user ("settings." ++ js_to_string key)
    if is_defined exists_ then first_unanswered user rest else key

/-- The hook `chains.vote_1.per_state.pre_process`. -/
def per_state_pre_process (env : Env) : Hook := fun _action _conversation user =>
  match object_get user "settings.state" with
  | .str s =>
    let state := env.toLowerCase (js_trim s)
    let next_default : HookResult := { next := some "party" }
    match vote_per_state_get state with
    | none => .ok (some next_default)
    | some state_questions =>
      match first_unanswered user state_questions with
      | .str next => if next != "" then .ok (some { next := some next }) else .ok (some next_default)
      | _ => .ok (some next_default)
  | .undefined => .error (type_error "Cannot read property 'trim' of undefined")
  | .null => .error (type_error "Cannot read property 'trim' of null")
  | _ => .error (type_error "util.object.get(...).trim is not a function")

/-- The hook `chains.vote_1.city.pre_process`. -/
def city_pre_process : Hook := fun _action _conversation user =>
  if truthy (object_get user "settings.city") then .ok (some { next := some "state" })
  else .ok none

/-- The hook `chains.vote_1.state.pre_process`. -/
def state_pre_process : Hook := fun _action _conversation user =>
  if truthy (object_get user "settings.state") then .ok (some { next := some "dob" })
  else .ok none

/-- A step that asks a question and processes the answer. -/
def ask (msg : String) (process : Processor) : ChainEntry :=
  .step { msg := some msg, process := some process, pre_process := none, final := false }

/-- The chain `chains.vote_1`. -/
def vote_1 (env : Env) : Chain :=
  [ ("_start", .name "intro_direct"),
    ("intro_direct", ask "Hi! Let's get you registered to vote. What's your first name?"
      (simple_store "user.first_name" "last_name" (some "Please enter your first name") none)),
    ("intro_refer", ask "Hi! One of your friends has asked me to help you get registered to vote. What's your first name?"
      (simple_store "user.first_name" "last_name" (some "Please enter your first name") none)),
    ("last_name", ask "What's your last name?"
      (simple_store "user.last_name" "zip" (some "Please enter your last name") none)),
    ("zip", ask "What's your zip code?"
      (simple_store "user.settings.zip" "address" (some "Please enter your zip code")
        (some (validate_zip env)))),
    ("address", ask "What's your street address? (including apartment #, if any)"
      (simple_store "user.settings.address" "city" (some "Please enter your street address") none)),
    ("city", .step
      { pre_process := some city_pre_process,
        msg := some "What city do you live in?",
        process := some (simple_store "user.settings.city" "state" (some "Please enter your city") none),
        final := false }),
    ("state", .step
      { pre_process := some state_pre_process,
        msg := some "What state do you live in? (eg CA)",
        process := some (simple_store "user.settings.state" "dob" (some "Please enter your state") none),
        final := false }),
    ("date_of_birth", ask "When were you born? (MM/DD/YYYY)"
      (simple_store "user.settings.date_of_birth" "email" (some "Please enter your date of birth")
        (some (validate_date env)))),
    ("email", ask "What's your email address?"
      (simple_store "user.settings.email" "per_state" (some "Please enter your email address")
        (some validate_email))),
    ("per_state", .step
      { pre_process := some (per_state_pre_process env),
        msg := none, process := none, final := false }),
    ("party", ask "What's your party preference? (democrat/republican/libertarian/green/other/none)"
      (simple_store "user.settings.political_party" "mail"
        (some "Please let us know your party preference") none)),
    ("mail", ask "Would you like to vote by mail-in ballot?"
      (simple_store "user.settings.mail_in" "done" (some "") (some (validate_boolean env)))),
    ("done", .step
      { msg := some ("Thanks! We'll begin processing your registration! Share this bot to get your friends registered too: https://www.facebook.com/sharer/sharer.php?u=" ++ env.app_url),
        process := none, pre_process := none, final := true }),
    ("us_citizen", ask "Are you a US citizen?"
      (simple_store "user.settings.us_citizen" "per_state" (some "") (some (validate_boolean_yes env)))),
    ("legal_resident", ask "Are you a current legal resident of \x7b\x7bsettings.state\x7d\x7d?"
      (simple_store "user.settings.legal_resident" "per_state" (some "")
        (some (validate_boolean_yes env)))),
    ("will_be_18", ask "Are you 18 or older, or will you be by the date of the election?"
      (simple_store "user.settings.will_be_18" "per_state" (some "") (some (validate_boolean_yes env)))),
    ("ethnicity", ask "What is your ethnicity or race? (asian-pacific/black/hispanic/native-american/white/multi-racial/other)"
      (simple_store "user.settings.ethnicity" "per_state" none none)),
    ("disenfranchised", ask "Are you currently disenfranchised from voting (for instance due to a felony conviction)?"
      (simple_store "user.settings.disenfranchised" "per_state" (some "")
        (some (validate_boolean_no env)))),
    ("incompetent", ask "Have you been found legally incompetent in your state?"
      (simple_store "user.settings.incompetent" "per_state" (some "") (some (validate_boolean_no env)))),
    ("state_id", ask "What's your \x7b\x7bsettings.state\x7d\x7d driver's license (or state ID) number?"
      (simple_store "user.settings.state_id" "per_state" (some "Please enter your state ID number") none)),
    ("state_id_issue_date", ask "What date was your state id/driver's license issued? (mm/dd/yyyy)"
      (simple_store "user.settings.state_id_issue_date" "per_state" (some "")
        (some (validate_date env)))),
    ("ssn", ask "What's your SSN?"
      (simple_store "user.settings.ssn" "per_state" (some "") (some validate_ssn))),
    ("ssn_last4", ask "What are the last 4 digits of your SSN?"
      (simple_store "user.settings.ssn_last4" "per_state"
        (some "Please enter the last 4 digits of your SSN") none)),
    ("state_id_or_ssn_last4", ask "What's your \x7b\x7bsettings.state\x7d\x7d driver's license (or state ID) number? If you don't have one, enter the last 4 digits of your SSN."
      (simple_store "user.settings.state_id_or_ssn_last4" "per_state"
        (some "Please enter your state ID number or last 4 of your SSN") none)),
    ("gender", ask "What's your gender?"
      (simple_store "user.settings.gender" "per_state" (some "") (some (validate_gender env)))),
    ("county", ask "What county do you reside in?"
      (simple_store "user.settings.county" "per_state"
        (some "Please enter the name of the county you reside in") none)),
    ("consent_use_signature", ask "May we use your signature on file with the DMV to complete the form with your state?"
      (simple_store "user.settings.consent_use_signature" "per_state"
        (some "Please reply Yes to let us request your signature from the DMV. We do not store this information.")
        none)) ]

/-- The table `chains`. -/
def chains (env : Env) : Chains := [("vote_1", vote_1 env)]

/-! ## The step resolver -/

/-- The object `find_next_step` returns. -/
structure Found where
  step : ChainEntry
  name : String

/-- The function `find_next_step`. The recursion of the source has no bound of
its own; `depth` is the number of nested calls the call stack of the runtime
still admits, and a call beyond it fails with the runtime's `RangeError`. -/
def find_next_step (cs : Chains) : Nat → Action → Conversation → JSVal → Except Err Found
  | 0, _, _, _ => .error (js_error "Maximum call stack size exceeded")
  | depth + 1, action, conversation, user =>
    let state := conversation.state
    let next := action.next
    let key := state.type ++ "." ++ next
    match chains_get cs state.type next with
    | none => .error (js_error ("bot: could not load step: " ++ key))
    | some nextstep =>
      if !nextstep.truthy then .error (js_error ("bot: could not load step: " ++ key))
      else
        let default_step : Found := { step := nextstep, name := next }
        match nextstep.pre_process with
        | none => .ok default_step
        | some pre_process =>
          match pre_process action conversation user with
          | .error e => .error e
          | .ok none => .ok default_step
          | .ok (some res) =>
            match res.next with
            | none => .ok default_step
            | some n =>
              if n = "" then .ok default_step
              else find_next_step cs depth { action with next := n } conversation user

/-! ## The turn engine -/

/-- The function `parse_step`. -/
def parse_step (env : Env) (step : ChainEntry) (body : String) : Outcome Action :=
  if truthy (env.is_cancel body) then .returned (.resolved { next := "_cancel", store := none })
  else
    match step.process with
    | none => .thrown (type_error "step.process is not a function")
    | some process => process body

/-- A call the turn engine makes: to a collaborator, to the processor of the
current step, or to the step resolver. -/
inductive Event where
  | user_get (user_id : Nat) : Event
  | process (body : String) : Event
  | user_update (user_id : Nat) (obj : JSVal) : Event
  | find_next_step (next : String) (user : JSVal) : Event
  | message_create (user_id conversation_id : Nat) (body : String) : Event
  | convo_update (conversation_id : Nat) (state : ConvState) : Event
  | convo_close (conversation_id : Nat) : Event
deriving DecidableEq

/-- The processor calls `parse_step` makes: one, unless the user cancels or the
step has no processor to call. -/
def parse_step_calls (env : Env) (step : ChainEntry) (body : String) : List Event :=
  if truthy (env.is_cancel body) then []
  else if step.process.isSome then [.process body] else []

/-- The storage collaborators of a turn, each by the way its promise settles,
and the configured id of the bot user. -/
structure Stores where
  bot_user_id : Nat
  user_get : Nat → Settled JSVal
  user_update : Nat → JSVal → Settled Unit
  message_create : Nat → Nat → String → Settled Unit
  convo_update : Nat → ConvState → Settled Unit

/-- The function `exports.close` of `models/conversation.js`. -/
def convo_close (_conversation_id : Nat) : Settled Unit := .resolved ()

/-- An incoming message. -/
structure Message where
  body : String
deriving DecidableEq

/-- What a turn leaves: the calls it made, in order, the conversation object
it was given as the turn leaves it, and the promise it returns. -/
structure Turn where
  events : List Event
  conversation : Conversation
  result : Settled Unit
deriving DecidableEq

/-- The replacement `keys[0].replace(/\..*/, '')`: the record a key addresses. -/
def record_of (key : String) : String := ⟨cut_from '.' key.data⟩

/-- The match of `/^.*?\./` at the start of a text: what follows the first
`'.'` of the first line, if there is one. -/
def after_first_dot : List Char → Option (List Char)
  | [] => none
  | c :: cs =>
    if c = '.' then some cs
    else if is_line_terminator c then none
    else after_first_dot cs

/-- The replacement `place.replace(/^.*?\./, '')`. -/
def strip_record (place : String) : String :=
  match after_first_dot place.data with
  | some rest => ⟨rest⟩
  | none => place

/-- The loop `keys.forEach(...)`: every assignment of the store, its path
stripped of the first segment, is set into the one object. -/
def apply_store (obj : JSVal) (store : Store) : JSVal :=
  store.foldl (fun o kv => object_set o (strip_record kv.1) kv.2) obj

/-- The handler `.catch(function(err) ...)` of a turn: the one message it
sends. The promise of that message is caught by the handler after it, so the
turn resolves either way. -/
def catch_message (err : Err) : String :=
  if err.data_error then
    if err.end_conversation then err.message ++ "."
    else err.message ++ ". Please try again!"
  else "I seem to have had a glitch. Please send your last message again."

/-- The block `if(action.store) ...` of a turn: the calls made, the user
object after the assignments, and the promise the next steps are chained on;
an error when the block throws. -/
def run_setters (st : Stores) (user_id : Nat) (user : JSVal) (action : Action) :
    Except Err (List Event × JSVal × Settled Unit) :=
  match action.store with
  | none => .ok ([], user, .resolved ())
  | some [] => .error (type_error "Cannot read property 'replace' of undefined")
  | some ((key0, value0) :: more) =>
    let store : Store := (key0, value0) :: more
    let obj := record_of key0
    if obj = "user" then
      let user2 := apply_store user store
      .ok ([.user_update user_id user2], user2, st.user_update user_id user2)
    else if (inherited_length obj).isSome then
      .error (type_error "setter.set is not a function")
    else .ok ([], user, .resolved ())

/-- The two callbacks chained on that promise: resolve the next step, set it
into the conversation's state, send its message, then save the state. -/
def resolve_and_send (cs : Chains) (st : Stores) (depth : Nat) (conversation : Conversation)
    (user : JSVal) (action : Action) : List Event × Conversation × Settled Unit :=
  let ev1 : List Event := [.find_next_step action.next user]
  match find_next_step cs depth action conversation user with
  | .error e => (ev1, conversation, .rejected e)
  | .ok found =>
    let state : ConvState := { conversation.state with step := found.name }
    let conversation2 : Conversation := { conversation with state := state }
    match found.step.msg with
    | none =>
      (ev1, conversation2, .rejected (type_error "Cannot read property 'replace' of undefined"))
    | some msg =>
      let ev2 := ev1 ++ [.message_create st.bot_user_id conversation.id (template msg user)]
      match st.message_create st.bot_user_id conversation.id (template msg user) with
      | .rejected e => (ev2, conversation2, .rejected e)
      | .resolved _ =>
        (ev2 ++ [.convo_update conversation.id state], conversation2,
          st.convo_update conversation.id state)

/-- The callback `.then(function(action) ...)` of a turn, with the promise it
returns: the calls made, the conversation object, and how the promise settles. -/
def on_action (cs : Chains) (st : Stores) (depth : Nat) (user_id : Nat)
    (conversation : Conversation) (user : JSVal) (action : Action) :
    List Event × Conversation × Settled Unit :=
  if action.next = "_cancel" then
    ([.convo_close conversation.id], conversation, convo_close conversation.id)
  else
    match run_setters st user_id user action with
    | .error e => ([], conversation, .rejected e)
    | .ok (ev, _, .rejected e) => (ev, conversation, .rejected e)
    | .ok (ev, user2, .resolved _) =>
      let sent := resolve_and_send cs st depth conversation user2 action
      (ev ++ sent.1, sent.2.1, sent.2.2)

/-- The part of `exports.next` that runs on a step that is not final: the
message is parsed, the transition is carried out, and the two `.catch`
handlers close the promise chain. An error `parse_step` throws before it
returns a promise is not theirs to catch. -/
def run_step (cs : Chains) (env : Env) (st : Stores) (depth : Nat) (user_id : Nat)
    (conversation : Conversation) (user : JSVal) (step : ChainEntry) (message : Message) :
    Turn :=
  let body := message.body
  let called := parse_step_calls env step body
  match parse_step env step body with
  | .thrown e =>
    { events := .user_get user_id :: called, conversation := conversation,
      result := .rejected e }
  | .returned (.rejected err) =>
    { events := .user_get user_id :: called ++
        [.message_create st.bot_user_id conversation.id (catch_message err)],
      conversation := conversation, result := .resolved () }
  | .returned (.resolved action) =>
    match on_action cs st depth user_id conversation user action with
    | (ev, conversation2, .resolved _) =>
      { events := .user_get user_id :: called ++ ev, conversation := conversation2,
        result := .resolved () }
    | (ev, conversation2, .rejected err) =>
      { events := .user_get user_id :: called ++ ev ++
          [.message_create st.bot_user_id conversation.id (catch_message err)],
        conversation := conversation2, result := .resolved () }

/-- The function `exports.next`. -/
def next (cs : Chains) (env : Env) (st : Stores) (depth : Nat) (user_id : Nat)
    (conversation : Conversation) (message : Message) : Turn :=
  match st.user_get user_id with
  | .rejected e =>
    { events := [.user_get user_id], conversation := conversation, result := .rejected e }
  | .resolved user =>
    if !truthy user then
      { events := [.user_get user_id], conversation := conversation,
        result := .rejected (js_error ("user " ++ Nat.repr user_id ++ " was not found")) }
    else
      let state := conversation.state
      let key := state.type ++ "." ++ state.step
      match (chains_get cs state.type state.step).filter ChainEntry.truthy with
      | none =>
        { events := [.user_get user_id], conversation := conversation,
          result := .rejected (js_error ("conversation chain missing: " ++ key)) }
      | some step =>
        if step.final then
          { events := [.user_get user_id], conversation := conversation, result := .resolved () }
        else run_step cs env st depth user_id conversation user step message

/-! ## Starting a conversation -/

/-- A call `exports.start` and `convo_model.create` make to a collaborator. -/
inductive StartEvent where
  | user_get (user_id : Nat) : StartEvent
  | batch_create (usernames : List JSVal) : StartEvent
  | conversation_create (user_id : Nat) (type : String) (state : Option ConvState) : StartEvent
  | recipients_delete (conversation_id : Nat) : StartEvent
  | recipients_create (conversation_id : Nat) (user_ids : List JSVal) : StartEvent
  | message_create (user_id conversation_id : Nat) (body : String) : StartEvent
deriving DecidableEq

/-- The collaborators of `exports.start` and `convo_model.create`, each by the
way its promise settles: the user model, the table of conversations (the
record it creates is given by its id), the table of recipients and the message
model; and the configured id of the bot user. -/
structure StartStores where
  bot_user_id : Nat
  user_get : Nat → Settled JSVal
  batch_create : List JSVal → Settled (List JSVal)
  conversation_create : Nat → String → Option ConvState → Settled Nat
  recipients_delete : Nat → Settled Unit
  recipients_create : Nat → List JSVal → Settled Unit
  message_create : Nat → Nat → String → Settled Unit

/-- The `data` of `convo_model.create`, as far as it is read: `type`, `state`,
`recipients` and the `body` of `message` (`none` when it is undefined). -/
structure CreateData where
  type : Option String
  state : Option ConvState
  recipients : List JSVal
  body : Option String

/-- The conversation `convo_model.create` resolves to: its id, type and state,
and the body of its first message. -/
structure Created where
  id : Nat
  type : String
  state : Option ConvState
  message : String
deriving DecidableEq

/-- The function `exports.set_recipients` of `models/conversation.js`. -/
def set_recipients (cst : StartStores) (conversation_id : Nat) (user_ids : List JSVal) :
    List StartEvent × Settled Unit :=
  match cst.recipients_delete conversation_id with
  | .rejected e => ([.recipients_delete conversation_id], .rejected e)
  | .resolved _ =>
    ([.recipients_delete conversation_id, .recipients_create conversation_id user_ids],
      cst.recipients_create conversation_id user_ids)

/-- The function `exports.create` of `models/conversation.js`: the calls it
makes and the promise it returns. `start_bots` stands for the calls of
`bot_model.start` for each recipient, which are made for a conversation of
type `p2p` only. -/
def convo_create (cst : StartStores)
    (start_bots : List JSVal → List StartEvent × Settled Unit) (user_id : Nat)
    (data : CreateData) : List StartEvent × Settled Created :=
  let no_recipient : Bool :=
    match data.recipients with
    | [] => true
    | r :: _ => !truthy (object_get r "username")
  if no_recipient then ([], .rejected (js_error "Please specify at least one recipient"))
  else
    match data.body with
    | none => ([], .rejected (js_error "Please enter a message to send"))
    | some body =>
      if body = "" then ([], .rejected (js_error "Please enter a message to send"))
      else
        let usernames := data.recipients.map (fun r => object_get r "username")
        match cst.batch_create usernames with
        | .rejected e => ([.batch_create usernames], .rejected e)
        | .resolved users =>
          let type : String :=
            match data.type with
            | some t => if t = "" then "p2p" else t
            | none => "p2p"
          let ev1 : List StartEvent :=
            [.batch_create usernames, .conversation_create user_id type data.state]
          match cst.conversation_create user_id type data.state with
          | .rejected e => (ev1, .rejected e)
          | .resolved id =>
            let user_ids := users.map (fun u => object_get u "id")
            let set := set_recipients cst id user_ids
            match set.2 with
            | .rejected e => (ev1 ++ set.1, .rejected e)
            | .resolved _ =>
              let ev2 := ev1 ++ set.1 ++ [.message_create user_id id body]
              match cst.message_create user_id id body with
              | .rejected e => (ev2, .rejected e)
              | .resolved _ =>
                let conversation : Created :=
                  { id := id, type := type, state := data.state, message := body }
                if type != "p2p" then (ev2, .resolved conversation)
                else
                  let bots := start_bots users
                  match bots.2 with
                  | .rejected e => (ev2 ++ bots.1, .rejected e)
                  | .resolved _ => (ev2 ++ bots.1, .resolved conversation)

/-- The `options` of `exports.start`. -/
structure StartOptions where
  start : Option String

/-- The value `options.start || chain._start`, when it is a string. -/
def first_step_name (chain : Chain) (options : StartOptions) : Option String :=
  let chain_start : Option String :=
    match assoc_get chain "_start" with
    | some (.name s) => some s
    | _ => none
  match options.start with
  | some s => if s != "" then some s else chain_start
  | none => chain_start

/-- The function `exports.start`: the calls it makes and the promise it
returns. The conversation it creates has the type `bot`, for which
`convo_model.create` starts no further conversation. -/
def start (cs : Chains) (cst : StartStores) (type : String) (to_user_id : Nat)
    (options : StartOptions) : List StartEvent × Settled Created :=
  match cst.user_get to_user_id with
  | .rejected e => ([.user_get to_user_id], .rejected e)
  | .resolved user =>
    if !truthy user then ([.user_get to_user_id], .rejected (js_error "user_id is not defined"))
    else
      match assoc_get cs type with
      | none =>
        ([.user_get to_user_id],
          .rejected (type_error "Cannot read property '_start' of undefined"))
      | some chain =>
        let name := first_step_name chain options
        let step : Option ChainEntry :=
          match name with
          | some n => (assoc_get chain n).filter ChainEntry.truthy
          | none => none
        match name, step with
        | some n, some step =>
          let created := convo_create cst (fun _ => ([], .resolved ())) cst.bot_user_id
            { type := some "bot", state := some { type := type, step := n },
              recipients := [user], body := step.msg }
          (.user_get to_user_id :: created.1, created.2)
        | _, _ =>
          ([.user_get to_user_id],
            .rejected (js_error ("bot: error loading step: " ++ type ++ ".undefined")))

/-! ## Predicates of the statements -/

/-- The names a resolution requests: `Requests cs conversation user action m`
holds when `find_next_step`, started on `action`, looks the name `m` up, be it
the requested name or an override a `pre_process` hook returned on the way. -/
inductive Requests (cs : Chains) (conversation : Conversation) (user : JSVal) :
    Action → String → Prop where
  | requested (action : Action) : Requests cs conversation user action action.next
  | override (action : Action) (entry : ChainEntry) (hook : Hook) (n m : String)
      (hget : chains_get cs conversation.state.type action.next = some entry)
      (htruthy : entry.truthy = true)
      (hhook : entry.pre_process = some hook)
      (hres : hook action conversation user = .ok (some { next := some n }))
      (hne : n ≠ "")
      (hrest : Requests cs conversation user { action with next := n } m) :
      Requests cs conversation user action m

/-- A transition of the kind the steps of `vote_1` produce: its next name is
neither the cancel marker nor the start marker, and its store is not empty and
addresses the user record in every key. -/
def StoresOnUser (action : Action) : Prop :=
  action.next ≠ "_cancel" ∧ action.next ≠ "_start" ∧
  ∃ store, action.store = some store ∧ store ≠ [] ∧ ∀ kv ∈ store, record_of kv.1 = "user"

/-- A validator whose further assignments all address the user record. -/
def ExtrasOnUser (v : Validator) : Prop :=
  ∀ body value extra, v body = .returned (.resolved (value, extra)) →
    ∀ kv ∈ extra.getD [], record_of kv.1 = "user"

/-- What an entry of `vote_1` is to the resolver: an entry other than the start
marker that the resolver can return has a message, and an override its hook
returns is not the start marker. -/
def ResolvesToMessage (p : String × ChainEntry) : Prop :=
  (p.2.pre_process = none → p.1 ≠ "_start" → ∃ s msg, p.2 = .step s ∧ s.msg = some msg) ∧
  (∀ hook, p.2.pre_process = some hook → ∀ a c u r, hook a c u = .ok r →
    (∃ s msg, p.2 = .step s ∧ s.msg = some msg) ∨
    (∃ n, r = some { next := some n } ∧ n ≠ "")) ∧
  (∀ hook, p.2.pre_process = some hook → ∀ a c u n, hook a c u = .ok (some { next := some n }) →
    n ≠ "_start")

/-- The error of a call that fails, whether it throws or returns a promise
that is rejected. -/
def Outcome.failure {α : Type} : Outcome α → Option Err
  | .thrown e => some e
  | .returned (.rejected e) => some e
  | .returned (.resolved _) => none

/-- A validator that throws no data error. -/
def ThrowsNoDataError (v : Validator) : Prop :=
  ∀ body e, v body = .thrown e → e.data_error = false

/-- The fixed apology of a turn. -/
def apology : String := "I seem to have had a glitch. Please send your last message again."

/-- The number of overrides that can follow the request of a step of `vote_1`:
`city` may lead on to `state`, and `state` and `per_state` to a step that has
no hook. -/
def step_rank (name : String) : Nat :=
  if name = "city" then 2 else if name = "state" then 1 else if name = "per_state" then 1 else 0

/-- What a hook of `vote_1` does to the depth of a resolution: it does not
raise the error of the exhausted call stack, and an override it returns names
a step of lower rank. -/
def LowersRank (p : String × ChainEntry) : Prop :=
  ∀ hook, p.2.pre_process = some hook → ∀ a c u,
    (∀ e, hook a c u = .error e → e ≠ js_error "Maximum call stack size exceeded") ∧
    (∀ n, hook a c u = .ok (some { next := some n }) → step_rank n < step_rank p.1)

/-- The per-state question steps of `chains.vote_1`. -/
def per_state_steps : List String :=
  ["us_citizen", "legal_resident", "will_be_18", "ethnicity", "disenfranchised", "incompetent",
   "state_id", "state_id_issue_date", "ssn", "ssn_last4", "state_id_or_ssn_last4", "gender",
   "county", "consent_use_signature"]

/-- A validator that resolves to a value alone, without further assignments. -/
def NoExtras (v : Validator) : Prop :=
  ∀ body value extra, v body = .returned (.resolved (value, extra)) → extra = none

/-- A validator whose normalised value is never `undefined`. -/
def DefinedValue (v : Validator) : Prop :=
  ∀ body value extra, v body = .returned (.resolved (value, extra)) → value ≠ .undefined

/-! ## Concrete inputs -/

/-- A user in California (`" CA "`) who has answered `us_citizen` with `false`
and `state_resident` with the empty string. -/
def california_user : JSVal :=
  .obj [("id", .num 7), ("settings", .obj
    [("state", .str " CA "), ("us_citizen", .bool false), ("state_resident", .str "")])]

/-- An environment whose `toLowerCase` lowers ASCII letters and whose language
helpers know the words `yes`, `no` and `stop`. -/
def sample_env : Env :=
  { toLowerCase := fun s => ⟨s.data.map Char.toLower⟩,
    is_cancel := fun s => .bool (s == "stop"),
    is_yes := fun s => .bool (s == "yes"),
    is_no := fun s => .bool (s == "no"),
    get_gender := fun s => .str s,
    date_parse := fun _ => none,
    zip_find := fun z => .resolved { code := .str z, places := [(.str "Beverly Hills", .str "CA")] },
    app_url := "votebot" }

/-- A user who has answered nothing yet. -/
def new_user : JSVal :=
  .obj [("id", .num 7), ("username", .str "+15551234567"), ("settings", .obj [])]

/-- Storage in which every call succeeds and the user is `new_user`. -/
def sample_stores : Stores :=
  { bot_user_id := 1,
    user_get := fun _ => .resolved new_user,
    user_update := fun _ _ => .resolved (),
    message_create := fun _ _ _ => .resolved (),
    convo_update := fun _ _ => .resolved () }

/-- Storage in which every call succeeds, for a user in Alabama. -/
def alabama_stores : Stores :=
  { bot_user_id := 1,
    user_get := fun _ => .resolved (.obj [("id", .num 7), ("settings", .obj [("state", .str "AL")])]),
    user_update := fun _ _ => .resolved (),
    message_create := fun _ _ _ => .resolved (),
    convo_update := fun _ _ => .resolved () }

/-- Storage whose conversation update fails with an error that is not a data
error; every other call succeeds. -/
def update_failing_stores : Stores :=
  { bot_user_id := 1,
    user_get := fun _ => .resolved new_user,
    user_update := fun _ _ => .resolved (),
    message_create := fun _ _ _ => .resolved (),
    convo_update := fun _ _ => .rejected (js_error "connection lost") }

/-- An environment like `sample_env` whose zip lookup finds a record without a
code. -/
def codeless_env : Env :=
  { sample_env with zip_find := fun _ => .resolved { code := .undefined, places := [] } }

/-- An environment like `sample_env` whose zip lookup fails with `not_found`. -/
def not_found_env : Env :=
  { sample_env with zip_find := fun _ => .rejected (js_error "not_found") }

/-- A chain table outside the source, with a step whose processor stores into
two records at once: `user.first_name` and `conversation.date`. -/
def mixed_chains : Chains :=
  [("demo",
    [("_start", .name "ask"),
     ("ask", .step
        { msg := some "What's your name?",
          process := some (fun body => .returned (.resolved
            { next := "bye",
              store := some [("user.first_name", .str body), ("conversation.date", .str "today")] })),
          pre_process := none, final := false }),
     ("bye", .step
        { msg := some "Bye!", process := none, pre_process := none, final := true })])]

/-- A user with a full name and a city. -/
def named_user : JSVal :=
  .obj [("id", .num 7), ("fullname", .str "Ann Lee"),
    ("settings", .obj [("city", .str "Reno"), ("state", .str "NV")])]

/-- Storage for `exports.start` in which every call succeeds; the user has a
user name and lives in Nevada, and the conversation created gets the id 5. -/
def start_stores : StartStores :=
  { bot_user_id := 1,
    user_get := fun _ => .resolved (.obj [("id", .num 7), ("username", .str "+15551234567"),
      ("settings", .obj [("state", .str "NV")])]),
    batch_create := fun _ => .resolved [.obj [("id", .num 7), ("username", .str "+15551234567"),
      ("settings", .obj [("state", .str "NV")])]],
    conversation_create := fun _ _ _ => .resolved 5,
    recipients_delete := fun _ => .resolved (),
    recipients_create := fun _ _ => .resolved (),
    message_create := fun _ _ _ => .resolved () }

/-- An environment like `sample_env` whose `get_gender` reads a table of two
words and returns `undefined` for any other text. -/
def table_env : Env :=
  { sample_env with
    get_gender := fun s =>
      if s == "male" then .str "male" else if s == "female" then .str "female" else .undefined }

/-- Storage in which every call succeeds, for a user in California who has
answered nothing yet. -/
def california_stores : Stores :=
  { bot_user_id := 1,
    user_get := fun _ => .resolved (.obj [("id", .num 7), ("settings", .obj [("state", .str "CA")])]),
    user_update := fun _ _ => .resolved (),
    message_create := fun _ _ _ => .resolved (),
    convo_update := fun _ _ => .resolved () }

/-- Storage in which every call succeeds, for a user in Hawaii who has answered
`state_id` and `ssn` and is asked for `gender`. -/
def hawaii_stores : Stores :=
  { bot_user_id := 1,
    user_get := fun _ => .resolved (.obj [("id", .num 7),
      ("settings", .obj [("state", .str "HI"), ("state_id", .str "H00123456"),
        ("ssn", .arr ["123-45-6789"])])]),
    user_update := fun _ _ => .resolved (),
    message_create := fun _ _ _ => .resolved (),
    convo_update := fun _ _ => .resolved () }

/-! ## Theorems -/

/-! ### Helper lemmas -/

theorem assoc_get_mem {α : Type} (l : List (String × α)) (k : String) (v : α)
    (h : assoc_get l k = some v) : (k, v) ∈ l := by
  induction l with
  | nil => simp [assoc_get] at h
  | cons p rest ih =>
    obtain ⟨k2, v2⟩ := p
    unfold assoc_get at h
    split at h
    · next hk =>
      cases h
      subst hk
      exact List.mem_cons_self _ _
    · exact List.mem_cons_of_mem _ (ih h)

theorem is_defined_iff (v : JSVal) : is_defined v = true ↔ v ≠ .undefined := by
  cases v <;> simp [is_defined]

theorem vote_per_state_keys_ne_empty (state : String) (l : List String)
    (h : assoc_get vote_per_state state = some l) : ∀ k ∈ l, k ≠ "" := by
  have hall : ∀ p ∈ vote_per_state, ∀ k ∈ p.2, k ≠ "" := by decide
  exact hall (state, l) (assoc_get_mem _ _ _ h)

theorem first_unanswered_found (user : JSVal) (pre : List String) (k : String)
    (post : List String)
    (hpre : ∀ j ∈ pre, object_get user ("settings." ++ j) ≠ .undefined)
    (hk : object_get user ("settings." ++ k) = .undefined) :
    first_unanswered user ((pre ++ k :: post).map JSVal.str) = .str k := by
  induction pre with
  | nil => simp [first_unanswered, js_to_string, hk, is_defined]
  | cons j rest ih =>
    have hj := hpre j (List.mem_cons_self _ _)
    have hrest := ih (fun x hx => hpre x (List.mem_cons_of_mem _ hx))
    simp only [List.cons_append, List.map_cons, first_unanswered, js_to_string]
    rw [if_pos ((is_defined_iff _).2 hj)]
    simpa using hrest

theorem first_unanswered_none (user : JSVal) (l : List String)
    (hall : ∀ j ∈ l, object_get user ("settings." ++ j) ≠ .undefined) :
    first_unanswered user (l.map JSVal.str) = .null := by
  induction l with
  | nil => rfl
  | cons j rest ih =>
    have hj := hall j (List.mem_cons_self _ _)
    simp only [List.map_cons, first_unanswered, js_to_string]
    rw [if_pos ((is_defined_iff _).2 hj)]
    exact ih (fun x hx => hall x (List.mem_cons_of_mem _ hx))

theorem first_unanswered_inherited (user : JSVal) (n : Nat) :
    first_unanswered user (List.replicate n JSVal.undefined) = .null ∨
    first_unanswered user (List.replicate n JSVal.undefined) = .undefined := by
  induction n with
  | zero => left; rfl
  | succ n ih =>
    simp only [List.replicate_succ, first_unanswered]
    split
    · exact ih
    · right; rfl

/-! ### Helper lemmas: dotted paths in the table of chains -/

theorem split_dots_dotless (cs : List Char) (h : '.' ∉ cs) : split_dots cs = [⟨cs⟩] := by
  induction cs with
  | nil => rfl
  | cons c rest ih =>
    have hc : c ≠ '.' := fun hc => h (by rw [hc]; exact List.mem_cons_self _ _)
    have hrest : '.' ∉ rest := fun hr => h (List.mem_cons_of_mem _ hr)
    simp [split_dots, ih hrest, hc]

theorem split_dots_ne_nil (cs : List Char) : split_dots cs ≠ [] := by
  cases cs with
  | nil => simp [split_dots]
  | cons c rest =>
    unfold split_dots
    split
    · simp
    · split <;> simp

theorem joined_data (type name : String) :
    (type ++ "." ++ name).data = type.data ++ '.' :: name.data := by
  rw [String.data_append, String.data_append, List.append_assoc]
  rfl

theorem split_dots_append (a b : List Char) :
    split_dots (a ++ '.' :: b) = split_dots a ++ split_dots b := by
  induction a with
  | nil =>
    cases hb : split_dots b with
    | nil => exact absurd hb (split_dots_ne_nil b)
    | cons seg segs => simp [split_dots, hb]
  | cons c rest ih =>
    cases hr : split_dots rest with
    | nil => exact absurd hr (split_dots_ne_nil rest)
    | cons seg segs =>
      rw [List.cons_append, split_dots, ih, hr, split_dots, hr]
      simp only [List.cons_append]
      split <;> rfl

theorem split_dots_singleton (cs : List Char) :
    ∀ x, split_dots cs = [x] → '.' ∉ cs := by
  induction cs with
  | nil => intro x _; simp
  | cons c rest ih =>
    intro x h
    cases hr : split_dots rest with
    | nil => exact absurd hr (split_dots_ne_nil rest)
    | cons seg segs =>
      simp only [split_dots, hr] at h
      split at h
      · simp at h
      · next hc =>
        simp only [List.cons.injEq] at h
        rw [h.2] at hr
        have hrest := ih seg hr
        intro hmem
        rcases List.mem_cons.1 hmem with h1 | h1
        · exact hc h1.symm
        · exact hrest h1

theorem step_get_leaf (s : Step) (k : String) (e : ChainEntry) (h : step_get s k = some e) :
    ∀ s2, e ≠ .step s2 := by
  intro s2 he
  subst he
  unfold step_get at h
  split at h
  · cases hm : s.msg <;> simp [hm] at h
  · split at h
    · cases hm : s.process <;> simp [hm] at h
    · split at h
      · cases hm : s.pre_process <;> simp [hm] at h
      · split at h
        · split at h <;> simp at h
        · simp at h

theorem entry_path_cons (e : ChainEntry) (k : String) (rest : List String) (entry : ChainEntry)
    (h : entry_path e (k :: rest) = some entry) :
    ∃ s, e = .step s ∧ rest = [] ∧ step_get s k = some entry := by
  cases e with
  | step s =>
    simp only [entry_path] at h
    cases hg : step_get s k with
    | none => simp [hg] at h
    | some e2 =>
      simp only [hg] at h
      have hleaf := step_get_leaf s k e2 hg
      cases rest with
      | nil =>
        simp only [entry_path, Option.some.injEq] at h
        exact ⟨s, rfl, rfl, by rw [← h]; exact hg⟩
      | cons k2 rest2 =>
        cases e2 with
        | step s2 => exact absurd rfl (hleaf s2)
        | name _ => simp [entry_path] at h
        | processor _ => simp [entry_path] at h
        | hook _ => simp [entry_path] at h
        | flag _ => simp [entry_path] at h
  | name _ => simp [entry_path] at h
  | processor _ => simp [entry_path] at h
  | hook _ => simp [entry_path] at h
  | flag _ => simp [entry_path] at h

/-- The lookup `chains_get` of a chain name and an entry name without dots is
the entry of that name in that chain. -/
theorem chains_get_dotless (cs : Chains) (type name : String) (ht : '.' ∉ type.data)
    (hn : '.' ∉ name.data) :
    chains_get cs type name = (assoc_get cs type).bind (fun chain => assoc_get chain name) := by
  unfold chains_get
  rw [joined_data, split_dots_append, split_dots_dotless _ ht, split_dots_dotless _ hn]
  simp only [List.singleton_append]
  cases assoc_get cs type with
  | none => rfl
  | some chain =>
    simp only [Option.bind]
    cases assoc_get chain name with
    | none => rfl
    | some e => simp [entry_path]

/-- What `chains_get` reads is an entry of a chain, under names without a dot,
or a property of a step of a chain. -/
theorem chains_get_cases (cs : Chains) (type name : String) (entry : ChainEntry)
    (h : chains_get cs type name = some entry) :
    ('.' ∉ type.data ∧ '.' ∉ name.data ∧
      ∃ chain, assoc_get cs type = some chain ∧ assoc_get chain name = some entry) ∨
    (∃ t chain k s q, assoc_get cs t = some chain ∧ assoc_get chain k = some (.step s) ∧
      step_get s q = some entry) := by
  unfold chains_get at h
  rw [joined_data, split_dots_append] at h
  cases hts : split_dots type.data with
  | nil => exact absurd hts (split_dots_ne_nil _)
  | cons t0 ts =>
    cases hks : split_dots name.data with
    | nil => exact absurd hks (split_dots_ne_nil _)
    | cons k0 ks =>
      rw [hts, hks] at h
      have key : ∀ t k rest, (match assoc_get cs t with
          | none => none
          | some chain =>
            match assoc_get chain k with
            | none => none
            | some entry => entry_path entry rest) = some entry →
          ∃ chain e, assoc_get cs t = some chain ∧ assoc_get chain k = some e ∧
            entry_path e rest = some entry := by
        intro t k rest h2
        cases hc : assoc_get cs t with
        | none => simp [hc] at h2
        | some chain =>
          simp only [hc] at h2
          cases he : assoc_get chain k with
          | none => simp [he] at h2
          | some e =>
            simp only [he] at h2
            exact ⟨chain, e, rfl, he, h2⟩
      cases ts with
      | nil =>
        simp only [List.singleton_append] at h
        obtain ⟨chain, e, hc, he, hp⟩ := key t0 k0 ks h
        cases ks with
        | nil =>
          simp only [entry_path, Option.some.injEq] at hp
          subst hp
          have ht := split_dots_singleton _ _ hts
          have hn := split_dots_singleton _ _ hks
          rw [split_dots_dotless _ ht] at hts
          rw [split_dots_dotless _ hn] at hks
          simp only [List.cons.injEq, and_true] at hts hks
          subst hts
          subst hks
          exact Or.inl ⟨ht, hn, chain, hc, he⟩
        | cons q rest =>
          obtain ⟨s, hs, _, hg⟩ := entry_path_cons e q rest entry hp
          subst hs
          exact Or.inr ⟨t0, chain, k0, s, q, hc, he, hg⟩
      | cons t1 ts2 =>
        simp only [List.cons_append] at h
        obtain ⟨chain, e, hc, he, hp⟩ := key t0 t1 _ h
        cases hrest : ts2 ++ k0 :: ks with
        | nil => simp at hrest
        | cons q rest =>
          rw [hrest] at hp
          obtain ⟨s, hs, _, hg⟩ := entry_path_cons e q rest entry hp
          subst hs
          exact Or.inr ⟨t0, chain, t1, s, q, hc, he, hg⟩

/-- A step that `chains_get` reads is an entry of the chain: the chain name and
the entry name hold no dot, and the entry name is a key of the chain. -/
theorem chains_get_step (cs : Chains) (type name : String) (s : Step)
    (h : chains_get cs type name = some (.step s)) :
    '.' ∉ type.data ∧ '.' ∉ name.data ∧
      ∃ chain, assoc_get cs type = some chain ∧ assoc_get chain name = some (.step s) := by
  rcases chains_get_cases cs type name _ h with h1 | ⟨_, _, _, s2, q, _, _, hg⟩
  · exact h1
  · exact absurd rfl (step_get_leaf s2 q _ hg s)

/-! ### C1: the question scheduler -/

/-- C1. The `per_state` hook, for a user whose `settings.state` is a string:
with `L` the requirement list of the trimmed, lower-cased state, it returns
the first entry of `L` whose settings value is `undefined` (entries before it
hold any other value, the empty string and `false` included); it returns
`party` when every entry of `L` has a value, and when there is no list `L`. -/
theorem per_state_pre_process_spec (env : Env) (action : Action) (conversation : Conversation)
    (user : JSVal) (s : String) (hs : object_get user "settings.state" = .str s) :
    (∀ L, assoc_get vote_per_state (env.toLowerCase (js_trim s)) = some L →
      (∀ pre k post, L = pre ++ k :: post →
        (∀ j ∈ pre, object_get user ("settings." ++ j) ≠ .undefined) →
        object_get user ("settings." ++ k) = .undefined →
        per_state_pre_process env action conversation user = .ok (some { next := some k })) ∧
      ((∀ j ∈ L, object_get user ("settings." ++ j) ≠ .undefined) →
        per_state_pre_process env action conversation user
          = .ok (some { next := some "party" }))) ∧
    (assoc_get vote_per_state (env.toLowerCase (js_trim s)) = none →
      per_state_pre_process env action conversation user = .ok (some { next := some "party" })) := by
  refine ⟨fun L hL => ⟨?_, ?_⟩, ?_⟩
  · intro pre k post hsplit hpre hk
    have hne : k ≠ "" :=
      vote_per_state_keys_ne_empty _ L hL k (by rw [hsplit]; simp)
    simp only [per_state_pre_process, hs, vote_per_state_get, hL, hsplit,
      first_unanswered_found user pre k post hpre hk]
    simp [hne]
  · intro hall
    simp only [per_state_pre_process, hs, vote_per_state_get, hL,
      first_unanswered_none user L hall]
  · intro hnone
    simp only [per_state_pre_process, hs, vote_per_state_get, hnone]
    cases hlen : inherited_length (env.toLowerCase (js_trim s)) with
    | none => rfl
    | some len =>
      simp only []
      rcases first_unanswered_inherited user (len.getD 0) with h | h <;> rw [h]

/-- C1, at a concrete input: a Californian who answered the first two questions
is asked the third, `18`. -/
theorem per_state_pre_process_spec_witness :
    object_get california_user "settings.state" = .str " CA " ∧
    per_state_pre_process sample_env ⟨"per_state", none⟩ ⟨1, ⟨"vote_1", "email"⟩⟩ california_user
      = .ok (some { next := some "18" }) :=
  ⟨by decide,
   ((per_state_pre_process_spec sample_env ⟨"per_state", none⟩ ⟨1, ⟨"vote_1", "email"⟩⟩ california_user " CA "
      (by decide)).1 ["us_citizen", "state_resident", "18", "ssn_last4", "state_id"]
      (by decide)).1 ["us_citizen", "state_resident"] "18" ["ssn_last4", "state_id"] rfl
      (by decide) (by decide)⟩

/-! ### C2: the step resolver -/

/-- The error of a call beyond the call stack. -/
theorem find_next_step_zero (cs : Chains) (action : Action) (conversation : Conversation)
    (user : JSVal) :
    find_next_step cs 0 action conversation user
      = .error (js_error "Maximum call stack size exceeded") := rfl

/-- A resolution that does not exhaust the call stack gives the same result
with one more frame. -/
theorem find_next_step_stable (cs : Chains) (conversation : Conversation) (user : JSVal) :
    ∀ (depth : Nat) (action : Action),
      find_next_step cs depth action conversation user
        ≠ .error (js_error "Maximum call stack size exceeded") →
      find_next_step cs (depth + 1) action conversation user
        = find_next_step cs depth action conversation user := by
  intro depth
  induction depth with
  | zero => intro action h; exact absurd rfl h
  | succ d ih =>
    intro action h
    rw [find_next_step] at h ⊢
    conv => rhs; rw [find_next_step]
    split
    · rfl
    · next nextstep hget =>
      simp only [hget] at h
      split
      · rfl
      · next htr =>
        simp only [htr] at h
        split
        · rfl
        · next hook hhook =>
          simp only [hhook] at h
          split
          · rfl
          · rfl
          · next res hres =>
            simp only [hres] at h
            split
            · rfl
            · next n hn =>
              simp only [hn] at h
              split
              · rfl
              · next hne =>
                simp only [hne, if_false] at h
                exact ih _ h

/-- C2. `find_next_step`, when `action.next` names an existing step `s` of the
conversation's chain: without a `pre_process` hook, or when the hook returns
nothing or an object without a `next` name, the result is exactly
`{step: s, name: action.next}`; when the hook returns the override name `n`,
the result is that of `find_next_step` on the same action with `next` replaced
by `n`, one call deeper (and at the same depth when that call does not exhaust
the call stack). -/
theorem find_next_step_spec (cs : Chains) (depth : Nat) (action : Action)
    (conversation : Conversation) (user : JSVal) (s : Step)
    (hs : chains_get cs conversation.state.type action.next = some (.step s)) :
    (s.pre_process = none →
      find_next_step cs (depth + 1) action conversation user
        = .ok { step := .step s, name := action.next }) ∧
    (∀ hook, s.pre_process = some hook →
      (hook action conversation user = .ok none →
        find_next_step cs (depth + 1) action conversation user
          = .ok { step := .step s, name := action.next }) ∧
      (∀ res, hook action conversation user = .ok (some res) →
        (res.next = none ∨ res.next = some "") →
        find_next_step cs (depth + 1) action conversation user
          = .ok { step := .step s, name := action.next }) ∧
      (∀ n, hook action conversation user = .ok (some { next := some n }) → n ≠ "" →
        find_next_step cs (depth + 1) action conversation user
          = find_next_step cs depth { action with next := n } conversation user ∧
        (find_next_step cs depth { action with next := n } conversation user
            ≠ .error (js_error "Maximum call stack size exceeded") →
          find_next_step cs (depth + 1) action conversation user
            = find_next_step cs (depth + 1) { action with next := n } conversation user))) := by
  refine ⟨?_, ?_⟩
  · intro hnone
    simp [find_next_step, hs, ChainEntry.truthy, ChainEntry.pre_process, hnone]
  · intro hook hhook
    refine ⟨?_, ?_, ?_⟩
    · intro hres
      simp [find_next_step, hs, ChainEntry.truthy, ChainEntry.pre_process, hhook, hres]
    · intro res hres hnext
      rcases hnext with h | h <;>
        simp [find_next_step, hs, ChainEntry.truthy, ChainEntry.pre_process, hhook, hres, h]
    · intro n hres hne
      have heq : find_next_step cs (depth + 1) action conversation user
          = find_next_step cs depth { action with next := n } conversation user := by
        simp [find_next_step, hs, ChainEntry.truthy, ChainEntry.pre_process, hhook, hres, hne]
      refine ⟨heq, fun hstack => ?_⟩
      rw [heq]
      exact (find_next_step_stable cs conversation user depth _ hstack).symm

/-- C2, at a concrete input: for a user whose city is known, the step `city`
requested after `address` is resolved as the step `state` is. -/
theorem find_next_step_spec_witness :
    find_next_step (chains sample_env) 3 ⟨"city", none⟩ ⟨1, ⟨"vote_1", "address"⟩⟩
        (.obj [("settings", .obj [("city", .str "Reno")])])
      = find_next_step (chains sample_env) 2 ⟨"state", none⟩ ⟨1, ⟨"vote_1", "address"⟩⟩
        (.obj [("settings", .obj [("city", .str "Reno")])]) :=
  (((find_next_step_spec (chains sample_env) 2 ⟨"city", none⟩ ⟨1, ⟨"vote_1", "address"⟩⟩
      (.obj [("settings", .obj [("city", .str "Reno")])])
      { pre_process := some city_pre_process,
        msg := some "What city do you live in?",
        process := some (simple_store "user.settings.city" "state" (some "Please enter your city") none),
        final := false } rfl).2 city_pre_process rfl).2.2 "state" rfl (by decide)).1

/-! ### C3: only existing steps are resolved and persisted -/

theorem find_next_step_ok_entry (cs : Chains) (conversation : Conversation) (user : JSVal) :
    ∀ (depth : Nat) (action : Action) (found : Found),
      find_next_step cs depth action conversation user = .ok found →
      chains_get cs conversation.state.type found.name = some found.step ∧
      found.step.truthy = true := by
  intro depth
  induction depth with
  | zero => intro action found h; simp [find_next_step] at h
  | succ d ih =>
    intro action found h
    rw [find_next_step] at h
    split at h
    · simp at h
    · next nextstep hget =>
      split at h
      · simp at h
      · next htr =>
        have hdefault : (Except.ok { step := nextstep, name := action.next } : Except Err Found)
            = .ok found →
            chains_get cs conversation.state.type found.name = some found.step ∧
            found.step.truthy = true := by
          intro h2
          cases h2
          exact ⟨hget, by simpa using htr⟩
        split at h
        · exact hdefault h
        · split at h
          · simp at h
          · exact hdefault h
          · split at h
            · exact hdefault h
            · split at h
              · exact hdefault h
              · exact ih _ found h

theorem find_next_step_missing (cs : Chains) (conversation : Conversation) (user : JSVal)
    (action : Action) (m : String) (hreq : Requests cs conversation user action m)
    (hmiss : chains_get cs conversation.state.type m = none) :
    ∀ depth, ∃ e, find_next_step cs depth action conversation user = .error e ∧
      e.data_error = false := by
  induction hreq with
  | requested action =>
    intro depth
    cases depth with
    | zero => exact ⟨_, rfl, rfl⟩
    | succ d =>
      exact ⟨js_error ("bot: could not load step: " ++
        (conversation.state.type ++ "." ++ action.next)), by simp [find_next_step, hmiss], rfl⟩
  | override action entry hook n m hget htruthy hhook hres hne _ ih =>
    intro depth
    cases depth with
    | zero => exact ⟨_, rfl, rfl⟩
    | succ d =>
      obtain ⟨e, he, hd⟩ := ih hmiss d
      refine ⟨e, ?_, hd⟩
      simp [find_next_step, hget, htruthy, hhook, hres, hne, he]

theorem run_setters_events (st : Stores) (user_id : Nat) (user : JSVal) (action : Action)
    (ev : List Event) (user2 : JSVal) (p : Settled Unit)
    (h : run_setters st user_id user action = .ok (ev, user2, p)) :
    (ev = [] ∧ user2 = user ∧ p = .resolved ()) ∨
    (ev = [.user_update user_id user2] ∧ p = st.user_update user_id user2 ∧
      ∃ store, action.store = some store ∧ user2 = apply_store user store) := by
  unfold run_setters at h
  split at h
  · simp at h; left; exact ⟨h.1, h.2.1.symm, h.2.2.symm⟩
  · simp at h
  · next key0 value0 more hstore =>
    simp only [] at h
    split at h
    · simp at h
      right
      obtain ⟨h1, h2, h3⟩ := h
      subst h2
      exact ⟨h1.symm, h3.symm, _, hstore, rfl⟩
    · split at h
      · simp at h
      · simp at h; left; exact ⟨h.1, h.2.1.symm, h.2.2.symm⟩

theorem resolve_and_send_convo_update (cs : Chains) (st : Stores) (depth : Nat)
    (conversation : Conversation) (user : JSVal) (action : Action) (cid : Nat)
    (state : ConvState)
    (h : Event.convo_update cid state ∈ (resolve_and_send cs st depth conversation user action).1) :
    ∃ found msg, find_next_step cs depth action conversation user = .ok found ∧
      found.step.msg = some msg ∧
      state = { conversation.state with step := found.name } := by
  unfold resolve_and_send at h
  split at h
  · simp at h
  · next found hfound =>
    split at h
    · simp at h
    · next msg hmsg =>
      split at h
      · simp at h
      · simp at h
        exact ⟨found, msg, hfound, hmsg, h.2⟩

theorem on_action_convo_update (cs : Chains) (st : Stores) (depth user_id : Nat)
    (conversation : Conversation) (user : JSVal) (action : Action) (cid : Nat)
    (state : ConvState)
    (h : Event.convo_update cid state ∈ (on_action cs st depth user_id conversation user action).1) :
    ∃ user2 found msg, find_next_step cs depth action conversation user2 = .ok found ∧
      found.step.msg = some msg ∧
      state = { conversation.state with step := found.name } := by
  unfold on_action at h
  split at h
  · simp at h
  · split at h
    · simp at h
    · next ev u2 e hstored =>
      rcases run_setters_events _ _ _ _ _ _ _ hstored with h1 | h1 <;>
        · rw [h1.1] at h; simp at h
    · next ev u2 _ hstored =>
      have hev : Event.convo_update cid state ∉ ev := by
        rcases run_setters_events _ _ _ _ _ _ _ hstored with h1 | h1 <;>
          · rw [h1.1]; simp
      simp only [List.mem_append] at h
      rcases h with h | h
      · exact absurd h hev
      · obtain ⟨found, msg, hf, hm, hs⟩ := resolve_and_send_convo_update _ _ _ _ _ _ _ _ h
        exact ⟨u2, found, msg, hf, hm, hs⟩

theorem parse_step_calls_cases (env : Env) (step : ChainEntry) (body : String) :
    parse_step_calls env step body = [] ∨ parse_step_calls env step body = [.process body] := by
  unfold parse_step_calls
  split
  · left; rfl
  · split
    · right; rfl
    · left; rfl

/-- A turn on a step that is not final runs that step. -/
theorem next_eq_run_step (cs : Chains) (env : Env) (st : Stores) (depth user_id : Nat)
    (conversation : Conversation) (message : Message) (user : JSVal) (step : ChainEntry)
    (huser : st.user_get user_id = .resolved user) (htr : truthy user = true)
    (hget : chains_get cs conversation.state.type conversation.state.step = some step)
    (hst : step.truthy = true) (hfin : step.final = false) :
    next cs env st depth user_id conversation message
      = run_step cs env st depth user_id conversation user step message := by
  unfold next
  simp [huser, htr, hget, Option.filter, hst, hfin]

/-- The ways a turn can go: it stops before the message is parsed, with no
call but the user lookup and the conversation untouched, or it runs the
current step, which is a truthy value read in the table of chains and not
final. -/
theorem next_cases (cs : Chains) (env : Env) (st : Stores) (depth user_id : Nat)
    (conversation : Conversation) (message : Message) :
    ((next cs env st depth user_id conversation message).events = [.user_get user_id] ∧
      (next cs env st depth user_id conversation message).conversation = conversation) ∨
    (∃ user step, st.user_get user_id = .resolved user ∧ truthy user = true ∧
      chains_get cs conversation.state.type conversation.state.step = some step ∧
      step.truthy = true ∧ step.final = false ∧
      next cs env st depth user_id conversation message
        = run_step cs env st depth user_id conversation user step message) := by
  cases huser : st.user_get user_id with
  | rejected e => left; simp [next, huser]
  | resolved user =>
    by_cases htr : truthy user = true
    · cases hget : chains_get cs conversation.state.type conversation.state.step with
      | none => left; simp [next, huser, htr, hget, Option.filter]
      | some step =>
        by_cases hst : step.truthy = true
        · by_cases hfin : step.final = true
          · left; simp [next, huser, htr, hget, Option.filter, hst, hfin]
          · right
            have hfin2 : step.final = false := by simpa using hfin
            exact ⟨user, step, rfl, htr, rfl, hst, hfin2,
              next_eq_run_step cs env st depth user_id conversation message user step
                huser htr hget hst hfin2⟩
        · left; simp [next, huser, htr, hget, Option.filter, hst]
    · left
      have htr2 : truthy user = false := by simpa using htr
      simp [next, huser, htr2]

theorem run_step_convo_update (cs : Chains) (env : Env) (st : Stores) (depth user_id : Nat)
    (conversation : Conversation) (user : JSVal) (step : ChainEntry) (message : Message)
    (cid : Nat) (state : ConvState)
    (h : Event.convo_update cid state ∈
      (run_step cs env st depth user_id conversation user step message).events) :
    ∃ user2 action found msg, find_next_step cs depth action conversation user2 = .ok found ∧
      found.step.msg = some msg ∧
      state = { conversation.state with step := found.name } := by
  have hcalled : Event.convo_update cid state ∉ parse_step_calls env step message.body := by
    intro hc
    rcases parse_step_calls_cases env step message.body with h1 | h1 <;>
      · rw [h1] at hc; simp at hc
  unfold run_step at h
  simp only [] at h
  split at h
  · simp at h
    exact absurd h hcalled
  · simp at h
    exact absurd h hcalled
  · next action _ =>
    have key : ∀ ev, Event.convo_update cid state ∈ ev →
        ev = (on_action cs st depth user_id conversation user action).1 →
        ∃ user2 action found msg, find_next_step cs depth action conversation user2 = .ok found ∧
          found.step.msg = some msg ∧
          state = { conversation.state with step := found.name } := by
      intro ev hin heq
      rw [heq] at hin
      obtain ⟨u2, found, msg, hf, hm, hs⟩ := on_action_convo_update _ _ _ _ _ _ _ _ _ hin
      exact ⟨u2, action, found, msg, hf, hm, hs⟩
    split at h
    · next ev c2 _ hon =>
      simp at h
      rcases h with h | h
      · exact absurd h hcalled
      · exact key ev h (by rw [hon])
    · next ev c2 err hon =>
      simp at h
      rcases h with h | h
      · exact absurd h hcalled
      · exact key ev h (by rw [hon])

theorem next_convo_update (cs : Chains) (env : Env) (st : Stores) (depth user_id : Nat)
    (conversation : Conversation) (message : Message) (cid : Nat) (state : ConvState)
    (h : Event.convo_update cid state ∈ (next cs env st depth user_id conversation message).events) :
    ∃ user2 action found msg, find_next_step cs depth action conversation user2 = .ok found ∧
      found.step.msg = some msg ∧
      state = { conversation.state with step := found.name } := by
  rcases next_cases cs env st depth user_id conversation message with h1 | h1
  · rw [h1.1] at h; simp at h
  · obtain ⟨user, step, _, _, _, _, _, heq⟩ := h1
    rw [heq] at h
    exact run_step_convo_update _ _ _ _ _ _ _ _ _ _ _ h

/-- What `chains_get` reads in the table of the source: an entry of `vote_1`,
under the chain name `vote_1` and an entry name without a dot, or a property of
a step of `vote_1`. -/
theorem chains_get_vote_1 (env : Env) (type name : String) (entry : ChainEntry)
    (h : chains_get (chains env) type name = some entry) :
    (type = "vote_1" ∧ '.' ∉ name.data ∧ (name, entry) ∈ vote_1 env) ∨
    (∃ k s q, (k, ChainEntry.step s) ∈ vote_1 env ∧ step_get s q = some entry) := by
  have hchain : ∀ t chain, assoc_get (chains env) t = some chain →
      t = "vote_1" ∧ chain = vote_1 env := by
    intro t chain hc
    unfold chains at hc
    simp only [assoc_get] at hc
    split at hc
    · next ht =>
      simp at hc
      exact ⟨ht.symm, hc.symm⟩
    · simp at hc
  rcases chains_get_cases _ type name entry h with
    ⟨_, hn, chain, hc, he⟩ | ⟨t, chain, k, s, q, hc, he, hg⟩
  · obtain ⟨ht, hch⟩ := hchain _ _ hc
    subst hch
    exact Or.inl ⟨ht, hn, assoc_get_mem _ _ _ he⟩
  · obtain ⟨_, hch⟩ := hchain _ _ hc
    subst hch
    exact Or.inr ⟨k, s, q, assoc_get_mem _ _ _ he, hg⟩

/-- A property of a step has none of the properties the engine reads. -/
theorem step_get_properties (s : Step) (q : String) (e : ChainEntry)
    (h : step_get s q = some e) :
    e.pre_process = none ∧ e.process = none ∧ e.msg = none ∧ e.final = false := by
  have hleaf := step_get_leaf s q e h
  cases e with
  | step s2 => exact absurd rfl (hleaf s2)
  | name _ => exact ⟨rfl, rfl, rfl, rfl⟩
  | processor _ => exact ⟨rfl, rfl, rfl, rfl⟩
  | hook _ => exact ⟨rfl, rfl, rfl, rfl⟩
  | flag _ => exact ⟨rfl, rfl, rfl, rfl⟩

/-- The properties of a step whose message is not empty are truthy. -/
theorem step_get_truthy (s : Step) (q : String) (e : ChainEntry) (hmsg : s.msg ≠ some "")
    (h : step_get s q = some e) : e.truthy = true := by
  unfold step_get at h
  split at h
  · cases hm : s.msg with
    | none => simp [hm] at h
    | some m =>
      simp [hm] at h
      subst h
      have hne : m ≠ "" := fun hn => hmsg (by rw [hm, hn])
      simp [ChainEntry.truthy, hne]
  · split at h
    · cases hm : s.process with
      | none => simp [hm] at h
      | some f => simp [hm] at h; subst h; rfl
    · split at h
      · cases hm : s.pre_process with
        | none => simp [hm] at h
        | some f => simp [hm] at h; subst h; rfl
      · split at h
        · split at h
          · simp at h; subst h; rfl
          · simp at h
        · simp at h

theorem vote_1_msg_ne_empty (env : Env) :
    ∀ p ∈ vote_1 env, ∀ s, p.2 = ChainEntry.step s → s.msg ≠ some "" := by
  simp only [vote_1, List.forall_mem_cons, ask]
  refine ⟨?_, ?_, ?_, ?_, ?_, ?_, ?_, ?_, ?_, ?_, ?_, ?_, ?_, ?_, ?_, ?_, ?_, ?_, ?_, ?_, ?_, ?_, ?_, ?_, ?_, ?_, ?_, ?_, ?_⟩
  all_goals first
    | (intro x hx; exact absurd hx (List.not_mem_nil x))
    | (intro s hs; cases hs; done)
    | (intro s hs; cases hs; simp; done)
    | (intro s hs
       cases hs
       intro h
       have h0 : _ ++ _ = ([] : List Char) :=
         (String.data_append _ _).symm.trans (congrArg String.data (Option.some.inj h))
       exact absurd (List.append_eq_nil.1 h0).1 (by decide))

/-- Every value `chains_get` reads in the table of the source is truthy. -/
theorem vote_1_truthy (env : Env) (type name : String) (step : ChainEntry)
    (hget : chains_get (chains env) type name = some step) : step.truthy = true := by
  rcases chains_get_vote_1 env _ _ _ hget with ⟨_, _, hmem⟩ | ⟨k, s, q, hmem, hg⟩
  · have hall : ∀ p ∈ vote_1 env, p.2.truthy = true := by
      simp [vote_1, ask, ChainEntry.truthy]
    exact hall _ hmem
  · exact step_get_truthy s q step (vote_1_msg_ne_empty env _ hmem s rfl) hg

theorem first_unanswered_mem (user : JSVal) (l : List JSVal) (k : String)
    (h : first_unanswered user l = .str k) : JSVal.str k ∈ l := by
  induction l with
  | nil => simp [first_unanswered] at h
  | cons key rest ih =>
    unfold first_unanswered at h
    simp only [] at h
    split at h
    · exact List.mem_cons_of_mem _ (ih h)
    · rw [h]; exact List.mem_cons_self _ _

/-- The `per_state` hook, when it returns, returns an override: `party`, or an
entry of a requirement list. -/
theorem per_state_pre_process_names (env : Env) (action : Action)
    (conversation : Conversation) (user : JSVal) (r : Option HookResult)
    (h : per_state_pre_process env action conversation user = .ok r) :
    ∃ n, r = some { next := some n } ∧ n ≠ "" ∧
      (n = "party" ∨ ∃ state L, assoc_get vote_per_state state = some L ∧ n ∈ L) := by
  have hparty : ∃ n, some ({ next := some "party" } : HookResult) = some { next := some n } ∧
      n ≠ "" ∧ (n = "party" ∨ ∃ state L, assoc_get vote_per_state state = some L ∧ n ∈ L) :=
    ⟨"party", rfl, by decide, Or.inl rfl⟩
  unfold per_state_pre_process at h
  split at h
  · next s hs =>
    simp only [] at h
    split at h
    · simp at h; rw [← h]; exact hparty
    · next qs hqs =>
      split at h
      · next k hk =>
        split at h
        · next hne =>
          simp at h
          refine ⟨k, h.symm, by simpa using hne, Or.inr ?_⟩
          have hmem := first_unanswered_mem user qs k hk
          unfold vote_per_state_get at hqs
          split at hqs
          · next L hL =>
            simp at hqs
            rw [← hqs] at hmem
            simp at hmem
            exact ⟨_, L, hL, hmem⟩
          · split at hqs
            · simp at hqs
              rw [← hqs] at hmem
              simp at hmem
            · simp at hqs
        · simp at h; rw [← h]; exact hparty
      · simp at h; rw [← h]; exact hparty
  · simp at h
  · simp at h
  · simp at h

/-- The `per_state` hook, when it returns, returns an override: a name that is
not empty and is not the start marker. -/
theorem per_state_pre_process_override (env : Env) (action : Action)
    (conversation : Conversation) (user : JSVal) (r : Option HookResult)
    (h : per_state_pre_process env action conversation user = .ok r) :
    ∃ n, r = some { next := some n } ∧ n ≠ "" ∧ n ≠ "_start" := by
  obtain ⟨n, h1, h2, h3⟩ := per_state_pre_process_names env action conversation user r h
  refine ⟨n, h1, h2, ?_⟩
  rcases h3 with h3 | ⟨state, L, hL, hm⟩
  · rw [h3]; decide
  · have hall : ∀ p ∈ vote_per_state, ∀ k ∈ p.2, k ≠ "_start" := by decide
    exact hall _ (assoc_get_mem _ _ _ hL) n hm

theorem vote_1_resolves_to_message (env : Env) : ∀ p ∈ vote_1 env, ResolvesToMessage p := by
  simp only [vote_1, List.forall_mem_cons, ask]
  refine ⟨?_, ?_, ?_, ?_, ?_, ?_, ?_, ?_, ?_, ?_, ?_, ?_, ?_, ?_, ?_, ?_, ?_, ?_, ?_, ?_, ?_, ?_, ?_, ?_, ?_, ?_, ?_, ?_, ?_⟩
  all_goals first
    | (intro x hx; exact absurd hx (List.not_mem_nil x))
    | (refine ⟨fun _ h => absurd rfl h, fun hook hh => ?_, fun hook hh => ?_⟩ <;>
        · simp [ChainEntry.pre_process] at hh)
    | (refine ⟨fun _ _ => ⟨_, _, rfl, rfl⟩, fun hook hh => ?_, fun hook hh => ?_⟩ <;>
        · simp [ChainEntry.pre_process] at hh)
    | (refine ⟨fun _ _ => ⟨_, _, rfl, rfl⟩, fun hook hh a c u r _ => Or.inl ⟨_, _, rfl, rfl⟩,
        fun hook hh a c u n hr => ?_⟩
       simp only [ChainEntry.pre_process, Option.some.injEq] at hh
       subst hh
       first
        | (unfold city_pre_process at hr; split at hr <;> simp at hr; rw [← hr]; decide)
        | (unfold state_pre_process at hr; split at hr <;> simp at hr; rw [← hr]; decide))
    | (refine ⟨fun h => ?_, fun hook hh a c u r hr => ?_, fun hook hh a c u n hr => ?_⟩
       · simp [ChainEntry.pre_process] at h
       · simp only [ChainEntry.pre_process, Option.some.injEq] at hh
         subst hh
         obtain ⟨n, h1, h2, _⟩ := per_state_pre_process_override env a c u r hr
         exact Or.inr ⟨n, h1, h2⟩
       · simp only [ChainEntry.pre_process, Option.some.injEq] at hh
         subst hh
         obtain ⟨m, h1, _, h3⟩ := per_state_pre_process_override env a c u _ hr
         simp at h1
         rw [h1]; exact h3)

theorem chains_vote_1 (env : Env) (t : String) (chain : Chain)
    (h : assoc_get (chains env) t = some chain) : t = "vote_1" ∧ chain = vote_1 env := by
  unfold chains at h
  simp only [assoc_get] at h
  split at h
  · next ht =>
    simp at h
    exact ⟨ht.symm, h.symm⟩
  · simp at h

/-- In the table of the source, what `chains_get` reads under a chain name and
an entry name without a dot is an entry of `vote_1`. -/
theorem chains_get_vote_1_mem (env : Env) (type name : String) (entry : ChainEntry)
    (ht : '.' ∉ type.data) (hn : '.' ∉ name.data)
    (h : chains_get (chains env) type name = some entry) :
    type = "vote_1" ∧ (name, entry) ∈ vote_1 env := by
  rw [chains_get_dotless _ _ _ ht hn] at h
  cases hc : assoc_get (chains env) type with
  | none => simp [hc] at h
  | some chain =>
    simp only [hc, Option.bind] at h
    obtain ⟨h1, h2⟩ := chains_vote_1 env _ _ hc
    subst h2
    exact ⟨h1, assoc_get_mem _ _ _ h⟩

/-- The overrides the hooks of `vote_1` return hold no dot. -/
theorem vote_1_overrides_dotless (env : Env) :
    ∀ p ∈ vote_1 env, ∀ hook, p.2.pre_process = some hook →
      ∀ a c u n, hook a c u = .ok (some { next := some n }) → '.' ∉ n.data := by
  simp only [vote_1, List.forall_mem_cons, ask]
  refine ⟨?_, ?_, ?_, ?_, ?_, ?_, ?_, ?_, ?_, ?_, ?_, ?_, ?_, ?_, ?_, ?_, ?_, ?_, ?_, ?_, ?_, ?_, ?_, ?_, ?_, ?_, ?_, ?_, ?_⟩
  all_goals first
    | (intro x hx; exact absurd hx (List.not_mem_nil x))
    | (intro hook hh; simp [ChainEntry.pre_process] at hh; done)
    | (intro hook hh a c u n hr
       simp only [ChainEntry.pre_process, Option.some.injEq] at hh
       subst hh
       first
        | (unfold city_pre_process at hr; split at hr <;> simp at hr; rw [← hr]; decide)
        | (unfold state_pre_process at hr; split at hr <;> simp at hr; rw [← hr]; decide)
        | (obtain ⟨m, h1, _, h3⟩ := per_state_pre_process_names env a c u _ hr
           simp at h1
           rw [h1]
           rcases h3 with h3 | ⟨state, L, hL, hm⟩
           · rw [h3]; decide
           · have hall : ∀ p ∈ vote_per_state, ∀ k ∈ p.2, '.' ∉ k.data := by decide
             exact hall _ (assoc_get_mem _ _ _ hL) m hm))

/-- In the chains of the source, for a chain name and a requested name without
a dot, the requested name other than the start marker, the resolver returns a
key of `vote_1` and its entry, a step with a message. -/
theorem find_next_step_has_msg (env : Env) (conversation : Conversation) (user : JSVal)
    (htype : '.' ∉ conversation.state.type.data) :
    ∀ (depth : Nat) (action : Action) (found : Found),
      '.' ∉ action.next.data → action.next ≠ "_start" →
      find_next_step (chains env) depth action conversation user = .ok found →
      ∃ s msg, (found.name, ChainEntry.step s) ∈ vote_1 env ∧ found.step = .step s ∧
        s.msg = some msg := by
  intro depth
  induction depth with
  | zero => intro action found _ _ h; simp [find_next_step] at h
  | succ d ih =>
    intro action found hdot hns h
    rw [find_next_step] at h
    split at h
    · simp at h
    · next nextstep hget =>
      obtain ⟨_, hmem⟩ := chains_get_vote_1_mem env _ _ _ htype hdot hget
      obtain ⟨hnohook, hhookmsg, hhookname⟩ := vote_1_resolves_to_message env _ hmem
      have hhookdot := vote_1_overrides_dotless env _ hmem
      simp only [] at hnohook hhookmsg hhookname hhookdot
      have hdefault : ∀ s msg, nextstep = .step s → s.msg = some msg →
          (Except.ok { step := nextstep, name := action.next } : Except Err Found) = .ok found →
          ∃ s msg, (found.name, ChainEntry.step s) ∈ vote_1 env ∧ found.step = .step s ∧
            s.msg = some msg := by
        intro s msg hs hmsg h2
        cases h2
        subst hs
        exact ⟨s, msg, hmem, rfl, hmsg⟩
      split at h
      · simp at h
      · split at h
        · next hnone =>
          obtain ⟨s, msg, hs, hmsg⟩ := hnohook hnone hns
          exact hdefault s msg hs hmsg h
        · next hook hhook =>
          split at h
          · simp at h
          · next hres =>
            rcases hhookmsg hook hhook _ _ _ _ hres with ⟨s, msg, hs, hmsg⟩ | ⟨n, hn, _⟩
            · exact hdefault s msg hs hmsg h
            · simp at hn
          · next res hres =>
            split at h
            · next hnext =>
              rcases hhookmsg hook hhook _ _ _ _ hres with ⟨s, msg, hs, hmsg⟩ | ⟨n, hn, _⟩
              · exact hdefault s msg hs hmsg h
              · simp at hn
                rw [hn] at hnext
                simp at hnext
            · next n hnext =>
              have hres2 : hook action conversation user = .ok (some { next := some n }) := by
                rw [hres]
                cases res
                simp at hnext
                simp [hnext]
              split at h
              · next hempty =>
                rcases hhookmsg hook hhook _ _ _ _ hres2 with ⟨s, msg, hs, hmsg⟩ | ⟨m, hm, hne⟩
                · exact hdefault s msg hs hmsg h
                · simp at hm
                  rw [← hm] at hne
                  exact absurd hempty hne
              · exact ih _ found (hhookdot hook hhook _ _ _ n hres2)
                  (hhookname hook hhook _ _ _ n hres2) h

/-- C3, as amended. (a) Whenever `find_next_step` returns `{step, name}`,
`step` is the truthy value `util.object.get` reads in `chains` at the dotted
path `type.name`; when that value is a step, and also when neither the chain
name nor `name` holds a dot, `name` is a key of the conversation's chain and
`step` is the chain's entry for it. (b) Whenever a name the resolution
requests, the requested one or an override reached on the way, reads nothing
at its path, the call fails with an error that is not a data error, at every
depth of the call stack. (c) Every conversation update a turn of
`exports.next` issues carries the chain name unchanged and a step name that is
a key of that chain, whose entry is a step with a message. (d) On the chains of
the source, for a chain name and a requested name without a dot, the requested
name other than the start marker `_start`, the returned name is a key of
`vote_1` and the returned value its entry, a step with a message. -/
theorem find_next_step_existing_step (cs : Chains) :
    (∀ depth action conversation user found,
      find_next_step cs depth action conversation user = .ok found →
      chains_get cs conversation.state.type found.name = some found.step ∧
      found.step.truthy = true ∧
      (∀ s, found.step = .step s →
        ∃ chain, assoc_get cs conversation.state.type = some chain ∧
          assoc_get chain found.name = some (.step s)) ∧
      ('.' ∉ conversation.state.type.data → '.' ∉ found.name.data →
        ∃ chain, assoc_get cs conversation.state.type = some chain ∧
          assoc_get chain found.name = some found.step)) ∧
    (∀ conversation user action m, Requests cs conversation user action m →
      chains_get cs conversation.state.type m = none →
      ∀ depth, ∃ e, find_next_step cs depth action conversation user = .error e ∧
        e.data_error = false) ∧
    (∀ env st depth user_id conversation message cid state,
      Event.convo_update cid state ∈
        (next cs env st depth user_id conversation message).events →
      state.type = conversation.state.type ∧
      ∃ chain s msg, chains_get cs conversation.state.type state.step = some (.step s) ∧
        assoc_get cs conversation.state.type = some chain ∧
        assoc_get chain state.step = some (.step s) ∧ s.msg = some msg) ∧
    (∀ env depth action conversation user found,
      '.' ∉ conversation.state.type.data → '.' ∉ action.next.data → action.next ≠ "_start" →
      find_next_step (chains env) depth action conversation user = .ok found →
      ∃ s msg, (found.name, ChainEntry.step s) ∈ vote_1 env ∧ found.step = .step s ∧
        s.msg = some msg) := by
  refine ⟨?_, ?_, ?_, ?_⟩
  · intro depth action conversation user found h
    obtain ⟨hentry, htruthy⟩ := find_next_step_ok_entry cs conversation user depth action found h
    refine ⟨hentry, htruthy, ?_, ?_⟩
    · intro s hs
      rw [hs] at hentry
      exact (chains_get_step cs _ _ s hentry).2.2
    · intro ht hn
      rw [chains_get_dotless cs _ _ ht hn] at hentry
      cases hc : assoc_get cs conversation.state.type with
      | none => simp [hc] at hentry
      | some chain =>
        simp only [hc, Option.bind] at hentry
        exact ⟨chain, rfl, hentry⟩
  · intro conversation user action m hreq hmiss depth
    exact find_next_step_missing cs conversation user action m hreq hmiss depth
  · intro env st depth user_id conversation message cid state h
    obtain ⟨user2, action, found, msg, hfound, hmsg, hstate⟩ :=
      next_convo_update cs env st depth user_id conversation message cid state h
    have hentry := (find_next_step_ok_entry cs conversation user2 depth action found hfound).1
    subst hstate
    refine ⟨rfl, ?_⟩
    cases hstep : found.step with
    | step s =>
      rw [hstep] at hmsg hentry
      obtain ⟨_, _, chain, hc, he⟩ := chains_get_step cs _ _ s hentry
      exact ⟨chain, s, msg, hentry, hc, he, hmsg⟩
    | name _ => rw [hstep] at hmsg; simp [ChainEntry.msg] at hmsg
    | processor _ => rw [hstep] at hmsg; simp [ChainEntry.msg] at hmsg
    | hook _ => rw [hstep] at hmsg; simp [ChainEntry.msg] at hmsg
    | flag _ => rw [hstep] at hmsg; simp [ChainEntry.msg] at hmsg
  · intro env depth action conversation user found ht hdot hns h
    exact find_next_step_has_msg env conversation user ht depth action found hdot hns h

/-- C3 as amended, at concrete inputs: the step `state` declares the next step
`dob`, which reads nothing in `vote_1`, and resolving it fails with an error
that is not a data error; the name `last_name`, requested after `intro_direct`,
is returned as a key of `vote_1` whose entry is a step with a message. -/
theorem find_next_step_existing_step_witness :
    (∃ e, find_next_step (chains sample_env) 3 ⟨"dob", none⟩ ⟨1, ⟨"vote_1", "state"⟩⟩
        california_user = .error e ∧ e.data_error = false) ∧
    (∃ s msg, ("last_name", ChainEntry.step s) ∈ vote_1 sample_env ∧ s.msg = some msg) :=
  ⟨(find_next_step_existing_step (chains sample_env)).2.1 ⟨1, ⟨"vote_1", "state"⟩⟩
      california_user ⟨"dob", none⟩ "dob" (Requests.requested _) rfl 3,
   match (find_next_step_existing_step (chains sample_env)).2.2.2 sample_env 3
      ⟨"last_name", none⟩ ⟨1, ⟨"vote_1", "intro_direct"⟩⟩ new_user
      ⟨ask "What's your last name?"
        (simple_store "user.last_name" "zip" (some "Please enter your last name") none),
       "last_name"⟩
      (by decide) (by decide) (by decide) rfl with
   | ⟨s, msg, hmem, _, hmsg⟩ => ⟨s, msg, hmem, hmsg⟩⟩

/-- C3, as stated, fails: the resolver returns names that are no step of the
chain. Requested with the dotted name `city.msg`, it reads the message of the
step `city` and returns that string under the name `city.msg`, which is no key
of `vote_1`; requested with the start marker `_start`, a key of `vote_1`, it
returns the entry of the marker, the string `intro_direct`, which is no step. -/
theorem find_next_step_existing_step_counterexample :
    find_next_step (chains sample_env) 3 ⟨"city.msg", none⟩ ⟨1, ⟨"vote_1", "address"⟩⟩
        california_user
      = .ok ⟨.name "What city do you live in?", "city.msg"⟩ ∧
    (assoc_get (vote_1 sample_env) "city.msg").isNone = true ∧
    find_next_step (chains sample_env) 3 ⟨"_start", none⟩ ⟨1, ⟨"vote_1", "address"⟩⟩
        california_user
      = .ok ⟨.name "intro_direct", "_start"⟩ :=
  ⟨rfl, rfl, rfl⟩

/-! ### C4: the success path of a turn -/

theorem run_setters_on_user (st : Stores) (user_id : Nat) (user : JSVal) (action : Action)
    (h : StoresOnUser action) :
    run_setters st user_id user action
      = .ok ([.user_update user_id (apply_store user (action.store.getD []))],
          apply_store user (action.store.getD []),
          st.user_update user_id (apply_store user (action.store.getD []))) := by
  obtain ⟨_, _, store, hstore, hne, hall⟩ := h
  cases store with
  | nil => exact absurd rfl hne
  | cons kv more =>
    obtain ⟨k, v⟩ := kv
    have hk : record_of k = "user" := hall (k, v) (List.mem_cons_self _ _)
    simp [run_setters, hstore, hk]

theorem on_action_success (cs : Chains) (st : Stores) (depth user_id : Nat)
    (conversation : Conversation) (user : JSVal) (action : Action) (found : Found)
    (msg : String) (h : StoresOnUser action)
    (hupd : st.user_update user_id (apply_store user (action.store.getD [])) = .resolved ())
    (hfound : find_next_step cs depth action conversation
      (apply_store user (action.store.getD [])) = .ok found)
    (hmsg : found.step.msg = some msg)
    (hcreate : st.message_create st.bot_user_id conversation.id
      (template msg (apply_store user (action.store.getD []))) = .resolved ())
    (hconv : st.convo_update conversation.id { conversation.state with step := found.name }
      = .resolved ()) :
    on_action cs st depth user_id conversation user action
      = ([.user_update user_id (apply_store user (action.store.getD [])),
          .find_next_step action.next (apply_store user (action.store.getD [])),
          .message_create st.bot_user_id conversation.id
            (template msg (apply_store user (action.store.getD []))),
          .convo_update conversation.id { conversation.state with step := found.name }],
         { conversation with state := { conversation.state with step := found.name } },
         .resolved ()) := by
  have hnc := h.1
  simp [on_action, hnc, run_setters_on_user st user_id user action h, hupd, resolve_and_send,
    hfound, hmsg, hcreate, hconv]

theorem field_set_mem (l : List (String × JSVal)) (k : String) (v : JSVal)
    (kv : String × JSVal) (h : kv ∈ field_set l k v) : kv.1 = k ∨ kv ∈ l := by
  induction l with
  | nil =>
    simp [field_set] at h
    left; rw [h]
  | cons p rest ih =>
    obtain ⟨k2, v2⟩ := p
    unfold field_set at h
    split at h
    · next hk =>
      rcases List.mem_cons.1 h with h1 | h1
      · left; rw [h1]; exact hk
      · right; exact List.mem_cons_of_mem _ h1
    · rcases List.mem_cons.1 h with h1 | h1
      · right; rw [h1]; exact List.mem_cons_self _ _
      · rcases ih h1 with h2 | h2
        · left; exact h2
        · right; exact List.mem_cons_of_mem _ h2

theorem field_set_ne_nil (l : List (String × JSVal)) (k : String) (v : JSVal) :
    field_set l k v ≠ [] := by
  cases l with
  | nil => simp [field_set]
  | cons p rest =>
    obtain ⟨k2, v2⟩ := p
    unfold field_set
    split <;> simp

theorem simple_store_resolved (store next : String) (errormsg : Option String)
    (validate : Option Validator) (body : String) (a : Action)
    (h : simple_store store next errormsg validate body = .returned (.resolved a)) :
    js_trim body ≠ "" ∧ a.next = next ∧
    ((validate = none ∧ a.store = some [(store, .str body)]) ∨
     (∃ v value extra, validate = some v ∧ v body = .returned (.resolved (value, extra)) ∧
        a.store = some (field_set (extra.getD []) store value))) := by
  unfold simple_store at h
  split at h
  · simp at h
  · next hb =>
    refine ⟨hb, ?_⟩
    split at h
    · simp at h
      subst h
      exact ⟨rfl, Or.inl ⟨rfl, rfl⟩⟩
    · next v =>
      split at h
      · simp at h
      · simp at h
      · next value extra hv =>
        simp at h
        subst h
        exact ⟨rfl, Or.inr ⟨v, value, extra, rfl, hv, rfl⟩⟩

theorem simple_store_on_user (store next : String) (errormsg : Option String)
    (validate : Option Validator) (hk : record_of store = "user") (hn : next ≠ "_cancel")
    (hn2 : next ≠ "_start")
    (hv : ∀ v, validate = some v → ExtrasOnUser v) (body : String) (a : Action)
    (h : simple_store store next errormsg validate body = .returned (.resolved a)) :
    StoresOnUser a := by
  obtain ⟨_, hnext, hstore⟩ := simple_store_resolved store next errormsg validate body a h
  refine ⟨by rw [hnext]; exact hn, by rw [hnext]; exact hn2, ?_⟩
  rcases hstore with ⟨_, hs⟩ | ⟨v, value, extra, hval, hres, hs⟩
  · refine ⟨_, hs, by simp, ?_⟩
    intro kv hkv
    simp at hkv
    rw [hkv]; exact hk
  · refine ⟨_, hs, field_set_ne_nil _ _ _, ?_⟩
    intro kv hkv
    rcases field_set_mem _ _ _ _ hkv with h1 | h1
    · rw [h1]; exact hk
    · exact hv v hval body value extra hres kv h1

theorem extras_none (v : Validator)
    (h : ∀ body value extra, v body = .returned (.resolved (value, extra)) → extra = none) :
    ExtrasOnUser v := by
  intro body value extra hres kv hkv
  rw [h body value extra hres] at hkv
  simp at hkv

theorem validate_date_extras (env : Env) : ExtrasOnUser (validate_date env) := by
  apply extras_none
  intro body value extra h
  unfold validate_date at h
  split at h
  · simp at h
  · simp at h; exact h.2.symm

theorem validate_email_extras : ExtrasOnUser validate_email := by
  apply extras_none
  intro body value extra h
  unfold validate_email at h
  split at h
  · simp at h; exact h.2.symm
  · simp at h

theorem validate_boolean_extras (env : Env) : ExtrasOnUser (validate_boolean env) := by
  apply extras_none
  intro body value extra h
  unfold validate_boolean at h
  simp at h; exact h.2.symm

theorem validate_boolean_yes_extras (env : Env) : ExtrasOnUser (validate_boolean_yes env) := by
  apply extras_none
  intro body value extra h
  unfold validate_boolean_yes at h
  simp only [] at h
  split at h
  · simp at h
  · split at h
    · simp at h
    · simp at h; exact h.2.symm

theorem validate_boolean_no_extras (env : Env) : ExtrasOnUser (validate_boolean_no env) := by
  apply extras_none
  intro body value extra h
  unfold validate_boolean_no at h
  simp only [] at h
  split at h
  · simp at h
  · split at h
    · simp at h
    · simp at h; exact h.2.symm

theorem validate_gender_extras (env : Env) : ExtrasOnUser (validate_gender env) := by
  apply extras_none
  intro body value extra h
  unfold validate_gender at h
  simp only [] at h
  split at h
  · simp at h
  · simp at h; exact h.2.symm

theorem validate_ssn_extras : ExtrasOnUser validate_ssn := by
  apply extras_none
  intro body value extra h
  unfold validate_ssn at h
  split at h
  · simp at h
  · split at h
    · simp at h; exact h.2.symm
    · simp at h

theorem validate_zip_extras (env : Env) : ExtrasOnUser (validate_zip env) := by
  intro body value extra h kv hkv
  unfold validate_zip at h
  simp only [] at h
  split at h
  · simp at h
  · split at h
    · split at h <;> simp at h
    · next r hfound =>
      simp at h
      subst h
      split at hfound
      · simp at hfound
      · next zipdata _ =>
        split at hfound
        · simp at hfound
        · simp at hfound
          obtain ⟨_, hextra⟩ := hfound
          subst hextra
          simp only [Option.getD] at hkv
          split at hkv
          · next city state _ =>
            have hcity : ∀ kv ∈ (if truthy city = true then [("user.settings.city", city)] else []),
                record_of kv.1 = "user" := by
              intro kv2 h2
              split at h2
              · simp at h2; rw [h2]; show record_of "user.settings.city" = "user"; decide
              · simp at h2
            split at hkv
            · rcases field_set_mem _ _ _ _ hkv with h1 | h1
              · rw [h1]; decide
              · exact hcity kv h1
            · exact hcity kv hkv
          · simp at hkv

/-- Every transition a processor of `vote_1` resolves to stores on the user
record and does not cancel. -/
theorem vote_1_processors (env : Env) :
    ∀ p ∈ vote_1 env, ∀ proc, p.2.process = some proc →
      ∀ body a, proc body = .returned (.resolved a) → StoresOnUser a := by
  have hnone : ∀ v : Validator, (none : Option Validator) = some v → ExtrasOnUser v := by
    intro v h; cases h
  have hsome : ∀ w : Validator, ExtrasOnUser w →
      ∀ v : Validator, some w = some v → ExtrasOnUser v := by
    intro w hw v h; cases h; exact hw
  simp only [vote_1, List.forall_mem_cons, ask, ChainEntry.process]
  refine ⟨?_, ?_, ?_, ?_, ?_, ?_, ?_, ?_, ?_, ?_, ?_, ?_, ?_, ?_, ?_, ?_, ?_, ?_, ?_, ?_, ?_, ?_, ?_, ?_, ?_, ?_, ?_, ?_, ?_⟩
  all_goals first
    | (intro x hx; exact absurd hx (List.not_mem_nil x))
    | (intro proc hp; cases hp; done)
    | (intro proc hp body a hres
       cases hp
       first
        | exact simple_store_on_user _ _ _ _ (by decide) (by decide) (by decide) hnone body a hres
        | exact simple_store_on_user _ _ _ _ (by decide) (by decide) (by decide)
            (hsome _ (validate_zip_extras env)) body a hres
        | exact simple_store_on_user _ _ _ _ (by decide) (by decide) (by decide)
            (hsome _ (validate_date_extras env)) body a hres
        | exact simple_store_on_user _ _ _ _ (by decide) (by decide) (by decide)
            (hsome _ validate_email_extras) body a hres
        | exact simple_store_on_user _ _ _ _ (by decide) (by decide) (by decide)
            (hsome _ (validate_boolean_extras env)) body a hres
        | exact simple_store_on_user _ _ _ _ (by decide) (by decide) (by decide)
            (hsome _ (validate_boolean_yes_extras env)) body a hres
        | exact simple_store_on_user _ _ _ _ (by decide) (by decide) (by decide)
            (hsome _ (validate_boolean_no_extras env)) body a hres
        | exact simple_store_on_user _ _ _ _ (by decide) (by decide) (by decide)
            (hsome _ (validate_gender_extras env)) body a hres
        | exact simple_store_on_user _ _ _ _ (by decide) (by decide) (by decide)
            (hsome _ validate_ssn_extras) body a hres)

/-- The next names the processors of `vote_1` request hold no dot. -/
theorem vote_1_processors_dotless (env : Env) :
    ∀ p ∈ vote_1 env, ∀ proc, p.2.process = some proc →
      ∀ body a, proc body = .returned (.resolved a) → '.' ∉ a.next.data := by
  simp only [vote_1, List.forall_mem_cons, ask, ChainEntry.process]
  refine ⟨?_, ?_, ?_, ?_, ?_, ?_, ?_, ?_, ?_, ?_, ?_, ?_, ?_, ?_, ?_, ?_, ?_, ?_, ?_, ?_, ?_, ?_, ?_, ?_, ?_, ?_, ?_, ?_, ?_⟩
  all_goals first
    | (intro x hx; exact absurd hx (List.not_mem_nil x))
    | (intro proc hp; cases hp; done)
    | (intro proc hp body a hres
       cases hp
       rw [(simple_store_resolved _ _ _ _ body a hres).2.1]
       decide)

theorem parse_step_resolved (env : Env) (step : ChainEntry) (body : String) (action : Action)
    (hcancel : truthy (env.is_cancel body) = false)
    (h : parse_step env step body = .returned (.resolved action)) :
    ∃ proc, step.process = some proc ∧ proc body = .returned (.resolved action) ∧
      parse_step_calls env step body = [.process body] := by
  unfold parse_step at h
  simp only [hcancel, Bool.false_eq_true, if_false] at h
  split at h
  · simp at h
  · next proc hproc =>
    exact ⟨proc, hproc, h, by simp [parse_step_calls, hcancel, hproc]⟩

/-- C4. The success path of `exports.next` on the chains of the source: at a
current step that is not final, for a message that is not a cancel phrase and
that the step processes to the transition `action`, when the user update, the
message creation and the conversation update succeed and the resolver returns
`found`: the store of the transition addresses the user record in every key,
and the turn makes exactly these calls, in this order: the user lookup, the
processor, `user_model.update` with the user record after the assignments,
the resolver with the transition's next name and that updated record, one
message creation whose body is the resolved step's message rendered against
the updated record, and the conversation update with the resolved step's name
and the chain name unchanged. -/
theorem next_success_path (env : Env) (st : Stores) (depth user_id : Nat)
    (conversation : Conversation) (message : Message) (user : JSVal) (step : ChainEntry)
    (action : Action) (found : Found)
    (huser : st.user_get user_id = .resolved user) (htr : truthy user = true)
    (hget : chains_get (chains env) conversation.state.type conversation.state.step = some step)
    (hfin : step.final = false)
    (hcancel : truthy (env.is_cancel message.body) = false)
    (hparse : parse_step env step message.body = .returned (.resolved action))
    (hupd : st.user_update user_id (apply_store user (action.store.getD [])) = .resolved ())
    (hfound : find_next_step (chains env) depth action conversation
      (apply_store user (action.store.getD [])) = .ok found)
    (hcreate : ∀ msg, found.step.msg = some msg →
      st.message_create st.bot_user_id conversation.id
        (template msg (apply_store user (action.store.getD []))) = .resolved ())
    (hconv : st.convo_update conversation.id { conversation.state with step := found.name }
      = .resolved ()) :
    (∃ store, action.store = some store ∧ store ≠ [] ∧ ∀ kv ∈ store, record_of kv.1 = "user") ∧
    ∃ msg, found.step.msg = some msg ∧
      next (chains env) env st depth user_id conversation message =
        { events :=
            [.user_get user_id,
             .process message.body,
             .user_update user_id (apply_store user (action.store.getD [])),
             .find_next_step action.next (apply_store user (action.store.getD [])),
             .message_create st.bot_user_id conversation.id
               (template msg (apply_store user (action.store.getD []))),
             .convo_update conversation.id
               { type := conversation.state.type, step := found.name }],
          conversation :=
            { conversation with state := { conversation.state with step := found.name } },
          result := .resolved () } := by
  obtain ⟨proc, hproc, hres, hcalls⟩ := parse_step_resolved env step message.body action hcancel hparse
  have hst : step.truthy = true := vote_1_truthy env _ _ step hget
  rcases chains_get_vote_1 env _ _ _ hget with ⟨htype, _, hmem⟩ | ⟨k, s, q, _, hg⟩
  swap
  · rw [(step_get_properties s q step hg).2.1] at hproc
    cases hproc
  have hon : StoresOnUser action := vote_1_processors env _ hmem proc hproc message.body action hres
  have hdot : '.' ∉ action.next.data :=
    vote_1_processors_dotless env _ hmem proc hproc message.body action hres
  have htd : '.' ∉ conversation.state.type.data := by rw [htype]; decide
  obtain ⟨s, msg, _, hs, hmsg⟩ :=
    find_next_step_has_msg env conversation _ htd depth action found hdot hon.2.1 hfound
  have hmsg2 : found.step.msg = some msg := by rw [hs]; exact hmsg
  refine ⟨hon.2.2, msg, hmsg2, ?_⟩
  rw [next_eq_run_step _ env st depth user_id conversation message user step huser htr hget hst hfin]
  unfold run_step
  simp only [hparse, hcalls]
  rw [on_action_success _ st depth user_id conversation user action found msg hon hupd hfound hmsg2
    (hcreate msg hmsg2) hconv]
  rfl

/-- C4, at a concrete input: the answer `Ann` at the step `intro_direct`. -/
theorem next_success_path_witness :
    next (chains sample_env) sample_env sample_stores 3 7 ⟨1, ⟨"vote_1", "intro_direct"⟩⟩ ⟨"Ann"⟩ =
      { events :=
          [.user_get 7,
           .process "Ann",
           .user_update 7 (.obj [("id", .num 7), ("username", .str "+15551234567"),
             ("settings", .obj []), ("first_name", .str "Ann")]),
           .find_next_step "last_name" (.obj [("id", .num 7), ("username", .str "+15551234567"),
             ("settings", .obj []), ("first_name", .str "Ann")]),
           .message_create 1 1 "What's your last name?",
           .convo_update 1 ⟨"vote_1", "last_name"⟩],
        conversation := ⟨1, ⟨"vote_1", "last_name"⟩⟩,
        result := .resolved () } := by
  obtain ⟨_, msg, hmsg, h⟩ :=
    next_success_path sample_env sample_stores 3 7 ⟨1, ⟨"vote_1", "intro_direct"⟩⟩ ⟨"Ann"⟩
      new_user
      (ask "Hi! Let's get you registered to vote. What's your first name?"
        (simple_store "user.first_name" "last_name" (some "Please enter your first name") none))
      ⟨"last_name", some [("user.first_name", .str "Ann")]⟩
      { step := ask "What's your last name?"
          (simple_store "user.last_name" "zip" (some "Please enter your last name") none),
        name := "last_name" }
      rfl (by decide) rfl rfl (by decide) (by decide) rfl rfl (fun _ _ => rfl) rfl
  simp only [ask, ChainEntry.msg, Option.some.injEq] at hmsg
  subst hmsg
  rw [h]
  decide

/-! ### The resolver returns on the chains of the source -/

theorem per_state_pre_process_error (env : Env) (action : Action)
    (conversation : Conversation) (user : JSVal) (e : Err)
    (h : per_state_pre_process env action conversation user = .error e) :
    e ≠ js_error "Maximum call stack size exceeded" := by
  unfold per_state_pre_process at h
  split at h
  · simp only [] at h
    split at h
    · simp at h
    · split at h
      · split at h <;> simp at h
      · simp at h
  all_goals
    simp at h
    rw [← h]
    decide

theorem vote_1_lowers_rank (env : Env) : ∀ p ∈ vote_1 env, LowersRank p := by
  simp only [vote_1, List.forall_mem_cons, ask]
  refine ⟨?_, ?_, ?_, ?_, ?_, ?_, ?_, ?_, ?_, ?_, ?_, ?_, ?_, ?_, ?_, ?_, ?_, ?_, ?_, ?_, ?_, ?_, ?_, ?_, ?_, ?_, ?_, ?_, ?_⟩
  all_goals first
    | (intro x hx; exact absurd hx (List.not_mem_nil x))
    | (intro hook hh; simp [ChainEntry.pre_process] at hh; done)
    | (intro hook hh a c u
       simp only [ChainEntry.pre_process, Option.some.injEq] at hh
       subst hh
       first
        | (refine ⟨fun e he => ?_, fun n hn => ?_⟩
           · unfold city_pre_process at he; split at he <;> simp at he
           · unfold city_pre_process at hn; split at hn <;> simp at hn
             rw [← hn]; decide)
        | (refine ⟨fun e he => ?_, fun n hn => ?_⟩
           · unfold state_pre_process at he; split at he <;> simp at he
           · unfold state_pre_process at hn; split at hn <;> simp at hn
             rw [← hn]; decide)
        | (refine ⟨fun e he => per_state_pre_process_error env a c u e he, fun n hn => ?_⟩
           obtain ⟨m, h1, _, h3⟩ := per_state_pre_process_names env a c u _ hn
           simp at h1
           rw [h1]
           have hps : step_rank "per_state" = 1 := by decide
           show step_rank m < step_rank "per_state"
           rw [hps]
           rcases h3 with h3 | ⟨state, L, hL, hm⟩
           · rw [h3]; decide
           · have hall : ∀ p ∈ vote_per_state, ∀ k ∈ p.2, step_rank k = 0 := by decide
             rw [hall _ (assoc_get_mem _ _ _ hL) m hm]
             decide))

theorem load_error_ne_stack_error (key : String) :
    js_error ("bot: could not load step: " ++ key)
      ≠ js_error "Maximum call stack size exceeded" := by
  intro h
  have h0 : "bot: could not load step: " ++ key = "Maximum call stack size exceeded" :=
    congrArg Err.message h
  have h1 := congrArg String.data h0
  rw [String.data_append] at h1
  have h2 : ("bot: could not load step: ".data ++ key.data).head?
      = "Maximum call stack size exceeded".data.head? := congrArg List.head? h1
  have h3 : ("bot: could not load step: ".data ++ key.data).head? = some 'b' := rfl
  rw [h3] at h2
  exact absurd h2 (by decide)

/-- On the chains of the source the resolver returns: a resolution that starts
with more frames than the rank of the requested step does not exhaust the
call stack, and three frames are enough for every step. -/
theorem find_next_step_returns (env : Env) (conversation : Conversation) (user : JSVal) :
    (∀ (depth : Nat) (action : Action), step_rank action.next < depth →
      find_next_step (chains env) depth action conversation user
        ≠ .error (js_error "Maximum call stack size exceeded")) ∧
    (∀ (action : Action),
      find_next_step (chains env) 3 action conversation user
        ≠ .error (js_error "Maximum call stack size exceeded")) := by
  have main : ∀ (depth : Nat) (action : Action), step_rank action.next < depth →
      find_next_step (chains env) depth action conversation user
        ≠ .error (js_error "Maximum call stack size exceeded") := by
    intro depth
    induction depth with
    | zero => intro action h; exact absurd h (Nat.not_lt_zero _)
    | succ d ih =>
      intro action hrank
      rw [find_next_step]
      split
      · intro h
        exact load_error_ne_stack_error _ (Except.error.inj h)
      · next nextstep hget =>
        have hlow : LowersRank (action.next, nextstep) := by
          rcases chains_get_vote_1 env _ _ _ hget with ⟨_, _, hmem⟩ | ⟨k, s, q, _, hg⟩
          · exact vote_1_lowers_rank env _ hmem
          · intro hook hh
            have h0 : nextstep.pre_process = some hook := hh
            rw [(step_get_properties s q nextstep hg).1] at h0
            cases h0
        split
        · intro h
          exact load_error_ne_stack_error _ (Except.error.inj h)
        · split
          · simp
          · next hook hhook =>
            obtain ⟨herr, hover⟩ := hlow hook hhook action conversation user
            split
            · next e he =>
              intro h
              exact herr e he (Except.error.inj h)
            · simp
            · next res hres =>
              split
              · simp
              · next n hnext =>
                split
                · simp
                · have hres2 : hook action conversation user
                      = .ok (some { next := some n }) := by
                    rw [hres]
                    cases res
                    simp at hnext
                    simp [hnext]
                  have hlt := hover n hres2
                  simp only [] at hlt
                  exact ih _ (by simp only []; omega)
  refine ⟨main, fun action => main 3 action ?_⟩
  unfold step_rank
  split
  · decide
  · split
    · decide
    · split <;> decide

/-! ### C5: recoverable data errors -/

theorem parse_step_rejected (env : Env) (step : ChainEntry) (body : String) (e : Err)
    (h : parse_step env step body = .returned (.rejected e)) :
    parse_step_calls env step body = [.process body] := by
  unfold parse_step at h
  split at h
  · simp at h
  · next hc =>
    split at h
    · simp at h
    · next proc hproc => simp [parse_step_calls, hc, hproc]

theorem run_step_rejected (cs : Chains) (env : Env) (st : Stores) (depth user_id : Nat)
    (conversation : Conversation) (user : JSVal) (step : ChainEntry) (message : Message)
    (e : Err) (h : parse_step env step message.body = .returned (.rejected e)) :
    run_step cs env st depth user_id conversation user step message =
      { events := [.user_get user_id, .process message.body,
          .message_create st.bot_user_id conversation.id (catch_message e)],
        conversation := conversation, result := .resolved () } := by
  unfold run_step
  simp only [h, parse_step_rejected env step message.body e h]
  rfl

theorem simple_store_thrown (store next : String) (errormsg : Option String)
    (validate : Option Validator) (hv : ∀ v, validate = some v → ThrowsNoDataError v)
    (body : String) (e : Err)
    (h : simple_store store next errormsg validate body = .thrown e) :
    e.data_error = false := by
  unfold simple_store at h
  split at h
  · simp at h
  · split at h
    · simp at h
    · next v =>
      split at h
      · next e2 hthrown =>
        simp at h
        subst h
        exact hv v rfl body e2 hthrown
      · simp at h
      · simp at h

theorem never_throws (v : Validator) (h : ∀ body e, v body ≠ .thrown e) :
    ThrowsNoDataError v := fun body e hb => absurd hb (h body e)

theorem validate_date_throws (env : Env) : ThrowsNoDataError (validate_date env) := by
  apply never_throws
  intro body e h
  unfold validate_date at h
  split at h <;> simp at h

theorem validate_boolean_throws (env : Env) : ThrowsNoDataError (validate_boolean env) := by
  apply never_throws
  intro body e h
  simp [validate_boolean] at h

theorem validate_boolean_yes_throws (env : Env) :
    ThrowsNoDataError (validate_boolean_yes env) := by
  apply never_throws
  intro body e h
  unfold validate_boolean_yes at h
  simp only [] at h
  split at h
  · simp at h
  · split at h <;> simp at h

theorem validate_boolean_no_throws (env : Env) :
    ThrowsNoDataError (validate_boolean_no env) := by
  apply never_throws
  intro body e h
  unfold validate_boolean_no at h
  simp only [] at h
  split at h
  · simp at h
  · split at h <;> simp at h

theorem validate_gender_throws (env : Env) : ThrowsNoDataError (validate_gender env) := by
  apply never_throws
  intro body e h
  unfold validate_gender at h
  simp only [] at h
  split at h <;> simp at h

theorem validate_zip_throws (env : Env) : ThrowsNoDataError (validate_zip env) := by
  apply never_throws
  intro body e h
  unfold validate_zip at h
  simp only [] at h
  split at h
  · simp at h
  · split at h
    · split at h <;> simp at h
    · simp at h

theorem validate_email_throws : ThrowsNoDataError validate_email := by
  intro body e h
  unfold validate_email at h
  split at h
  · simp at h
  · simp at h
    rw [← h]; rfl

theorem validate_ssn_throws : ThrowsNoDataError validate_ssn := by
  intro body e h
  unfold validate_ssn at h
  split at h
  · simp at h
    rw [← h]; rfl
  · split at h <;> simp at h

/-- No processor of `vote_1` throws a data error: a data error is always the
rejection of the promise the processor returns. -/
theorem vote_1_thrown (env : Env) :
    ∀ p ∈ vote_1 env, ∀ proc, p.2.process = some proc →
      ∀ body e, proc body = .thrown e → e.data_error = false := by
  have hnone : ∀ v : Validator, (none : Option Validator) = some v → ThrowsNoDataError v := by
    intro v h; cases h
  have hsome : ∀ w : Validator, ThrowsNoDataError w →
      ∀ v : Validator, some w = some v → ThrowsNoDataError v := by
    intro w hw v h; cases h; exact hw
  simp only [vote_1, List.forall_mem_cons, ask, ChainEntry.process]
  refine ⟨?_, ?_, ?_, ?_, ?_, ?_, ?_, ?_, ?_, ?_, ?_, ?_, ?_, ?_, ?_, ?_, ?_, ?_, ?_, ?_, ?_, ?_, ?_, ?_, ?_, ?_, ?_, ?_, ?_⟩
  all_goals first
    | (intro x hx; exact absurd hx (List.not_mem_nil x))
    | (intro proc hp; cases hp; done)
    | (intro proc hp body e hres
       cases hp
       first
        | exact simple_store_thrown _ _ _ _ hnone body e hres
        | exact simple_store_thrown _ _ _ _ (hsome _ (validate_zip_throws env)) body e hres
        | exact simple_store_thrown _ _ _ _ (hsome _ (validate_date_throws env)) body e hres
        | exact simple_store_thrown _ _ _ _ (hsome _ validate_email_throws) body e hres
        | exact simple_store_thrown _ _ _ _ (hsome _ (validate_boolean_throws env)) body e hres
        | exact simple_store_thrown _ _ _ _ (hsome _ (validate_boolean_yes_throws env)) body e hres
        | exact simple_store_thrown _ _ _ _ (hsome _ (validate_boolean_no_throws env)) body e hres
        | exact simple_store_thrown _ _ _ _ (hsome _ (validate_gender_throws env)) body e hres
        | exact simple_store_thrown _ _ _ _ (hsome _ validate_ssn_throws) body e hres)

/-- In the chains of the source, a failure of `parse_step` with a data error is
the rejection of the promise it returns. -/
theorem parse_step_data_failure (env : Env) (type name : String) (step : ChainEntry)
    (body : String) (e : Err) (hget : chains_get (chains env) type name = some step)
    (hfail : (parse_step env step body).failure = some e) (hdata : e.data_error = true) :
    parse_step env step body = .returned (.rejected e) := by
  cases hp : parse_step env step body with
  | returned p =>
    cases p with
    | resolved a => rw [hp] at hfail; simp [Outcome.failure] at hfail
    | rejected e2 =>
      rw [hp] at hfail
      simp [Outcome.failure] at hfail
      rw [hfail]
  | thrown e2 =>
    rw [hp] at hfail
    simp [Outcome.failure] at hfail
    subst hfail
    exfalso
    unfold parse_step at hp
    split at hp
    · simp at hp
    · split at hp
      · simp at hp
        rw [← hp] at hdata
        simp [type_error, js_error] at hdata
      · next proc hproc =>
        rcases chains_get_vote_1 env _ _ _ hget with ⟨_, _, hmem⟩ | ⟨k, s, q, _, hg⟩
        · have := vote_1_thrown env _ hmem proc hproc body e2 hp
          rw [this] at hdata
          exact absurd hdata (by decide)
        · rw [(step_get_properties s q step hg).2.1] at hproc
          cases hproc

/-- C5. Recoverable data errors in `exports.next`, on the chains of the
source: at a current step that is not final, when processing the message
(`parse_step`, which runs the step's processor) fails with a data error whose
`end_conversation` is not set, the turn makes exactly three calls, the user
lookup, the processor and one message creation whose body is the error's
message followed by `. Please try again!`; it updates neither the user nor
the conversation, and the conversation object keeps its state. -/
theorem next_recoverable_error (env : Env) (st : Stores) (depth user_id : Nat)
    (conversation : Conversation) (message : Message) (user : JSVal) (step : ChainEntry)
    (e : Err)
    (huser : st.user_get user_id = .resolved user) (htr : truthy user = true)
    (hget : chains_get (chains env) conversation.state.type conversation.state.step = some step)
    (hfin : step.final = false)
    (hfail : (parse_step env step message.body).failure = some e)
    (hdata : e.data_error = true) (hend : e.end_conversation = false) :
    next (chains env) env st depth user_id conversation message =
      { events := [.user_get user_id, .process message.body,
          .message_create st.bot_user_id conversation.id (e.message ++ ". Please try again!")],
        conversation := conversation, result := .resolved () } := by
  have hrej := parse_step_data_failure env _ _ step message.body e hget hfail hdata
  rw [next_eq_run_step _ env st depth user_id conversation message user step huser htr hget
    (vote_1_truthy env _ _ step hget) hfin]
  rw [run_step_rejected _ env st depth user_id conversation user step message e hrej]
  simp [catch_message, hdata, hend]

/-- C5, at a concrete input: a blank answer at the step `last_name`. -/
theorem next_recoverable_error_witness :
    next (chains sample_env) sample_env sample_stores 3 7 ⟨1, ⟨"vote_1", "last_name"⟩⟩ ⟨"  "⟩ =
      { events := [.user_get 7, .process "  ",
          .message_create 1 1 "Please enter your last name. Please try again!"],
        conversation := ⟨1, ⟨"vote_1", "last_name"⟩⟩, result := .resolved () } :=
  next_recoverable_error sample_env sample_stores 3 7 ⟨1, ⟨"vote_1", "last_name"⟩⟩ ⟨"  "⟩
    new_user
    (ask "What's your last name?"
      (simple_store "user.last_name" "zip" (some "Please enter your last name") none))
    (data_error "Please enter your last name" true false)
    rfl (by decide) rfl rfl (by decide) (by decide) (by decide)

/-! ### C6: terminal data errors -/

/-- Every terminal data error takes the same path: the turn sends the error's
message followed by a full stop, and makes no other call after the processor. -/
theorem next_terminal_error (env : Env) (st : Stores) (depth user_id : Nat)
    (conversation : Conversation) (message : Message) (user : JSVal) (step : ChainEntry)
    (e : Err)
    (huser : st.user_get user_id = .resolved user) (htr : truthy user = true)
    (hget : chains_get (chains env) conversation.state.type conversation.state.step = some step)
    (hfin : step.final = false)
    (hfail : (parse_step env step message.body).failure = some e)
    (hdata : e.data_error = true) (hend : e.end_conversation = true) :
    next (chains env) env st depth user_id conversation message =
      { events := [.user_get user_id, .process message.body,
          .message_create st.bot_user_id conversation.id (e.message ++ ".")],
        conversation := conversation, result := .resolved () } := by
  have hrej := parse_step_data_failure env _ _ step message.body e hget hfail hdata
  rw [next_eq_run_step _ env st depth user_id conversation message user step huser htr hget
    (vote_1_truthy env _ _ step hget) hfin]
  rw [run_step_rejected _ env st depth user_id conversation user step message e hrej]
  simp [catch_message, hdata, hend]

/-- C6, the code at the failing input: the answer `no` at the step
`us_citizen` is a terminal data error; the turn sends the terminal message
and makes no call to `convo_model.close`, and the conversation stays at
`us_citizen`. -/
theorem next_terminal_error_no_close :
    (validate_boolean_yes sample_env "no").failure
      = some ⟨"Sorry, you are not eligible to vote in your state", true, true⟩ ∧
    next (chains sample_env) sample_env alabama_stores 3 7 ⟨1, ⟨"vote_1", "us_citizen"⟩⟩ ⟨"no"⟩ =
      { events := [.user_get 7, .process "no",
          .message_create 1 1 "Sorry, you are not eligible to vote in your state."],
        conversation := ⟨1, ⟨"vote_1", "us_citizen"⟩⟩, result := .resolved () } ∧
    Event.convo_close 1 ∉
      (next (chains sample_env) sample_env alabama_stores 3 7
        ⟨1, ⟨"vote_1", "us_citizen"⟩⟩ ⟨"no"⟩).events := by
  decide

/-! ### C7: failures that are not data errors -/

theorem catch_message_apology (e : Err) (h : e.data_error = false) :
    catch_message e = apology := by
  simp [catch_message, h, apology]

theorem parse_step_calls_resolved (env : Env) (step : ChainEntry) (body : String)
    (action : Action) (h : parse_step env step body = .returned (.resolved action))
    (hnc : action.next ≠ "_cancel") :
    parse_step_calls env step body = [.process body] := by
  unfold parse_step at h
  split at h
  · simp at h
    rw [← h] at hnc
    exact absurd rfl hnc
  · next hc =>
    split at h
    · simp at h
    · next proc hproc => simp [parse_step_calls, hc, hproc]

/-- C7, as amended. In `exports.next`, at a current step that is not final:
when the promise of the processor, the block of setters, the user update, the
resolver, the message creation or the conversation update fails with an error
that is not a data error, the turn then sends the fixed apology and resolves.
It issues no conversation update, except the failed one when it is the
conversation update itself that fails. The conversation object keeps its
state when the failure is in the processor, the setters, the user update or
the resolver; when it is in the message creation or in the conversation
update, the `state.step` of the conversation object has already been set to
the resolved step's name. -/
theorem next_unclassified_failure (cs : Chains) (env : Env) (st : Stores) (depth user_id : Nat)
    (conversation : Conversation) (message : Message) (user : JSVal) (step : ChainEntry)
    (huser : st.user_get user_id = .resolved user) (htr : truthy user = true)
    (hget : chains_get cs conversation.state.type conversation.state.step = some step)
    (hst : step.truthy = true) (hfin : step.final = false) :
    (∀ e, parse_step env step message.body = .returned (.rejected e) → e.data_error = false →
      next cs env st depth user_id conversation message =
        { events := [.user_get user_id, .process message.body,
            .message_create st.bot_user_id conversation.id apology],
          conversation := conversation, result := .resolved () }) ∧
    (∀ action e, parse_step env step message.body = .returned (.resolved action) →
      action.next ≠ "_cancel" → e.data_error = false →
      (run_setters st user_id user action = .error e →
        next cs env st depth user_id conversation message =
          { events := [.user_get user_id, .process message.body,
              .message_create st.bot_user_id conversation.id apology],
            conversation := conversation, result := .resolved () }) ∧
      (∀ ev user2, run_setters st user_id user action = .ok (ev, user2, .rejected e) →
        next cs env st depth user_id conversation message =
          { events := [.user_get user_id, .process message.body] ++ ev ++
              [.message_create st.bot_user_id conversation.id apology],
            conversation := conversation, result := .resolved () }) ∧
      (∀ ev user2, run_setters st user_id user action = .ok (ev, user2, .resolved ()) →
        (find_next_step cs depth action conversation user2 = .error e →
          next cs env st depth user_id conversation message =
            { events := [.user_get user_id, .process message.body] ++ ev ++
                [.find_next_step action.next user2,
                 .message_create st.bot_user_id conversation.id apology],
              conversation := conversation, result := .resolved () }) ∧
        (∀ found msg, find_next_step cs depth action conversation user2 = .ok found →
          found.step.msg = some msg →
          (st.message_create st.bot_user_id conversation.id (template msg user2) = .rejected e →
            next cs env st depth user_id conversation message =
              { events := [.user_get user_id, .process message.body] ++ ev ++
                  [.find_next_step action.next user2,
                   .message_create st.bot_user_id conversation.id (template msg user2),
                   .message_create st.bot_user_id conversation.id apology],
                conversation :=
                  { conversation with state := { conversation.state with step := found.name } },
                result := .resolved () }) ∧
          (st.message_create st.bot_user_id conversation.id (template msg user2) = .resolved () →
            st.convo_update conversation.id { conversation.state with step := found.name }
              = .rejected e →
            next cs env st depth user_id conversation message =
              { events := [.user_get user_id, .process message.body] ++ ev ++
                  [.find_next_step action.next user2,
                   .message_create st.bot_user_id conversation.id (template msg user2),
                   .convo_update conversation.id { conversation.state with step := found.name },
                   .message_create st.bot_user_id conversation.id apology],
                conversation :=
                  { conversation with state := { conversation.state with step := found.name } },
                result := .resolved () })))) := by
  have hrun := next_eq_run_step cs env st depth user_id conversation message user step
    huser htr hget hst hfin
  refine ⟨?_, ?_⟩
  · intro e hrej hdata
    rw [hrun, run_step_rejected cs env st depth user_id conversation user step message e hrej,
      catch_message_apology e hdata]
  · intro action e hres hnc hdata
    have hcalls := parse_step_calls_resolved env step message.body action hres hnc
    have hcm := catch_message_apology e hdata
    refine ⟨?_, ?_, ?_⟩
    · intro hset
      rw [hrun]
      simp [run_step, hres, hcalls, on_action, hnc, hset, hcm]
    · intro ev user2 hset
      rw [hrun]
      simp [run_step, hres, hcalls, on_action, hnc, hset, hcm]
    · intro ev user2 hset
      refine ⟨?_, ?_⟩
      · intro hfound
        rw [hrun]
        simp [run_step, hres, hcalls, on_action, hnc, hset, resolve_and_send, hfound, hcm]
      · intro found msg hfound hmsg
        refine ⟨?_, ?_⟩
        · intro hcreate
          rw [hrun]
          simp [run_step, hres, hcalls, on_action, hnc, hset, resolve_and_send, hfound, hmsg,
            hcreate, hcm]
        · intro hcreate hconv
          rw [hrun]
          simp [run_step, hres, hcalls, on_action, hnc, hset, resolve_and_send, hfound, hmsg,
            hcreate, hconv, hcm]

/-- C7 as amended, at a concrete input: the step `state` declares the next
step `dob`, which `vote_1` does not have; the resolver fails, the apology is
sent and the conversation stays at `state`. -/
theorem next_unclassified_failure_witness :
    next (chains sample_env) sample_env sample_stores 3 7 ⟨1, ⟨"vote_1", "state"⟩⟩ ⟨"NV"⟩ =
      { events := [.user_get 7, .process "NV"] ++
          [.user_update 7 (.obj [("id", .num 7), ("username", .str "+15551234567"),
            ("settings", .obj [("state", .str "NV")])])] ++
          [.find_next_step "dob" (.obj [("id", .num 7), ("username", .str "+15551234567"),
            ("settings", .obj [("state", .str "NV")])]),
           .message_create 1 1 apology],
        conversation := ⟨1, ⟨"vote_1", "state"⟩⟩, result := .resolved () } :=
  ((((next_unclassified_failure (chains sample_env) sample_env sample_stores 3 7
      ⟨1, ⟨"vote_1", "state"⟩⟩ ⟨"NV"⟩ new_user
      (.step
        { pre_process := some state_pre_process,
          msg := some "What state do you live in? (eg CA)",
          process := some (simple_store "user.settings.state" "dob" (some "Please enter your state") none),
          final := false })
      rfl (by decide) rfl rfl rfl).2
      ⟨"dob", some [("user.settings.state", .str "NV")]⟩
      (js_error "bot: could not load step: vote_1.dob") (by decide) (by decide) rfl).2.2
      [.user_update 7 (.obj [("id", .num 7), ("username", .str "+15551234567"),
            ("settings", .obj [("state", .str "NV")])])]
      (.obj [("id", .num 7), ("username", .str "+15551234567"),
            ("settings", .obj [("state", .str "NV")])]) rfl).1 rfl)

/-- C7, as stated, fails: when the conversation update fails with an error
that is not a data error, the apology is sent, but the update that failed was
issued with the new step name `last_name`, and the `state.step` of the
conversation object is `last_name` after the turn, not `intro_direct`. -/
theorem next_unclassified_failure_counterexample :
    update_failing_stores.convo_update 1 ⟨"vote_1", "last_name"⟩
      = .rejected ⟨"connection lost", false, false⟩ ∧
    Event.message_create 1 1 apology ∈
      (next (chains sample_env) sample_env update_failing_stores 3 7
        ⟨1, ⟨"vote_1", "intro_direct"⟩⟩ ⟨"Ann"⟩).events ∧
    Event.convo_update 1 ⟨"vote_1", "last_name"⟩ ∈
      (next (chains sample_env) sample_env update_failing_stores 3 7
        ⟨1, ⟨"vote_1", "intro_direct"⟩⟩ ⟨"Ann"⟩).events ∧
    (next (chains sample_env) sample_env update_failing_stores 3 7
        ⟨1, ⟨"vote_1", "intro_direct"⟩⟩ ⟨"Ann"⟩).conversation.state.step = "last_name" := by
  decide

/-! ### C8: cancellation -/

/-- C8. Cancellation: at a current step that is not final, for a message body
that `language.is_cancel` recognises, `parse_step` returns `{next: '_cancel'}`
and calls no processor, and `exports.next` then makes one call after the user
lookup, `convo_model.close` for the conversation: no user update, no resolver
call, no message and no conversation update. -/
theorem next_cancel (cs : Chains) (env : Env) (st : Stores) (depth user_id : Nat)
    (conversation : Conversation) (message : Message) (user : JSVal) (step : ChainEntry)
    (huser : st.user_get user_id = .resolved user) (htr : truthy user = true)
    (hget : chains_get cs conversation.state.type conversation.state.step = some step)
    (hst : step.truthy = true) (hfin : step.final = false)
    (hcancel : truthy (env.is_cancel message.body) = true) :
    parse_step env step message.body = .returned (.resolved { next := "_cancel", store := none }) ∧
    parse_step_calls env step message.body = [] ∧
    next cs env st depth user_id conversation message =
      { events := [.user_get user_id, .convo_close conversation.id],
        conversation := conversation, result := .resolved () } := by
  have hparse : parse_step env step message.body
      = .returned (.resolved { next := "_cancel", store := none }) := by
    simp [parse_step, hcancel]
  have hcalls : parse_step_calls env step message.body = [] := by
    simp [parse_step_calls, hcancel]
  refine ⟨hparse, hcalls, ?_⟩
  rw [next_eq_run_step cs env st depth user_id conversation message user step
    huser htr hget hst hfin]
  simp [run_step, hparse, hcalls, on_action, convo_close]

/-- C8, at a concrete input: the word `stop` at the step `zip`. -/
theorem next_cancel_witness :
    parse_step sample_env
        (ask "What's your zip code?"
          (simple_store "user.settings.zip" "address" (some "Please enter your zip code")
            (some (validate_zip sample_env)))) "stop"
      = .returned (.resolved { next := "_cancel", store := none }) ∧
    parse_step_calls sample_env
        (ask "What's your zip code?"
          (simple_store "user.settings.zip" "address" (some "Please enter your zip code")
            (some (validate_zip sample_env)))) "stop" = [] ∧
    next (chains sample_env) sample_env sample_stores 3 7 ⟨1, ⟨"vote_1", "zip"⟩⟩ ⟨"stop"⟩ =
      { events := [.user_get 7, .convo_close 1],
        conversation := ⟨1, ⟨"vote_1", "zip"⟩⟩, result := .resolved () } :=
  next_cancel (chains sample_env) sample_env sample_stores 3 7 ⟨1, ⟨"vote_1", "zip"⟩⟩ ⟨"stop"⟩
    new_user
    (ask "What's your zip code?"
      (simple_store "user.settings.zip" "address" (some "Please enter your zip code")
        (some (validate_zip sample_env))))
    rfl (by decide) rfl rfl rfl (by decide)

/-! ### C9: the final step -/

/-- C9. The final step is absorbing: for a conversation whose current step has
`final` set, whatever the message (a cancel phrase included) and however the
user lookup settles, `exports.next` makes no call but that lookup, so it runs
no processor, updates neither the user nor the conversation and creates no
message, and it leaves the conversation object as it was. The step `done` of
`vote_1` is such a step. -/
theorem next_final (cs : Chains) (env : Env) (st : Stores) (depth user_id : Nat)
    (conversation : Conversation) (message : Message) (step : ChainEntry)
    (hget : chains_get cs conversation.state.type conversation.state.step = some step)
    (hfin : step.final = true) :
    (next cs env st depth user_id conversation message).events = [.user_get user_id] ∧
    (next cs env st depth user_id conversation message).conversation = conversation ∧
    ∃ s, chains_get (chains env) "vote_1" "done" = some (.step s) ∧ s.final = true := by
  have hlast : ∃ s, chains_get (chains env) "vote_1" "done" = some (.step s) ∧ s.final = true :=
    ⟨_, rfl, rfl⟩
  rcases next_cases cs env st depth user_id conversation message with h | h
  · exact ⟨h.1, h.2, hlast⟩
  · obtain ⟨user, step2, _, _, hget2, _, hfin2, _⟩ := h
    rw [hget] at hget2
    cases hget2
    rw [hfin] at hfin2
    exact absurd hfin2 (by decide)

/-- C9, at a concrete input: the word `stop` sent to a finished conversation. -/
theorem next_final_witness :
    (next (chains sample_env) sample_env sample_stores 3 7 ⟨1, ⟨"vote_1", "done"⟩⟩
      ⟨"stop"⟩).events = [.user_get 7] ∧
    (next (chains sample_env) sample_env sample_stores 3 7 ⟨1, ⟨"vote_1", "done"⟩⟩
      ⟨"stop"⟩).conversation = ⟨1, ⟨"vote_1", "done"⟩⟩ :=
  ⟨(next_final (chains sample_env) sample_env sample_stores 3 7 ⟨1, ⟨"vote_1", "done"⟩⟩ ⟨"stop"⟩
      (.step
        { msg := some ("Thanks! We'll begin processing your registration! Share this bot to get your friends registered too: https://www.facebook.com/sharer/sharer.php?u=" ++ sample_env.app_url),
          process := none, pre_process := none, final := true }) rfl rfl).1,
   (next_final (chains sample_env) sample_env sample_stores 3 7 ⟨1, ⟨"vote_1", "done"⟩⟩ ⟨"stop"⟩
      (.step
        { msg := some ("Thanks! We'll begin processing your registration! Share this bot to get your friends registered too: https://www.facebook.com/sharer/sharer.php?u=" ++ sample_env.app_url),
          process := none, pre_process := none, final := true }) rfl rfl).2.1⟩

/-! ### C10: blank input -/

theorem js_trim_blank (body : String) (hblank : ∀ c ∈ body.data, is_js_whitespace c = true) :
    js_trim body = "" := by
  have h1 : body.data.dropWhile is_js_whitespace = [] :=
    List.dropWhile_eq_nil_iff.2 hblank
  unfold js_trim
  rw [h1]
  rfl

theorem simple_store_blank (store next : String) (errormsg : Option String)
    (validate : Option Validator) (body : String) (hblank : js_trim body = "") :
    simple_store store next errormsg validate body
      = .returned (.rejected (data_error (errormsg.getD "") true false)) := by
  simp [simple_store, hblank]

/-- Every entry of `vote_1` other than the start marker and the steps
`per_state` and `done` has a processor built by `simple_store`. -/
theorem vote_1_simple_store (env : Env) :
    ∀ p ∈ vote_1 env, p.1 ≠ "_start" → p.1 ≠ "per_state" → p.1 ≠ "done" →
      ∃ store next errormsg validate,
        p.2.process = some (simple_store store next errormsg validate) := by
  simp only [vote_1, List.forall_mem_cons, ask, ChainEntry.process]
  refine ⟨?_, ?_, ?_, ?_, ?_, ?_, ?_, ?_, ?_, ?_, ?_, ?_, ?_, ?_, ?_, ?_, ?_, ?_, ?_, ?_, ?_, ?_, ?_, ?_, ?_, ?_, ?_, ?_, ?_⟩
  all_goals first
    | (intro x hx; exact absurd hx (List.not_mem_nil x))
    | (intro _ _ _; exact ⟨_, _, _, _, rfl⟩)
    | (intro h1 _ _; exact absurd rfl h1)
    | (intro _ h2 _; exact absurd rfl h2)
    | (intro _ _ h3; exact absurd rfl h3)

/-- C10, as amended. Blank input: a message body that is empty or holds only
white space is rejected by every processor `simple_store` builds with a data
error whose `end_conversation` is not set, whatever the validator of the step,
which is not called. Every step of `vote_1` that has a processor, that is
every step but `per_state` and `done`, has one built by `simple_store`; at such
a step the processor, and `parse_step` unless the body is a cancel phrase,
fail with that recoverable data error. -/
theorem blank_input_recoverable (env : Env) (body : String)
    (hblank : ∀ c ∈ body.data, is_js_whitespace c = true) :
    (∀ store next errormsg validate,
      simple_store store next errormsg validate body
        = .returned (.rejected (data_error (errormsg.getD "") true false))) ∧
    (∀ name s, chains_get (chains env) "vote_1" name = some (.step s) →
      name ≠ "_start" → name ≠ "per_state" → name ≠ "done" →
      ∃ proc e, s.process = some proc ∧ proc body = .returned (.rejected e) ∧
        e.data_error = true ∧ e.end_conversation = false ∧
        (truthy (env.is_cancel body) = false →
          parse_step env (.step s) body = .returned (.rejected e))) := by
  have htrim := js_trim_blank body hblank
  refine ⟨fun store next errormsg validate =>
    simple_store_blank store next errormsg validate body htrim, ?_⟩
  intro name s hget h1 h2 h3
  obtain ⟨_, hdot, _⟩ := chains_get_step _ _ _ s hget
  obtain ⟨_, hmem⟩ := chains_get_vote_1_mem env _ _ _ (by decide) hdot hget
  obtain ⟨store, nxt, errormsg, validate, hproc⟩ := vote_1_simple_store env _ hmem h1 h2 h3
  have hres := simple_store_blank store nxt errormsg validate body htrim
  have hproc2 : s.process = some (simple_store store nxt errormsg validate) := hproc
  refine ⟨_, _, hproc2, hres, rfl, rfl, ?_⟩
  intro hcancel
  simp [parse_step, hcancel, ChainEntry.process, hproc2, hres]

/-- C10 as amended, at a concrete input: a body of a space, a tab and a
no-break space at the step `zip`, whose validator is not consulted. -/
theorem blank_input_recoverable_witness :
    parse_step sample_env
        (ask "What's your zip code?"
          (simple_store "user.settings.zip" "address" (some "Please enter your zip code")
            (some (validate_zip sample_env)))) " \t\u00A0"
      = .returned (.rejected ⟨"Please enter your zip code", true, false⟩) := by
  obtain ⟨proc, e, hproc, hres, _, _, hparse⟩ :=
    (blank_input_recoverable sample_env " \t\u00A0" (by decide)).2 "zip"
      { msg := some "What's your zip code?",
        process := some (simple_store "user.settings.zip" "address"
          (some "Please enter your zip code") (some (validate_zip sample_env))),
        pre_process := none, final := false }
      rfl (by decide) (by decide) (by decide)
  have hpar := hparse (by decide)
  simp only [Option.some.injEq] at hproc
  subst hproc
  rw [simple_store_blank _ _ _ _ _ (by decide)] at hres
  simp only [Outcome.returned.injEq, Settled.rejected.injEq] at hres
  subst hres
  exact hpar

/-- C10, as stated, fails: the step `per_state` of `vote_1` has no processor,
so processing the empty message there throws a `TypeError`, which is not a
data error; the same holds at the step `done`. -/
theorem blank_input_counterexample :
    (∃ step, chains_get (chains sample_env) "vote_1" "per_state" = some step ∧
      truthy (sample_env.is_cancel "") = false ∧
      parse_step sample_env step "" = .thrown ⟨"step.process is not a function", false, false⟩) ∧
    (∃ step, chains_get (chains sample_env) "vote_1" "done" = some step ∧
      parse_step sample_env step "" = .thrown ⟨"step.process is not a function", false, false⟩) :=
  ⟨⟨_, rfl, by decide, rfl⟩, ⟨_, rfl, rfl⟩⟩

/-! ### C11: steps without a validator -/

/-- C11, as amended. A processor built by `simple_store(store, next, errormsg)`
without a `validate` option, on a body that is not blank after trimming,
succeeds with the declared next step and the single assignment of `store` to
the raw text of the body as it was sent: the body is trimmed for the blank
test only, and white space around it is stored with it. -/
theorem simple_store_no_validator (store next : String) (errormsg : Option String)
    (body : String) (hbody : js_trim body ≠ "") :
    simple_store store next errormsg none body
      = .returned (.resolved { next := next, store := some [(store, .str body)] }) := by
  simp [simple_store, hbody]

/-- C11 as amended, at a concrete input: the answer `" Ann "` at the step
`intro_direct`. -/
theorem simple_store_no_validator_witness :
    simple_store "user.first_name" "last_name" (some "Please enter your first name") none " Ann "
      = .returned (.resolved
          { next := "last_name", store := some [("user.first_name", .str " Ann ")] }) :=
  simple_store_no_validator "user.first_name" "last_name" (some "Please enter your first name")
    " Ann " (by decide)

/-- C11, as stated, fails: the body `" Ann "` is not blank, its trimmed text is
`"Ann"`, and the processor stores the body with its white space, not the
trimmed text. -/
theorem simple_store_no_validator_counterexample :
    js_trim " Ann " = "Ann" ∧
    simple_store "user.first_name" "last_name" (some "Please enter your first name") none " Ann "
      ≠ .returned (.resolved
          { next := "last_name", store := some [("user.first_name", .str (js_trim " Ann "))] }) ∧
    simple_store "user.first_name" "last_name" (some "Please enter your first name") none " Ann "
      = .returned (.resolved
          { next := "last_name", store := some [("user.first_name", .str " Ann ")] }) := by
  decide

/-! ### C12: the yes/no validator that requires yes -/

/-- C12. `validate_boolean_yes`, with `is_yes` and `is_no` the truth of
`language.is_yes` and `language.is_no` on the input: when neither holds the
promise is rejected with a data error whose `end_conversation` is not set;
when `is_no` holds and `is_yes` does not, it is rejected with a data error
whose `end_conversation` is set; when `is_yes` holds it resolves to the
normalised value `true`. -/
theorem validate_boolean_yes_spec (env : Env) (body : String) :
    (truthy (env.is_yes body) = false → truthy (env.is_no body) = false →
      ∃ e, validate_boolean_yes env body = .returned (.rejected e) ∧
        e.data_error = true ∧ e.end_conversation = false) ∧
    (truthy (env.is_no body) = true → truthy (env.is_yes body) = false →
      ∃ e, validate_boolean_yes env body = .returned (.rejected e) ∧
        e.data_error = true ∧ e.end_conversation = true) ∧
    (truthy (env.is_yes body) = true →
      validate_boolean_yes env body = .returned (.resolved (.bool true, none))) := by
  refine ⟨?_, ?_, ?_⟩
  · intro hy hn
    exact ⟨data_error "Please answer yes or no" false false,
      by simp [validate_boolean_yes, hy, hn], rfl, rfl⟩
  · intro hn hy
    exact ⟨data_error "Sorry, you are not eligible to vote in your state" false true,
      by simp [validate_boolean_yes, hy, hn], rfl, rfl⟩
  · intro hy
    simp [validate_boolean_yes, hy]

/-- C12, at concrete inputs: `maybe`, `no` and `yes`. -/
theorem validate_boolean_yes_spec_witness :
    (∃ e, validate_boolean_yes sample_env "maybe" = .returned (.rejected e) ∧
      e.data_error = true ∧ e.end_conversation = false) ∧
    (∃ e, validate_boolean_yes sample_env "no" = .returned (.rejected e) ∧
      e.data_error = true ∧ e.end_conversation = true) ∧
    validate_boolean_yes sample_env "yes" = .returned (.resolved (.bool true, none)) :=
  ⟨(validate_boolean_yes_spec sample_env "maybe").1 (by decide) (by decide),
   (validate_boolean_yes_spec sample_env "no").2.1 (by decide) (by decide),
   (validate_boolean_yes_spec sample_env "yes").2.2 (by decide)⟩

/-! ### C13: the plain yes/no validator -/

/-- Whatever `language.is_no` says of an input, `validate_boolean` resolves to
`false` on every input that `language.is_yes` does not accept. -/
theorem validate_boolean_not_yes (env : Env) (body : String)
    (hy : truthy (env.is_yes body) = false) :
    validate_boolean env body = .returned (.resolved (.bool false, none)) := by
  simp [validate_boolean, hy]

/-- C13, the code at the failing input: `no` parses as no and `maybe` parses
as neither yes nor no, and `validate_boolean` gives the same result on both,
the value `false`; at the step `mail` the two answers lead to the same
transition, which stores `false` and moves on to `done`. -/
theorem validate_boolean_two_outcomes :
    truthy (sample_env.is_no "no") = true ∧
    truthy (sample_env.is_yes "maybe") = false ∧ truthy (sample_env.is_no "maybe") = false ∧
    validate_boolean sample_env "maybe" = validate_boolean sample_env "no" ∧
    validate_boolean sample_env "maybe" = .returned (.resolved (.bool false, none)) ∧
    simple_store "user.settings.mail_in" "done" (some "") (some (validate_boolean sample_env)) "maybe"
      = .returned (.resolved
          { next := "done", store := some [("user.settings.mail_in", .bool false)] }) := by
  decide

/-! ### C14: the zip validator fills in city and state -/

theorem cut_from_no_line_break (x : Char) (l : List Char)
    (h : ∀ c ∈ l.dropWhile (fun c => c != x), is_line_terminator c = false) :
    cut_from x l = l.takeWhile (fun c => c != x) := by
  induction l with
  | nil => rfl
  | cons c cs ih =>
    unfold cut_from
    by_cases hc : c = x
    · have hb : (c != x) = false := by simp [hc]
      have h1 : cs.dropWhile (fun d => !is_line_terminator d) = [] := by
        apply List.dropWhile_eq_nil_iff.2
        intro d hd
        have hd2 : d ∈ (c :: cs).dropWhile (fun c => c != x) := by
          rw [List.dropWhile_cons_of_neg (p := fun c => c != x) (by simp [hb])]
          exact List.mem_cons_of_mem _ hd
        simp [h d hd2]
      rw [if_pos hc, h1, List.takeWhile_cons_of_neg (p := fun c => c != x) (by simp [hb])]
    · have hb : (c != x) = true := by simp [hc]
      have h2 : ∀ d ∈ cs.dropWhile (fun c => c != x), is_line_terminator d = false := by
        intro d hd
        apply h d
        rw [List.dropWhile_cons_of_pos (p := fun c => c != x) hb]
        exact hd
      rw [if_neg hc, List.takeWhile_cons_of_pos (p := fun c => c != x) hb, ih h2]

theorem validate_zip_found (env : Env) (body : String) (zipdata : ZipData)
    (hzip : is_zip5 (cut_from '-' body.data) = true)
    (hfind : env.zip_find ⟨cut_from '-' body.data⟩ = .resolved zipdata)
    (hcode : truthy zipdata.code = true) :
    validate_zip env body = .returned (.resolved (zipdata.code, some
      (match zipdata.places with
        | [(city, state)] =>
          if truthy state = true then
            field_set (if truthy city = true then [("user.settings.city", city)] else [])
              "user.settings.state" state
          else if truthy city = true then [("user.settings.city", city)] else []
        | _ => []))) := by
  unfold validate_zip
  simp only [hzip, hfind, hcode, Bool.not_true, Bool.false_eq_true, if_false]

/-- C14, as amended. `validate_zip` on an input whose part before the first
`-` is exactly five digits and that has no line break after that `-`, when
the lookup of those digits returns a record with a non-empty code: if the
record has exactly one place, with a city and a state, the validator succeeds
with the record's code as normalised value and the further assignments
`user.settings.city` and `user.settings.state` of that place; if the record
has no place, or two or more, it succeeds with no further assignment. -/
theorem validate_zip_autofill (env : Env) (body : String) (zipdata : ZipData)
    (hfive : is_zip5 (body.data.takeWhile (fun c => c != '-')) = true)
    (hline : ∀ c ∈ body.data.dropWhile (fun c => c != '-'), is_line_terminator c = false)
    (hfind : env.zip_find ⟨body.data.takeWhile (fun c => c != '-')⟩ = .resolved zipdata)
    (hcode : truthy zipdata.code = true) :
    (∀ city state, zipdata.places = [(city, state)] → truthy city = true →
      truthy state = true →
      validate_zip env body = .returned (.resolved (zipdata.code,
        some [("user.settings.city", city), ("user.settings.state", state)]))) ∧
    ((zipdata.places = [] ∨ 2 ≤ zipdata.places.length) →
      validate_zip env body = .returned (.resolved (zipdata.code, some []))) := by
  have hcut := cut_from_no_line_break '-' body.data hline
  have hres := validate_zip_found env body zipdata (by rw [hcut]; exact hfive)
    (by rw [hcut]; exact hfind) hcode
  refine ⟨?_, ?_⟩
  · intro city state hplaces hcity hstate
    rw [hres, hplaces]
    simp [hcity, hstate, field_set]
  · intro hplaces
    rw [hres]
    rcases hplaces with h | h
    · rw [h]
    · match hp : zipdata.places, h with
      | [], h => simp at h
      | [_], h => simp at h
      | _ :: _ :: _, _ => rfl

/-- C14 as amended, at a concrete input: `90210-1234`, which one place has. -/
theorem validate_zip_autofill_witness :
    validate_zip sample_env "90210-1234" = .returned (.resolved (.str "90210",
      some [("user.settings.city", .str "Beverly Hills"), ("user.settings.state", .str "CA")])) :=
  (validate_zip_autofill sample_env "90210-1234"
    { code := .str "90210", places := [(.str "Beverly Hills", .str "CA")] }
    (by decide) (by decide) rfl (by decide)).1 (.str "Beverly Hills") (.str "CA")
    rfl (by decide) (by decide)

/-- C14, as stated, fails: in `90210-1` followed by a line break and `2` the
part before the first `-` is the five digits `90210`, which one place has, yet
the validator rejects the input as not a valid zip code, since the pattern
that removes the extension stops at the line break and leaves the text after
it. -/
theorem validate_zip_autofill_counterexample :
    is_zip5 ("90210-1\n2".data.takeWhile (fun c => c != '-')) = true ∧
    sample_env.zip_find ⟨"90210-1\n2".data.takeWhile (fun c => c != '-')⟩
      = .resolved { code := .str "90210", places := [(.str "Beverly Hills", .str "CA")] } ∧
    validate_zip sample_env "90210-1\n2"
      = .returned (.rejected ⟨"That zip code isn't valid", true, false⟩) :=
  ⟨by decide, rfl, by decide⟩

/-! ### C15: the errors validators raise -/

/-- C15, the code at the failing inputs: `validate_email` on `hello`, which has
no `@`, and `validate_ssn` on `none`, which holds no SSN, throw a `TypeError`
before they return a promise, and `validate_zip` on a record without a code is
rejected with the `ReferenceError` of the undefined `reject`: none of the
three errors is a data error. At the step `email` the thrown error escapes both
handlers of `exports.next`: the turn is rejected and no message is sent. A
lookup that fails with `not_found` is turned into a recoverable data error, as
claimed. -/
theorem validators_unclassified_errors :
    validate_email "hello" = .thrown ⟨"Cannot read property '0' of null", false, false⟩ ∧
    validate_ssn "none" = .thrown ⟨"Cannot read property '0' of null", false, false⟩ ∧
    validate_zip codeless_env "90210"
      = .returned (.rejected ⟨"reject is not defined", false, false⟩) ∧
    validate_zip not_found_env "90210"
      = .returned (.rejected ⟨"We couldn't find that zip code", true, false⟩) ∧
    next (chains sample_env) sample_env sample_stores 3 7 ⟨1, ⟨"vote_1", "email"⟩⟩ ⟨"hello"⟩ =
      { events := [.user_get 7, .process "hello"],
        conversation := ⟨1, ⟨"vote_1", "email"⟩⟩,
        result := .rejected ⟨"Cannot read property '0' of null", false, false⟩ } :=
  ⟨by decide, by decide, by decide, by decide, by decide⟩

/-! ### C16: assignments to more than one record -/

theorem field_get_field_set (l : List (String × JSVal)) (k : String) (v : JSVal) :
    field_get (field_set l k v) k = v := by
  induction l with
  | nil => simp [field_set, field_get]
  | cons p rest ih =>
    obtain ⟨k2, v2⟩ := p
    unfold field_set
    split
    · next hk => simp [field_get, hk]
    · next hk => simp [field_get, hk, ih]

theorem get_path_set_path (path : List String) :
    ∀ (u x : JSVal), get_path (set_path u path x) path = x := by
  induction path with
  | nil => intro u x; simp [set_path, get_path]
  | cons k rest ih =>
    intro u x
    cases u with
    | obj fields => simp [set_path, get_path, field_get_field_set, ih]
    | undefined => simp [set_path, get_path, field_get, ih]
    | null => simp [set_path, get_path, field_get, ih]
    | bool b => simp [set_path, get_path, field_get, ih]
    | num n => simp [set_path, get_path, field_get, ih]
    | str s => simp [set_path, get_path, field_get, ih]
    | arr xs => simp [set_path, get_path, field_get, ih]

/-- A value written at a path is read back at that path. -/
theorem object_get_object_set (u : JSVal) (path : String) (x : JSVal) :
    object_get (object_set u path x) path = x :=
  get_path_set_path _ u x

theorem apply_store_append (user : JSVal) (store : Store) (key : String) (value : JSVal) :
    apply_store user (store ++ [(key, value)])
      = object_set (apply_store user store) (strip_record key) value := by
  simp [apply_store, List.foldl_append]

/-- C16, as amended. The setters of a turn select one record by the first key
of the store. When that key addresses the user record, every assignment of the
store is written into the user record, at its path without the first segment,
whatever record its key names, and the record is passed to
`user_model.update`: the value of an assignment is then read back from the
user record at that path. When the first key addresses a record that is not
supported, no assignment is applied and no update is made. -/
theorem run_setters_single_target (st : Stores) (user_id : Nat) (user : JSVal)
    (next : String) (key0 : String) (value0 : JSVal) (more : Store) :
    (record_of key0 = "user" →
      run_setters st user_id user { next := next, store := some ((key0, value0) :: more) }
        = .ok ([.user_update user_id (apply_store user ((key0, value0) :: more))],
            apply_store user ((key0, value0) :: more),
            st.user_update user_id (apply_store user ((key0, value0) :: more)))) ∧
    (record_of key0 ≠ "user" → inherited_length (record_of key0) = none →
      run_setters st user_id user { next := next, store := some ((key0, value0) :: more) }
        = .ok ([], user, .resolved ())) ∧
    (∀ (store : Store) (key : String) (value : JSVal),
      object_get (apply_store user (store ++ [(key, value)])) (strip_record key) = value) := by
  refine ⟨?_, ?_, ?_⟩
  · intro h
    simp [run_setters, h]
  · intro h1 h2
    simp [run_setters, h1, h2]
  · intro store key value
    rw [apply_store_append]
    exact object_get_object_set _ _ _

/-- C16 as amended, at a concrete input: the store of `user.first_name` and
`conversation.date` is passed to the user update, and the date is read from the
field `date` of the user record. -/
theorem run_setters_single_target_witness :
    run_setters sample_stores 7 new_user
        { next := "bye",
          store := some [("user.first_name", .str "Ann"), ("conversation.date", .str "today")] }
      = .ok ([.user_update 7 (apply_store new_user
              [("user.first_name", .str "Ann"), ("conversation.date", .str "today")])],
          apply_store new_user
            [("user.first_name", .str "Ann"), ("conversation.date", .str "today")],
          .resolved ()) ∧
    object_get (apply_store new_user
        ([("user.first_name", .str "Ann")] ++ [("conversation.date", .str "today")])) "date"
      = .str "today" :=
  ⟨(run_setters_single_target sample_stores 7 new_user "bye" "user.first_name" (.str "Ann")
      [("conversation.date", .str "today")]).1 (by decide),
   (run_setters_single_target sample_stores 7 new_user "bye" "user.first_name" (.str "Ann")
      [("conversation.date", .str "today")]).2.2 [("user.first_name", .str "Ann")]
      "conversation.date" (.str "today")⟩

/-- C16, as stated, fails: on a chain whose step stores `user.first_name`
together with `conversation.date`, the turn does not drop the second
assignment; it writes its value into the field `date` of the user record and
passes that record to `user_model.update`. -/
theorem run_setters_single_target_counterexample :
    Event.user_update 7 (.obj [("id", .num 7), ("username", .str "+15551234567"),
        ("settings", .obj []), ("first_name", .str "Ann"), ("date", .str "today")]) ∈
      (next mixed_chains sample_env sample_stores 3 7 ⟨1, ⟨"demo", "ask"⟩⟩ ⟨"Ann"⟩).events := by
  decide

/-! ### C17: message templates -/

/-- C17, the code at the failing input: in the message the comment above
`chains` documents, `template` substitutes the first placeholder and leaves
the second one as it is written, since the pattern of the replacement is not
global; a message with one placeholder is rendered in full. -/
theorem template_first_placeholder_only :
    template "hello \x7b\x7bfullname\x7d\x7d! how is the weather in \x7b\x7bsettings.city\x7d\x7d?"
        named_user
      = "hello Ann Lee! how is the weather in \x7b\x7bsettings.city\x7d\x7d?" ∧
    template "hello \x7b\x7bfullname\x7d\x7d! how is the weather in \x7b\x7bsettings.city\x7d\x7d?"
        named_user
      ≠ "hello Ann Lee! how is the weather in Reno?" ∧
    template "Are you a current legal resident of \x7b\x7bsettings.state\x7d\x7d?" named_user
      = "Are you a current legal resident of NV?" := by
  decide

/-! ### C18: starting a conversation -/

theorem convo_create_resolved (cst : StartStores)
    (start_bots : List JSVal → List StartEvent × Settled Unit) (user_id : Nat)
    (data : CreateData) (created : Created)
    (h : (convo_create cst start_bots user_id data).2 = .resolved created) :
    created.state = data.state ∧ data.body = some created.message := by
  unfold convo_create at h
  simp only [] at h
  split at h
  · simp at h
  · split at h
    · simp at h
    · next body hbody =>
      split at h
      · simp at h
      · split at h
        · simp at h
        · split at h
          · simp at h
          · split at h
            · simp at h
            · split at h
              · simp at h
              · split at h
                · simp at h
                  rw [← h]
                  exact ⟨rfl, hbody⟩
                · split at h
                  · simp at h
                  · simp at h
                    rw [← h]
                    exact ⟨rfl, hbody⟩

/-- What `exports.start` creates, whenever it resolves: a conversation whose
state holds the chain name and the name `options.start || chain._start`, which
is a key of the chain, and whose first message is the `msg` of that entry as
it is written. When that name is no key of the chain, start is rejected after
the user lookup, before any conversation is created. -/
theorem start_resolved (cs : Chains) (cst : StartStores) (type : String) (to_user_id : Nat)
    (options : StartOptions) :
    (∀ created, (start cs cst type to_user_id options).2 = .resolved created →
      ∃ chain n step, assoc_get cs type = some chain ∧
        first_step_name chain options = some n ∧ assoc_get chain n = some step ∧
        created.state = some { type := type, step := n } ∧
        step.msg = some created.message) ∧
    (∀ chain n, assoc_get cs type = some chain → first_step_name chain options = some n →
      assoc_get chain n = none →
      (start cs cst type to_user_id options).1 = [.user_get to_user_id] ∧
      ∃ e, (start cs cst type to_user_id options).2 = .rejected e) := by
  refine ⟨?_, ?_⟩
  · intro created h
    unfold start at h
    split at h
    · simp at h
    · split at h
      · simp at h
      · split at h
        · simp at h
        · next chain hchain =>
          simp only [] at h
          split at h
          · next n step hname hstep =>
            simp only [] at h
            obtain ⟨h1, h2⟩ := convo_create_resolved _ _ _ _ _ h
            simp only [] at h1 h2
            rw [hname] at hstep
            simp only [] at hstep
            have hentry : assoc_get chain n = some step := by
              cases hget : assoc_get chain n with
              | none => rw [hget] at hstep; simp [Option.filter] at hstep
              | some s2 =>
                rw [hget] at hstep
                simp only [Option.filter] at hstep
                split at hstep
                · exact hstep
                · simp at hstep
            exact ⟨chain, n, step, hchain, hname, hentry, h1, h2⟩
          · simp at h
  · intro chain n hchain hname hmiss
    unfold start
    split
    · exact ⟨rfl, _, rfl⟩
    · split
      · exact ⟨rfl, _, rfl⟩
      · simp [hchain, hname, hmiss, Option.filter]

/-- C18, the code at the failing input: started at the step `legal_resident`
for a user in Nevada, `exports.start` creates the conversation with the state
`{type: 'vote_1', step: 'legal_resident'}`, but its first message is the
message of the step as it is written, placeholder included, not the message
rendered against the user as `exports.next` sends it. Without `options.start`
the conversation starts at `intro_direct`; for a name that is no step of the
chain, start fails after the user lookup and creates nothing. -/
theorem start_sends_raw_template :
    start (chains sample_env) start_stores "vote_1" 7 { start := some "legal_resident" } =
      ([.user_get 7,
        .batch_create [.str "+15551234567"],
        .conversation_create 1 "bot" (some ⟨"vote_1", "legal_resident"⟩),
        .recipients_delete 5,
        .recipients_create 5 [.num 7],
        .message_create 1 5 "Are you a current legal resident of \x7b\x7bsettings.state\x7d\x7d?"],
       .resolved
        { id := 5, type := "bot", state := some ⟨"vote_1", "legal_resident"⟩,
          message := "Are you a current legal resident of \x7b\x7bsettings.state\x7d\x7d?" }) ∧
    template "Are you a current legal resident of \x7b\x7bsettings.state\x7d\x7d?"
        (.obj [("id", .num 7), ("username", .str "+15551234567"),
          ("settings", .obj [("state", .str "NV")])])
      = "Are you a current legal resident of NV?" ∧
    (start (chains sample_env) start_stores "vote_1" 7 { start := none }).2 =
      .resolved
        { id := 5, type := "bot", state := some ⟨"vote_1", "intro_direct"⟩,
          message := "Hi! Let's get you registered to vote. What's your first name?" } ∧
    start (chains sample_env) start_stores "vote_1" 7 { start := some "dob" } =
      ([.user_get 7], .rejected ⟨"bot: error loading step: vote_1.undefined", false, false⟩) :=
  ⟨by decide, by decide, by decide, by decide⟩

/-! ### C19: the names `vote_1` requests -/

/-- C19, the code at the failing input: the requirement list of Alabama names
`18` and that of California `state_resident`, and the step `state` declares,
and its hook returns, the next step `dob`; none of the three is a key of
`chains.vote_1`, and `18` and `state_resident` are the only entries of the
requirement lists that are not. So the turn of a user in Alabama who answers `yes` at `us_citizen` stores the answer,
fails to resolve `per_state`, which overrides to `18`, and ends with the
apology, the conversation left at `us_citizen`. -/
theorem vote_1_not_closed :
    (assoc_get vote_per_state "al" = some ["us_citizen", "18", "state_id"] ∧
      (chains_get (chains sample_env) "vote_1" "18").isNone = true) ∧
    (assoc_get vote_per_state "ca"
        = some ["us_citizen", "state_resident", "18", "ssn_last4", "state_id"] ∧
      (chains_get (chains sample_env) "vote_1" "state_resident").isNone = true) ∧
    (simple_store "user.settings.state" "dob" (some "Please enter your state") none "NV"
        = .returned (.resolved { next := "dob", store := some [("user.settings.state", .str "NV")] }) ∧
      state_pre_process ⟨"state", none⟩ ⟨1, ⟨"vote_1", "address"⟩⟩ california_user
        = .ok (some { next := some "dob" }) ∧
      (chains_get (chains sample_env) "vote_1" "dob").isNone = true) ∧
    (∀ p ∈ vote_per_state, ∀ k ∈ p.2,
      (chains_get (chains sample_env) "vote_1" k).isSome = true ∨ k = "18" ∨
        k = "state_resident") ∧
    next (chains sample_env) sample_env alabama_stores 3 7 ⟨1, ⟨"vote_1", "us_citizen"⟩⟩ ⟨"yes"⟩ =
      { events :=
          [.user_get 7, .process "yes",
           .user_update 7 (.obj [("id", .num 7),
             ("settings", .obj [("state", .str "AL"), ("us_citizen", .bool true)])]),
           .find_next_step "per_state" (.obj [("id", .num 7),
             ("settings", .obj [("state", .str "AL"), ("us_citizen", .bool true)])]),
           .message_create 1 1 apology],
        conversation := ⟨1, ⟨"vote_1", "us_citizen"⟩⟩, result := .resolved () } :=
  ⟨⟨by decide, by decide⟩, ⟨by decide, by decide⟩, ⟨by decide, rfl, by decide⟩,
    by decide, by decide⟩

/-! ### C20: a per-state step stores under its own name -/

theorem validate_date_no_extras (env : Env) : NoExtras (validate_date env) := by
  intro body value extra h
  unfold validate_date at h
  split at h
  · simp at h
  · simp at h; exact h.2.symm

theorem validate_boolean_yes_no_extras (env : Env) : NoExtras (validate_boolean_yes env) := by
  intro body value extra h
  unfold validate_boolean_yes at h
  simp only [] at h
  split at h
  · simp at h
  · split at h
    · simp at h
    · simp at h; exact h.2.symm

theorem validate_boolean_no_no_extras (env : Env) : NoExtras (validate_boolean_no env) := by
  intro body value extra h
  unfold validate_boolean_no at h
  simp only [] at h
  split at h
  · simp at h
  · split at h
    · simp at h
    · simp at h; exact h.2.symm

theorem validate_gender_no_extras (env : Env) : NoExtras (validate_gender env) := by
  intro body value extra h
  unfold validate_gender at h
  simp only [] at h
  split at h
  · simp at h
  · simp at h; exact h.2.symm

theorem validate_ssn_no_extras : NoExtras validate_ssn := by
  intro body value extra h
  unfold validate_ssn at h
  split at h
  · simp at h
  · split at h
    · simp at h; exact h.2.symm
    · simp at h

/-- A successful transition of `simple_store` whose validator, if it has one,
gives no further assignment: the declared next step and the one assignment. -/
theorem simple_store_single (store next : String) (errormsg : Option String)
    (validate : Option Validator) (hv : ∀ v, validate = some v → NoExtras v)
    (body : String) (a : Action)
    (h : simple_store store next errormsg validate body = .returned (.resolved a)) :
    a.next = next ∧ ∃ value, a.store = some [(store, value)] := by
  obtain ⟨_, hnext, hstore⟩ := simple_store_resolved store next errormsg validate body a h
  refine ⟨hnext, ?_⟩
  rcases hstore with ⟨_, hs⟩ | ⟨v, value, extra, hval, hres, hs⟩
  · exact ⟨_, hs⟩
  · have := hv v hval body value extra hres
    subst this
    exact ⟨value, by rw [hs]; rfl⟩

/-- C20. Field name equals step name: each of the fourteen per-state question
steps of `chains.vote_1` is a step of the chain with a processor, and every
successful transition of that processor declares `per_state` as its next step
and assigns one path, `user.settings.` followed by the name of the step. -/
theorem per_state_steps_store (env : Env) :
    ∀ name ∈ per_state_steps,
      ∃ s proc, chains_get (chains env) "vote_1" name = some (.step s) ∧
        s.process = some proc ∧
        ∀ body a, proc body = .returned (.resolved a) →
          a.next = "per_state" ∧
          ∃ value, a.store = some [("user.settings." ++ name, value)] := by
  have hnone : ∀ v : Validator, (none : Option Validator) = some v → NoExtras v := by
    intro v h; cases h
  have hsome : ∀ w : Validator, NoExtras w →
      ∀ v : Validator, some w = some v → NoExtras v := by
    intro w hw v h; cases h; exact hw
  simp only [per_state_steps, List.forall_mem_cons]
  refine ⟨?_, ?_, ?_, ?_, ?_, ?_, ?_, ?_, ?_, ?_, ?_, ?_, ?_, ?_, ?_⟩
  all_goals first
    | (intro x hx; exact absurd hx (List.not_mem_nil x))
    | (refine ⟨_, _, rfl, rfl, fun body a hres => ?_⟩
       first
        | exact simple_store_single _ _ _ _ hnone body a hres
        | exact simple_store_single _ _ _ _ (hsome _ (validate_date_no_extras env)) body a hres
        | exact simple_store_single _ _ _ _ (hsome _ (validate_boolean_yes_no_extras env))
            body a hres
        | exact simple_store_single _ _ _ _ (hsome _ (validate_boolean_no_no_extras env))
            body a hres
        | exact simple_store_single _ _ _ _ (hsome _ (validate_gender_no_extras env)) body a hres
        | exact simple_store_single _ _ _ _ (hsome _ validate_ssn_no_extras) body a hres)

/-- C20, at a concrete input: the answer `yes` at the step `us_citizen`. -/
theorem per_state_steps_store_witness :
    ∃ s proc, chains_get (chains sample_env) "vote_1" "us_citizen" = some (.step s) ∧
      s.process = some proc ∧
      proc "yes" = .returned (.resolved
        { next := "per_state", store := some [("user.settings.us_citizen", .bool true)] }) := by
  obtain ⟨s, proc, hget, hproc, _⟩ :=
    per_state_steps_store sample_env "us_citizen" (by decide)
  refine ⟨s, proc, hget, hproc, ?_⟩
  have hs : chains_get (chains sample_env) "vote_1" "us_citizen"
      = some (ask "Are you a US citizen?"
          (simple_store "user.settings.us_citizen" "per_state" (some "")
            (some (validate_boolean_yes sample_env)))) := rfl
  rw [hs] at hget
  simp only [ask, Option.some.injEq, ChainEntry.step.injEq] at hget
  subst hget
  simp only [Option.some.injEq] at hproc
  subst hproc
  decide

/-! ### C21: what the step `email` stores -/

theorem mem_dropWhile_of_not (p : Char → Bool) (c : Char) (hc : p c = false) :
    ∀ l : List Char, c ∈ l → c ∈ l.dropWhile p := by
  intro l
  induction l with
  | nil => intro h; exact h
  | cons d ds ih =>
    intro h
    by_cases hd : p d = true
    · rw [List.dropWhile_cons_of_pos hd]
      rcases List.mem_cons.1 h with h1 | h1
      · rw [h1, hd] at hc; exact absurd hc (by decide)
      · exact ih h1
    · rw [List.dropWhile_cons_of_neg hd]
      exact h

/-- A body that holds a character that is not white space is not blank. -/
theorem js_trim_ne_empty (body : String) (c : Char) (hmem : c ∈ body.data)
    (hc : is_js_whitespace c = false) : js_trim body ≠ "" := by
  have h1 := mem_dropWhile_of_not is_js_whitespace c hc _ hmem
  have h2 := mem_dropWhile_of_not is_js_whitespace c hc _ (List.mem_reverse.2 h1)
  have h3 : c ∈ (js_trim body).data := by
    unfold js_trim
    exact List.mem_reverse.2 h2
  intro h
  rw [h] at h3
  exact absurd h3 (by simp)

/-- On every body that holds an `@`, the processor of the step `email` succeeds
with the next step `per_state` and one assignment, of `user.settings.email` to
the array the match of the pattern returns, which holds the text `@`. -/
theorem email_step_stores_match (body : String) (h : '@' ∈ body.data) :
    simple_store "user.settings.email" "per_state" (some "Please enter your email address")
        (some validate_email) body
      = .returned (.resolved
          { next := "per_state", store := some [("user.settings.email", .arr ["@"])] }) := by
  have hb := js_trim_ne_empty body '@' h (by decide)
  simp [simple_store, hb, validate_email, h, field_set]

/-- C21, the code at the failing input: on the message `ann@example.com` the
processor of the step `email` succeeds with the next step `per_state` and one
assignment to `user.settings.email`, but the value assigned is the array of
the pattern match, which holds `@`, not the text of the message. -/
theorem email_step_stores_match_array :
    (∃ s, chains_get (chains sample_env) "vote_1" "email" = some (.step s) ∧
      s.process = some (simple_store "user.settings.email" "per_state"
        (some "Please enter your email address") (some validate_email))) ∧
    simple_store "user.settings.email" "per_state" (some "Please enter your email address")
        (some validate_email) "ann@example.com"
      = .returned (.resolved
          { next := "per_state", store := some [("user.settings.email", .arr ["@"])] }) ∧
    simple_store "user.settings.email" "per_state" (some "Please enter your email address")
        (some validate_email) "ann@example.com"
      ≠ .returned (.resolved
          { next := "per_state",
            store := some [("user.settings.email", .str "ann@example.com")] }) :=
  ⟨⟨_, rfl, rfl⟩, by decide, by decide⟩

/-! ### C22: progress of the scheduler -/

theorem split_dots_settings (k : String) (h : '.' ∉ k.data) :
    split_dots ("settings." ++ k).data = ["settings", k] := by
  have hd : ("settings." ++ k).data
      = 's' :: 'e' :: 't' :: 't' :: 'i' :: 'n' :: 'g' :: 's' :: '.' :: k.data := by
    rw [String.data_append]; rfl
  rw [hd]
  simp [split_dots, split_dots_dotless k.data h]

theorem strip_record_user (path : String) : strip_record ("user." ++ path) = path := by
  have hd : ("user." ++ path).data = 'u' :: 's' :: 'e' :: 'r' :: '.' :: path.data := by
    rw [String.data_append]; rfl
  unfold strip_record
  rw [hd]
  simp [after_first_dot, is_line_terminator]

theorem field_get_field_set_ne (l : List (String × JSVal)) (k j : String) (v : JSVal)
    (h : j ≠ k) : field_get (field_set l k v) j = field_get l j := by
  induction l with
  | nil => simp [field_set, field_get, Ne.symm h]
  | cons p rest ih =>
    obtain ⟨k2, v2⟩ := p
    unfold field_set
    split
    · next hk =>
      subst hk
      simp [field_get, Ne.symm h]
    · next hk =>
      simp only [field_get, ih]

/-- A user whose `settings.state` is a string is an object whose `settings`
are an object. -/
theorem settings_of_state (user : JSVal) (s : String)
    (hs : object_get user "settings.state" = .str s) :
    ∃ fields sf, user = .obj fields ∧ field_get fields "settings" = .obj sf := by
  have hp : split_dots "settings.state".data = ["settings", "state"] := by decide
  unfold object_get at hs
  rw [hp] at hs
  cases user with
  | obj fields =>
    simp only [get_path] at hs
    cases hset : field_get fields "settings" with
    | obj sf => exact ⟨fields, sf, rfl, hset⟩
    | undefined => rw [hset] at hs; simp [get_path] at hs
    | null => rw [hset] at hs; simp [get_path] at hs
    | bool b => rw [hset] at hs; simp [get_path] at hs
    | num n => rw [hset] at hs; simp [get_path] at hs
    | str t => rw [hset] at hs; simp [get_path] at hs
    | arr xs => rw [hset] at hs; simp [get_path] at hs
  | undefined => simp [get_path] at hs
  | null => simp [get_path] at hs
  | bool b => simp [get_path] at hs
  | num n => simp [get_path] at hs
  | str t => simp [get_path] at hs
  | arr xs => simp [get_path] at hs

/-- Reading a setting after another setting was written: the value written
under the same name, the old value under any other name. -/
theorem object_get_settings_set (user : JSVal) (fields sf : List (String × JSVal))
    (hu : user = .obj fields) (hset : field_get fields "settings" = .obj sf)
    (k j : String) (hk : '.' ∉ k.data) (hj : '.' ∉ j.data) (v : JSVal) :
    object_get (object_set user ("settings." ++ k) v) ("settings." ++ j)
      = if j = k then v else object_get user ("settings." ++ j) := by
  subst hu
  unfold object_get object_set
  rw [split_dots_settings k hk, split_dots_settings j hj]
  simp only [set_path, get_path, hset, field_get_field_set]
  by_cases hjk : j = k
  · subst hjk
    simp [field_get_field_set]
  · simp [hjk, field_get_field_set_ne _ _ _ _ hjk]

theorem first_unanswered_skip (user : JSVal) (pre rest : List String)
    (hpre : ∀ j ∈ pre, object_get user ("settings." ++ j) ≠ .undefined) :
    first_unanswered user ((pre ++ rest).map JSVal.str)
      = first_unanswered user (rest.map JSVal.str) := by
  induction pre with
  | nil => rfl
  | cons j more ih =>
    have hj := hpre j (List.mem_cons_self _ _)
    simp only [List.cons_append, List.map_cons, first_unanswered, js_to_string]
    rw [if_pos ((is_defined_iff _).2 hj)]
    exact ih (fun x hx => hpre x (List.mem_cons_of_mem _ hx))

theorem first_unanswered_result (user : JSVal) (l : List String) :
    first_unanswered user (l.map JSVal.str) = .null ∨
    ∃ n ∈ l, first_unanswered user (l.map JSVal.str) = .str n ∧
      object_get user ("settings." ++ n) = .undefined := by
  induction l with
  | nil => left; rfl
  | cons j more ih =>
    simp only [List.map_cons, first_unanswered, js_to_string]
    by_cases hj : is_defined (object_get user ("settings." ++ j)) = true
    · rw [if_pos hj]
      rcases ih with h | ⟨n, hn, h1, h2⟩
      · left; exact h
      · right; exact ⟨n, List.mem_cons_of_mem _ hn, h1, h2⟩
    · rw [if_neg hj]
      right
      refine ⟨j, List.mem_cons_self _ _, rfl, ?_⟩
      cases hv : object_get user ("settings." ++ j) <;> simp [hv, is_defined] at hj ⊢

/-- Progress of the scheduler, where the stored value is defined. For a user
whose `settings.state` is a string and whose requirement list is
`pre ++ k :: post`, with every entry of `pre` answered and `k` not, so that
the scheduler routes to `k`: once a value that is not `undefined` is assigned
to `user.settings.k`, the value is read back at `settings.k`, and the scheduler
then routes to an entry of `post`, strictly later than `k`, or to `party`,
and not to `k`. -/
theorem per_state_progress (env : Env) (action : Action) (conversation : Conversation)
    (user : JSVal) (s : String) (L pre post : List String) (k : String) (value : JSVal)
    (hs : object_get user "settings.state" = .str s)
    (hL : assoc_get vote_per_state (env.toLowerCase (js_trim s)) = some L)
    (hsplit : L = pre ++ k :: post)
    (hpre : ∀ j ∈ pre, object_get user ("settings." ++ j) ≠ .undefined)
    (hk : object_get user ("settings." ++ k) = .undefined)
    (hvalue : value ≠ .undefined) :
    object_get (apply_store user [("user.settings." ++ k, value)]) ("settings." ++ k) = value ∧
    ∃ n, per_state_pre_process env action conversation
          (apply_store user [("user.settings." ++ k, value)])
        = .ok (some { next := some n }) ∧
      n ≠ k ∧ (n = "party" ∨ n ∈ post) := by
  obtain ⟨fields, sf, hu, hset⟩ := settings_of_state user s hs
  have hkeys : ∀ p ∈ vote_per_state, ∀ j ∈ p.2,
      '.' ∉ j.data ∧ j ≠ "state" ∧ j ≠ "party" ∧ j ≠ "" := by decide
  have hLkeys := hkeys _ (assoc_get_mem _ _ _ hL)
  simp only [] at hLkeys
  have hkL : k ∈ L := by rw [hsplit]; simp
  obtain ⟨hkdot, hkstate, hkparty, _⟩ := hLkeys k hkL
  have hstore : apply_store user [("user.settings." ++ k, value)]
      = object_set user ("settings." ++ k) value := by
    have hkey : "user.settings." ++ k = "user." ++ ("settings." ++ k) := by
      rw [← String.append_assoc]; rfl
    simp only [apply_store, List.foldl]
    rw [hkey, strip_record_user]
  rw [hstore]
  have hget : ∀ j, '.' ∉ j.data →
      object_get (object_set user ("settings." ++ k) value) ("settings." ++ j)
        = if j = k then value else object_get user ("settings." ++ j) :=
    fun j hj => object_get_settings_set user fields sf hu hset k j hkdot hj value
  have hk2 : object_get (object_set user ("settings." ++ k) value) ("settings." ++ k) = value := by
    rw [hget k hkdot]; simp
  refine ⟨hk2, ?_⟩
  have hs2 : object_get (object_set user ("settings." ++ k) value) "settings.state" = .str s := by
    have hst : ("settings.state" : String) = "settings." ++ "state" := by decide
    rw [hst, hget "state" (by decide), if_neg (Ne.symm hkstate), ← hst]
    exact hs
  have hpre2 : ∀ j ∈ pre ++ [k],
      object_get (object_set user ("settings." ++ k) value) ("settings." ++ j) ≠ .undefined := by
    intro j hj
    rcases List.mem_append.1 hj with h1 | h1
    · have hjL : j ∈ L := by rw [hsplit]; simp [h1]
      have hjk : j ≠ k := fun h => hpre j h1 (by rw [h]; exact hk)
      rw [hget j (hLkeys j hjL).1, if_neg hjk]
      exact hpre j h1
    · simp at h1
      rw [h1, hk2]
      exact hvalue
  have hsplit2 : L = (pre ++ [k]) ++ post := by rw [hsplit]; simp
  have hskip := first_unanswered_skip
    (object_set user ("settings." ++ k) value) (pre ++ [k]) post hpre2
  simp only [per_state_pre_process, hs2, vote_per_state_get, hL]
  rw [hsplit2, hskip]
  rcases first_unanswered_result (object_set user ("settings." ++ k) value) post with
    h | ⟨n, hn, h1, h2⟩
  · rw [h]
    exact ⟨"party", rfl, Ne.symm hkparty, Or.inl rfl⟩
  · rw [h1]
    have hnL : n ∈ L := by rw [hsplit]; simp [hn]
    have hne : n ≠ "" := (hLkeys n hnL).2.2.2
    have hnk : n ≠ k := by
      intro h
      rw [h, hk2] at h2
      exact hvalue h2
    refine ⟨n, ?_, hnk, Or.inr hn⟩
    simp [hne]

theorem validate_date_defined (env : Env) : DefinedValue (validate_date env) := by
  intro body value extra h
  unfold validate_date at h
  split at h
  · simp at h
  · simp at h; rw [← h.1]; simp

theorem validate_boolean_yes_defined (env : Env) : DefinedValue (validate_boolean_yes env) := by
  intro body value extra h
  unfold validate_boolean_yes at h
  simp only [] at h
  split at h
  · simp at h
  · split at h
    · simp at h
    · simp at h; rw [← h.1]; simp

theorem validate_boolean_no_defined (env : Env) : DefinedValue (validate_boolean_no env) := by
  intro body value extra h
  unfold validate_boolean_no at h
  simp only [] at h
  split at h
  · simp at h
  · split at h
    · simp at h
    · simp at h; rw [← h.1]; simp

theorem validate_ssn_defined : DefinedValue validate_ssn := by
  intro body value extra h
  unfold validate_ssn at h
  split at h
  · simp at h
  · split at h
    · simp at h; rw [← h.1]; simp
    · simp at h

/-- A successful transition of `simple_store` whose validator, if it has one,
gives a defined value and no further assignment: one assignment, of a value
that is not `undefined`. -/
theorem simple_store_defined (store next : String) (errormsg : Option String)
    (validate : Option Validator) (hv : ∀ v, validate = some v → NoExtras v ∧ DefinedValue v)
    (body : String) (a : Action)
    (h : simple_store store next errormsg validate body = .returned (.resolved a)) :
    a.next = next ∧ ∃ value, a.store = some [(store, value)] ∧ value ≠ .undefined := by
  obtain ⟨_, hnext, hstore⟩ := simple_store_resolved store next errormsg validate body a h
  refine ⟨hnext, ?_⟩
  rcases hstore with ⟨_, hs⟩ | ⟨v, value, extra, hval, hres, hs⟩
  · exact ⟨_, hs, by simp⟩
  · have hno := (hv v hval).1 body value extra hres
    have hdef := (hv v hval).2 body value extra hres
    subst hno
    exact ⟨value, by rw [hs]; rfl, hdef⟩

/-- Every per-state question step of `vote_1` but `gender` stores, on success,
a value that is not `undefined` under its own name. -/
theorem per_state_steps_defined (env : Env) :
    ∀ name ∈ per_state_steps, name ≠ "gender" →
      ∃ s proc, chains_get (chains env) "vote_1" name = some (.step s) ∧
        s.process = some proc ∧
        ∀ body a, proc body = .returned (.resolved a) →
          a.next = "per_state" ∧
          ∃ value, a.store = some [("user.settings." ++ name, value)] ∧
            value ≠ .undefined := by
  have hnone : ∀ v : Validator, (none : Option Validator) = some v →
      NoExtras v ∧ DefinedValue v := by
    intro v h; cases h
  have hsome : ∀ w : Validator, NoExtras w → DefinedValue w →
      ∀ v : Validator, some w = some v → NoExtras v ∧ DefinedValue v := by
    intro w h1 h2 v h; cases h; exact ⟨h1, h2⟩
  simp only [per_state_steps, List.forall_mem_cons]
  refine ⟨?_, ?_, ?_, ?_, ?_, ?_, ?_, ?_, ?_, ?_, ?_, ?_, ?_, ?_, ?_⟩
  all_goals first
    | (intro x hx; exact absurd hx (List.not_mem_nil x))
    | (intro hg; exact absurd rfl hg)
    | (intro _
       refine ⟨_, _, rfl, rfl, fun body a hres => ?_⟩
       first
        | exact simple_store_defined _ _ _ _ hnone body a hres
        | exact simple_store_defined _ _ _ _
            (hsome _ (validate_date_no_extras env) (validate_date_defined env)) body a hres
        | exact simple_store_defined _ _ _ _
            (hsome _ (validate_boolean_yes_no_extras env) (validate_boolean_yes_defined env))
            body a hres
        | exact simple_store_defined _ _ _ _
            (hsome _ (validate_boolean_no_no_extras env) (validate_boolean_no_defined env))
            body a hres
        | exact simple_store_defined _ _ _ _
            (hsome _ validate_ssn_no_extras validate_ssn_defined) body a hres)

/-- Progress of the scheduler after a turn, for every per-state question step
but `gender`: when the scheduler routes a user to the step `k`, a successful
transition of the step's processor, applied to the user record, leaves a value
at `settings.k`, and the scheduler then routes to an entry strictly later than
`k` in the requirement list or to `party`, and not to `k`. -/
theorem scheduler_progress (env : Env) (action : Action) (conversation : Conversation)
    (user : JSVal) (s : String) (L pre post : List String) (k : String)
    (hs : object_get user "settings.state" = .str s)
    (hL : assoc_get vote_per_state (env.toLowerCase (js_trim s)) = some L)
    (hsplit : L = pre ++ k :: post)
    (hpre : ∀ j ∈ pre, object_get user ("settings." ++ j) ≠ .undefined)
    (hk : object_get user ("settings." ++ k) = .undefined)
    (hstep : k ∈ per_state_steps) (hgender : k ≠ "gender") :
    ∃ st proc, chains_get (chains env) "vote_1" k = some (.step st) ∧
      st.process = some proc ∧
      ∀ body a, proc body = .returned (.resolved a) →
        a.next = "per_state" ∧
        object_get (apply_store user (a.store.getD [])) ("settings." ++ k) ≠ .undefined ∧
        ∃ n, per_state_pre_process env action conversation (apply_store user (a.store.getD []))
            = .ok (some { next := some n }) ∧
          n ≠ k ∧ (n = "party" ∨ n ∈ post) := by
  obtain ⟨st, proc, hget, hproc, hall⟩ := per_state_steps_defined env k hstep hgender
  refine ⟨st, proc, hget, hproc, fun body a hres => ?_⟩
  obtain ⟨hnext, value, hstore, hdef⟩ := hall body a hres
  obtain ⟨hread, hprog⟩ := per_state_progress env action conversation user s L pre post k value
    hs hL hsplit hpre hk hdef
  rw [hstore]
  simp only [Option.getD]
  exact ⟨hnext, by rw [hread]; exact hdef, hprog⟩

/-- C22, the code at the failing inputs. A user in California answers `yes` at
`us_citizen`: the answer is stored, the scheduler routes on to
`state_resident`, which is no step of `vote_1`, so resolving `per_state` fails,
the user gets the apology and the conversation stays at `us_citizen`, where
every further answer ends the same way. A user in Hawaii answers `robot` at
`gender`, a text for which `get_gender` returns `undefined`: the validator
lets it pass, `undefined` is stored at `settings.gender`, and the scheduler
routes to `gender` again, so the turn asks the same question and saves the
same step. -/
theorem scheduler_no_progress :
    (per_state_pre_process sample_env ⟨"per_state", none⟩ ⟨1, ⟨"vote_1", "us_citizen"⟩⟩
          (.obj [("id", .num 7),
            ("settings", .obj [("state", .str "CA"), ("us_citizen", .bool true)])])
        = .ok (some { next := some "state_resident" }) ∧
      (chains_get (chains sample_env) "vote_1" "state_resident").isNone = true ∧
      next (chains sample_env) sample_env california_stores 3 7
          ⟨1, ⟨"vote_1", "us_citizen"⟩⟩ ⟨"yes"⟩ =
        { events :=
            [.user_get 7, .process "yes",
             .user_update 7 (.obj [("id", .num 7),
               ("settings", .obj [("state", .str "CA"), ("us_citizen", .bool true)])]),
             .find_next_step "per_state" (.obj [("id", .num 7),
               ("settings", .obj [("state", .str "CA"), ("us_citizen", .bool true)])]),
             .message_create 1 1 apology],
          conversation := ⟨1, ⟨"vote_1", "us_citizen"⟩⟩, result := .resolved () }) ∧
    (simple_store "user.settings.gender" "per_state" (some "") (some (validate_gender table_env))
          "robot"
        = .returned (.resolved
            { next := "per_state", store := some [("user.settings.gender", .undefined)] }) ∧
      per_state_pre_process table_env ⟨"per_state", none⟩ ⟨1, ⟨"vote_1", "gender"⟩⟩
          (.obj [("id", .num 7),
            ("settings", .obj [("state", .str "HI"), ("state_id", .str "H00123456"),
              ("ssn", .arr ["123-45-6789"]), ("gender", .undefined)])])
        = .ok (some { next := some "gender" }) ∧
      next (chains table_env) table_env hawaii_stores 3 7 ⟨1, ⟨"vote_1", "gender"⟩⟩ ⟨"robot"⟩ =
        { events :=
            [.user_get 7, .process "robot",
             .user_update 7 (.obj [("id", .num 7),
               ("settings", .obj [("state", .str "HI"), ("state_id", .str "H00123456"),
                 ("ssn", .arr ["123-45-6789"]), ("gender", .undefined)])]),
             .find_next_step "per_state" (.obj [("id", .num 7),
               ("settings", .obj [("state", .str "HI"), ("state_id", .str "H00123456"),
                 ("ssn", .arr ["123-45-6789"]), ("gender", .undefined)])]),
             .message_create 1 1 "What's your gender?",
             .convo_update 1 ⟨"vote_1", "gender"⟩],
          conversation := ⟨1, ⟨"vote_1", "gender"⟩⟩, result := .resolved () }) :=
  ⟨⟨rfl, by decide, by decide⟩, ⟨by decide, rfl, by decide⟩⟩

end Votebot
